import Mathlib

/-!
Flare interpreter: a shallow embedding

The C++ sources `variable.cpp`, `parser.cpp`, `utils.cpp`, `error_handler.cpp`,
`memory_manager.cpp` and `flare_interpreter.cpp` are transcribed function by
function.

Conventions of the embedding:

* `std::string` is `List Char` (`Str`); scripts are taken to be ASCII.
* `std::string::npos` is `none`; `size_t` indices are `Nat`.
* `int` is `Int`, wrapped to 32 bits after every arithmetic operation.
* `float` is a fixed-point decimal with six fractional digits (the digits that
  `std::to_string` prints); rounding, infinities and NaN are not modelled.
* `std::map` is an association list with replace-in-place insertion; a
  `std::stack` is a list whose head is the top.
* The interpreter object is the record `St`; every member function takes the
  state and returns the new state next to its C++ return value.
* Functions that can loop or recurse without bound take a fuel argument and
  return `none` when the fuel is exhausted.
* `std::cout` is the field `out` (one entry per statement that writes);
  the text written to `std::cerr` is not modelled, the error and warning lists
  of `ErrorHandler` are.
* The field `trace` is ghost state: `processLine` appends every line it is
  given, so that "the lines executed" can be stated.
-/

namespace Flare

abbrev Str := List Char

/-! ## `std::string` helpers -/

/-- The predicate `std::isspace` of the C locale. -/
def isspace (c : Char) : Bool :=
  c == ' ' || c == '\t' || c == '\n' || c == '\x0b' || c == '\x0c' || c == '\r'

/-- The predicate `std::isdigit`. -/
def isdigit (c : Char) : Bool :=
  decide ('0'.toNat ≤ c.toNat) && decide (c.toNat ≤ '9'.toNat)

/-- `Utils::trim` and `Parser::trim`: strip white space at both ends. -/
def trim (s : Str) : Str :=
  ((s.dropWhile isspace).reverse.dropWhile isspace).reverse

/-- `s.find(c)` for a character. -/
def findChar (c : Char) : Str → Option Nat
  | [] => none
  | x :: xs => if x = c then some 0 else (findChar c xs).map (· + 1)

/-- `s.find(c, pos)` for a character. -/
def findCharFrom (c : Char) (s : Str) (pos : Nat) : Option Nat :=
  (findChar c (s.drop pos)).map (· + pos)

/-- `s.find(pat)` for a string pattern. -/
def findStr (pat : Str) : Str → Option Nat
  | [] => if pat.isEmpty then some 0 else none
  | x :: xs =>
    if pat.isPrefixOf (x :: xs) then some 0 else (findStr pat xs).map (· + 1)

/-- `s.find(pat, pos)` for a string pattern. -/
def findStrFrom (pat : Str) (s : Str) (pos : Nat) : Option Nat :=
  if s.length < pos then none else (findStr pat (s.drop pos)).map (· + pos)

/-- `s.find_last_of(c)` for a character. -/
def findLastChar (c : Char) (s : Str) : Option Nat :=
  (findChar c s.reverse).map (fun i => s.length - 1 - i)

/-- `s.find(pat) == 0`. -/
def startsWith (pat s : Str) : Bool := findStr pat s == some 0

/-- `s.find(pat) != npos`. -/
def containsStr (pat s : Str) : Bool := (findStr pat s).isSome

/-- `s.find(c) != npos`. -/
def containsChar (c : Char) (s : Str) : Bool := (findChar c s).isSome

/-- `s.substr(pos, n)`. -/
def substr (s : Str) (pos n : Nat) : Str := (s.drop pos).take n

/-- `s.substr(pos)`. -/
def substrFrom (s : Str) (pos : Nat) : Str := s.drop pos

/-- The test `s.size() >= 2 && s.front() == '"' && s.back() == '"'`. -/
def isQuoted (s : Str) : Bool :=
  decide (2 ≤ s.length) && s.head? == some '"' && s.getLast? == some '"'

/-- `s.substr(1, s.size() - 2)`. -/
def stripQuotes (s : Str) : Str := substr s 1 (s.length - 2)

/-- `std::tolower` on one character. -/
def tolower (c : Char) : Char :=
  if 'A'.toNat ≤ c.toNat ∧ c.toNat ≤ 'Z'.toNat then Char.ofNat (c.toNat + 32) else c

/-- Reading with `std::getline` until the stream is exhausted. -/
def splitLines : Str → Str → List Str
  | [], cur => if cur.isEmpty then [] else [cur.reverse]
  | c :: cs, cur => if c = '\n' then cur.reverse :: splitLines cs [] else splitLines cs (c :: cur)

/-! ## Numbers -/

/-- Wrap an integer to the 32-bit two's complement range of `int`. -/
def wrap32 (i : Int) : Int := (i + 2147483648) % 4294967296 - 2147483648

/-- Value of a run of decimal digits. -/
def digitsToNat (ds : Str) : Nat := ds.foldl (fun acc c => acc * 10 + (c.toNat - 48)) 0

/-- Split an optional sign off a numeric text. -/
def splitSign : Str → Bool × Str
  | '-' :: r => (true, r)
  | '+' :: r => (false, r)
  | s => (false, s)

/-- `std::stoi(s)`: `none` stands for the exception (no digits, or out of range). -/
def stoi (s : Str) : Option Int :=
  let p := splitSign (s.dropWhile isspace)
  let ds := p.2.takeWhile isdigit
  if ds.isEmpty then none
  else
    let v : Int := if p.1 then -(digitsToNat ds : Int) else (digitsToNat ds : Int)
    if v < -2147483648 ∨ 2147483647 < v then none else some v

/-- Hexadecimal digit test. -/
def isxdigit (c : Char) : Bool :=
  isdigit c || (decide ('a'.toNat ≤ c.toNat) && decide (c.toNat ≤ 'f'.toNat))
    || (decide ('A'.toNat ≤ c.toNat) && decide (c.toNat ≤ 'F'.toNat))

/-- Value of one hexadecimal digit. -/
def xdigitVal (c : Char) : Nat :=
  if isdigit c then c.toNat - 48
  else if 'a'.toNat ≤ c.toNat then c.toNat - 87 else c.toNat - 55

/-- `std::stoi(s, nullptr, 16)`. -/
def stoiHex (s : Str) : Option Int :=
  let p := splitSign (s.dropWhile isspace)
  let body : Str :=
    match p.2 with
    | '0' :: x :: h :: r => if (x == 'x' || x == 'X') && isxdigit h then h :: r else p.2
    | _ => p.2
  let ds := body.takeWhile isxdigit
  if ds.isEmpty then none
  else
    let n : Nat := ds.foldl (fun acc c => acc * 16 + xdigitVal c) 0
    let v : Int := if p.1 then -(n : Int) else (n : Int)
    if v < -2147483648 ∨ 2147483647 < v then none else some v

/-- `std::stoul(s)`: `none` stands for the exception. -/
def stoul (s : Str) : Option Nat :=
  let p := splitSign (s.dropWhile isspace)
  let ds := p.2.takeWhile isdigit
  if ds.isEmpty then none
  else
    let n := digitsToNat ds
    if 18446744073709551615 < n then none
    else some (if p.1 then (18446744073709551616 - n) % 18446744073709551616 else n)

/-- `std::to_string` on an unsigned value. -/
def natToString (n : Nat) : Str := Nat.toDigits 10 n

/-- `std::to_string(int)`. -/
def intToString (i : Int) : Str :=
  if i < 0 then '-' :: natToString i.natAbs else natToString i.natAbs

/-- A `float`, modelled as a number of millionths. -/
structure CFloat where
  micro : Int
  deriving DecidableEq, Repr

/-- Pad or cut a run of fraction digits to six digits. -/
def fracMicro (ds : Str) : Nat := digitsToNat ((ds ++ "000000".toList).take 6)

/-- `std::stof(s)`: `none` stands for the exception (no digits). -/
def stof (s : Str) : Option CFloat :=
  let p := splitSign (s.dropWhile isspace)
  let ip := p.2.takeWhile isdigit
  let rest := p.2.dropWhile isdigit
  let fp : Str :=
    match rest with
    | '.' :: r => r.takeWhile isdigit
    | _ => []
  if ip.isEmpty && fp.isEmpty then none
  else
    let m : Nat := digitsToNat ip * 1000000 + fracMicro fp
    some ⟨if p.1 then -(m : Int) else (m : Int)⟩

/-- `std::to_string(float)`: fixed notation with six fractional digits. -/
def floatToString (f : CFloat) : Str :=
  let a := f.micro.natAbs
  let frac := natToString (a % 1000000)
  let body := natToString (a / 1000000) ++ '.' :: (List.replicate (6 - frac.length) '0' ++ frac)
  if f.micro < 0 then '-' :: body else body

/-! ## `Variable` (variable.h, variable.cpp) -/

/-- The enumeration `Variable::Type`. -/
inductive VType where
  | STRING | INTEGER | FLOAT | BINARY | LIST | BOOLEAN | UNKNOWN
  deriving DecidableEq, Repr

mutual
/-- The class `Variable`: `m_typeAndName`, `m_name`, `m_type`, `m_value`. -/
inductive Variable where
  | mk (typeAndName : Str) (name : Str) (type : VType) (value : Value)
/-- The variant `Variable::ValueType`. -/
inductive Value where
  | str (s : Str)
  | int (i : Int)
  | float (f : CFloat)
  | bool (b : Bool)
  | list (l : VarList)
/-- The alternative `std::vector<Variable>` of the variant. -/
inductive VarList where
  | nil
  | cons (v : Variable) (t : VarList)
end

/-- Field `m_typeAndName`. -/
def Variable.typeAndName : Variable → Str
  | .mk t _ _ _ => t

/-- Field `m_name`. -/
def Variable.name : Variable → Str
  | .mk _ n _ _ => n

/-- Field `m_type` (`Variable::getType`). -/
def Variable.type : Variable → VType
  | .mk _ _ t _ => t

/-- Field `m_value`. -/
def Variable.value : Variable → Value
  | .mk _ _ _ v => v

/-- `Variable::typeFromString`. -/
def typeFromString (typeStr : Str) : VType :=
  if typeStr = "str".toList then .STRING
  else if typeStr = "int".toList then .INTEGER
  else if typeStr = "fl".toList then .FLOAT
  else if typeStr = "bin".toList then .BINARY
  else if typeStr = "ls".toList then .LIST
  else if typeStr = "act".toList then .BOOLEAN
  else .STRING

/-- The value that `Variable::setValueFromString` stores for a given `m_type`. -/
def setValueFromString (ty : VType) (value : Str) : Value :=
  match ty with
  | .STRING => if isQuoted value then .str (stripQuotes value) else .str value
  | .INTEGER => .int ((stoi value).getD 0)
  | .FLOAT => .float ((stof value).getD ⟨0⟩)
  | .BINARY =>
    if substr value 0 2 = "0x".toList then .int ((stoiHex (substrFrom value 2)).getD 0)
    else .int ((stoi value).getD 0)
  | .BOOLEAN =>
    let lowerValue := value.map tolower
    .bool (lowerValue = "true".toList || lowerValue = "1".toList)
  | .LIST => .list .nil
  | .UNKNOWN => .str value

/-- The default constructor `Variable::Variable()`. -/
def Variable.default : Variable :=
  .mk "unknown".toList "unknown".toList .UNKNOWN (.str [])

/-- The constructor `Variable::Variable(typeAndName, value)`. -/
def Variable.new (typeAndName value : Str) : Variable :=
  let dotPos := findChar '.' typeAndName
  let name : Str :=
    match dotPos with
    | some d => if d + 1 < typeAndName.length then substrFrom typeAndName (d + 1) else typeAndName
    | none => typeAndName
  let typeStr : Str :=
    match dotPos with
    | some d => substr typeAndName 0 d
    | none => "str".toList
  let ty := typeFromString typeStr
  .mk typeAndName name ty (setValueFromString ty value)

/-- `Variable::getTypeString`. -/
def Variable.getTypeString (v : Variable) : Str :=
  match findChar '.' v.typeAndName with
  | some d => substr v.typeAndName 0 d
  | none =>
    match v.type with
    | .STRING => "str".toList
    | .INTEGER => "int".toList
    | .FLOAT => "fl".toList
    | .BINARY => "bin".toList
    | .LIST => "ls".toList
    | .BOOLEAN => "act".toList
    | .UNKNOWN => "unknown".toList

mutual
/-- `Variable::getValueAsString`. -/
def Variable.getValueAsString : Variable → Str
  | .mk _ _ _ v => v.asString
/-- The alternatives of `Variable::getValueAsString`. -/
def Value.asString : Value → Str
  | .str s => s
  | .int i => intToString i
  | .float f => floatToString f
  | .bool b => if b then "true".toList else "false".toList
  | .list l => '[' :: (l.asString ++ [']'])
/-- The loop of `Variable::getValueAsString` over a list value. -/
def VarList.asString : VarList → Str
  | .nil => []
  | .cons v .nil => v.getValueAsString
  | .cons v (.cons w t) => v.getValueAsString ++ ", ".toList ++ (VarList.cons w t).asString
end

/-- `Variable::getIntValue`. -/
def Variable.getIntValue (v : Variable) : Int :=
  match v.value with
  | .int i => i
  | _ => 0

/-- `Variable::getFloatValue`. -/
def Variable.getFloatValue (v : Variable) : CFloat :=
  match v.value with
  | .float f => f
  | _ => ⟨0⟩

/-- `Variable::getStringValue`. -/
def Variable.getStringValue (v : Variable) : Str :=
  match v.value with
  | .str s => s
  | _ => []

/-- `Variable::getBoolValue`. -/
def Variable.getBoolValue (v : Variable) : Bool :=
  match v.value with
  | .bool b => b
  | _ => false

/-- `Variable::getListValue`. -/
def Variable.getListValue (v : Variable) : VarList :=
  match v.value with
  | .list l => l
  | _ => .nil

/-- `push_back` on the list alternative. -/
def VarList.pushBack : VarList → Variable → VarList
  | .nil, x => .cons x .nil
  | .cons v t, x => .cons v (t.pushBack x)

/-- `Variable::addToList`. -/
def Variable.addToList (v : Variable) (x : Variable) : Variable :=
  if v.type = .LIST then
    match v.value with
    | .list l => .mk v.typeAndName v.name v.type (.list (l.pushBack x))
    | _ => .mk v.typeAndName v.name v.type (.list (.cons x .nil))
  else v

/-- `Variable::isString`. -/
def Variable.isString (v : Variable) : Bool := v.type = .STRING

/-- `Variable::isInteger`. -/
def Variable.isInteger (v : Variable) : Bool := v.type = .INTEGER

/-- `Variable::isFloat`. -/
def Variable.isFloat (v : Variable) : Bool := v.type = .FLOAT

/-- `Variable::isBinary`. -/
def Variable.isBinary (v : Variable) : Bool := v.type = .BINARY

/-- `Variable::isList`. -/
def Variable.isList (v : Variable) : Bool := v.type = .LIST

/-- `Variable::isBoolean`. -/
def Variable.isBoolean (v : Variable) : Bool := v.type = .BOOLEAN

/-! ## `std::map` as an association list -/

/-- `m.find(k)`: the mapped value, `none` for `m.end()`. -/
def mapFind {β : Type} : List (Str × β) → Str → Option β
  | [], _ => none
  | (k0, v) :: r, k => if k0 = k then some v else mapFind r k

/-- `m[k] = v`. -/
def mapSet {β : Type} : List (Str × β) → Str → β → List (Str × β)
  | [], k, v => [(k, v)]
  | (k0, v0) :: r, k, v => if k0 = k then (k, v) :: r else (k0, v0) :: mapSet r k v

/-- `m.erase(k)`. -/
def mapErase {β : Type} : List (Str × β) → Str → List (Str × β)
  | [], _ => []
  | (k0, v0) :: r, k => if k0 = k then r else (k0, v0) :: mapErase r k

/-- `m.find(k) != m.end()`. -/
def mapHas {β : Type} (m : List (Str × β)) (k : Str) : Bool := (mapFind m k).isSome

abbrev VarMap := List (Str × Variable)

/-! ## Parser (parser.cpp) -/

/-- `Parser::isVariableDeclaration`. -/
def isVariableDeclaration (line : Str) : Bool := containsChar '=' line

/-- `Parser::parseVariableDeclaration`. -/
def parseVariableDeclaration (line : Str) : Str × Str × Str :=
  match findChar '=' line with
  | none => ([], [], [])
  | some equalsPos =>
    let lhs := trim (substr line 0 equalsPos)
    let rhs := trim (substrFrom line (equalsPos + 1))
    match findChar '.' lhs with
    | none => ("str".toList, lhs, rhs)
    | some dotPos => (trim (substr lhs 0 dotPos), trim (substrFrom lhs (dotPos + 1)), rhs)

/-- `Parser::splitByWhitespace`: the tokens read by `iss >> token`. -/
def splitByWhitespace : Str → Str → List Str
  | [], cur => if cur.isEmpty then [] else [cur.reverse]
  | c :: cs, cur =>
    if isspace c then
      (if cur.isEmpty then splitByWhitespace cs [] else cur.reverse :: splitByWhitespace cs [])
    else splitByWhitespace cs (c :: cur)

/-- The loop of `Parser::parseParenthesizedArgs`; `cur` is `currentArg` reversed. -/
def parseArgsLoop : Str → Str → Bool → Int → List Str
  | [], cur, _, _ => if cur.isEmpty then [] else [trim cur.reverse]
  | c :: cs, cur, inQuotes, nested =>
    if c = '"' then parseArgsLoop cs (c :: cur) (!inQuotes) nested
    else if c = '(' ∧ inQuotes = false then parseArgsLoop cs (c :: cur) inQuotes (nested + 1)
    else if c = ')' ∧ inQuotes = false then parseArgsLoop cs (c :: cur) inQuotes (nested - 1)
    else if c = ',' ∧ inQuotes = false ∧ nested = 0 then
      trim cur.reverse :: parseArgsLoop cs [] inQuotes nested
    else parseArgsLoop cs (c :: cur) inQuotes nested

/-- `Parser::parseParenthesizedArgs`. -/
def parseParenthesizedArgs (argsStr : Str) : List Str := parseArgsLoop argsStr [] false 0

/-- `Parser::parseLine`. -/
def parseLine (line : Str) : Str × List Str :=
  let trimmedLine := trim line
  if isVariableDeclaration trimmedLine then
    let d := parseVariableDeclaration trimmedLine
    (d.1 ++ '.' :: d.2.1, [d.2.2])
  else
    let spaceSplit : Str × List Str :=
      match splitByWhitespace trimmedLine [] with
      | [] => ([], [])
      | command :: args => (command, args)
    match findChar '(' trimmedLine with
    | none => spaceSplit
    | some openParen =>
      match findCharFrom ')' trimmedLine openParen with
      | none => spaceSplit
      | some closeParen =>
        (trim (substr trimmedLine 0 openParen),
          parseParenthesizedArgs (substr trimmedLine (openParen + 1) (closeParen - openParen - 1)))

/-! ## Interpreter state (flare_interpreter.h) -/

/-- The struct `FunctionDefinition`. -/
structure FunctionDefinition where
  name : Str
  parameters : List Str
  body : List Str

/-- The struct `FlameMemory`. -/
structure FlameMemory where
  name : Str
  size : Nat
  data : VarMap

/-- The struct `Library`; `handle = none` is the null pointer. -/
structure Library where
  name : Str
  handle : Option Nat
  functions : List (Str × Nat)
  isLoaded : Bool

/-- The struct `MemoryBlock` (the pointer is always null). -/
structure MemoryBlock where
  id : Int
  description : Str
  size : Nat
  isVirtual : Bool

/-- The platform services the interpreter calls: the dynamic loader, the
native call through a resolved symbol, and the compile-time architecture. -/
structure Platform where
  dlopen : Str → Option Nat
  dlerror : Str
  dlsym : Nat → Str → Option Nat
  dlclose : Nat → Bool
  callNative : Nat → List Str → Option Str
  arch : Str

/-- The members of `FlareInterpreter`, of its `ErrorHandler` and of its
`MemoryManager`, with the two standard streams and the ghost trace. -/
structure St where
  platform : Platform
  version : Str
  isDynamicMode : Bool
  script : Str
  scriptLines : List Str
  currentLine : Nat
  isRunning : Bool
  memoryBlocks : List (Int × MemoryBlock)
  totalMemory : Nat
  errors : List Str
  warnings : List Str
  globalVariables : VarMap
  localVariables : List VarMap
  userFunctions : List (Str × FunctionDefinition)
  callStack : List Nat
  flameMemory : List (Str × FlameMemory)
  builtInFunctions : List (Str × (List Variable → Variable))
  libraries : List (Str × Library)
  out : List Str
  stdin : List Str
  trace : List Str

/-- Result of a member function: its return value and the new state, or
`none` when the fuel ran out. -/
abbrev Res (α : Type) := Option (α × St)

/-- `ErrorHandler::reportError` (the message list; the text on stderr is not modelled). -/
def reportError (st : St) (message : Str) : St :=
  { st with errors := st.errors ++ [message] }

/-- `ErrorHandler::reportWarning`. -/
def reportWarning (st : St) (message : Str) : St :=
  { st with warnings := st.warnings ++ [message] }

/-- A statement writing to `std::cout`. -/
def cout (st : St) (text : Str) : St :=
  { st with out := st.out ++ [text] }

/-- The ordered-map operations on the integer-keyed block table. -/
def blockFind : List (Int × MemoryBlock) → Int → Option MemoryBlock
  | [], _ => none
  | (k0, v) :: r, k => if k0 = k then some v else blockFind r k

/-- `m_memoryBlocks.erase(it)`. -/
def blockErase : List (Int × MemoryBlock) → Int → List (Int × MemoryBlock)
  | [], _ => []
  | (k0, v0) :: r, k => if k0 = k then r else (k0, v0) :: blockErase r k

/-- `MemoryManager::allocateMemoryInternal`. -/
def allocateMemoryInternal (st : St) (description : Str) (size : Nat) (id : Int)
    (isVirtual : Bool) : Bool × St :=
  match blockFind st.memoryBlocks id with
  | some _ => (false, st)
  | none =>
    let size1 := if size = 0 then 1024 else size
    let st1 := { st with memoryBlocks := st.memoryBlocks ++ [(id, ⟨id, description, size1, isVirtual⟩)] }
    (true, cout st1 ((if isVirtual then "Virtual".toList else "Regular".toList)
      ++ " memory allocated: ID=".toList ++ intToString id ++ ", Description=".toList
      ++ description ++ ", Size=".toList ++ natToString size1 ++ " bytes\n".toList))

/-- `MemoryManager::allocateMemory`. -/
def allocateMemory (st : St) (description : Str) (size : Nat) (id : Int) : Bool × St :=
  allocateMemoryInternal st description size id false

/-- `MemoryManager::allocateVirtualMemory`. -/
def allocateVirtualMemory (st : St) (description : Str) (size : Nat) (id : Int) : Bool × St :=
  allocateMemoryInternal st description size id true

/-- `MemoryManager::freeMemory`. -/
def freeMemory (st : St) (id : Int) (mode : Int) : Bool × St :=
  match blockFind st.memoryBlocks id with
  | none => (false, st)
  | some b =>
    let st1 := cout st ("Freeing ".toList ++ (if b.isVirtual then "virtual".toList else "regular".toList)
      ++ " memory: ID=".toList ++ intToString id ++ ", Description=".toList ++ b.description
      ++ ", Mode=".toList ++ intToString mode ++ "\n".toList)
    (true, { st1 with memoryBlocks := blockErase st1.memoryBlocks id })

/-! ## Scope: `getVariable`, `setVariable` -/

/-- The numeric-literal loop of `getVariable` and `processFunctionCall`:
returns `(isNumeric, isFloat)`; `first` says that the index is 0. -/
def numericLoop : Str → Bool → Bool → Bool × Bool
  | [], _, isFloat => (true, isFloat)
  | c :: cs, first, isFloat =>
    if first ∧ c = '-' then numericLoop cs false isFloat
    else if c = '.' then numericLoop cs false true
    else if !isdigit c then (false, isFloat)
    else numericLoop cs false isFloat

/-- The branch of `getVariable` that decides a token without looking at the
scopes: empty text, numeric literal, quoted string. -/
def literalOf (name : Str) : Option Variable :=
  if name.isEmpty then some (Variable.new "str.empty".toList [])
  else if (numericLoop name true false).1 then
    (if (numericLoop name true false).2 then some (Variable.new "fl.literal".toList name)
     else some (Variable.new "int.literal".toList name))
  else if isQuoted name then some (Variable.new "str.literal".toList (stripQuotes name))
  else none

/-- The lookup of `getVariable` in the top local table, then the global one. -/
def lookupScopes (st : St) (name : Str) : Option Variable :=
  match st.localVariables with
  | [] => mapFind st.globalVariables name
  | locals :: _ =>
    match mapFind locals name with
    | some v => some v
    | none => mapFind st.globalVariables name

/-- `FlareInterpreter::getVariable`. -/
def getVariable (st : St) (name : Str) : Variable :=
  match literalOf name with
  | some v => v
  | none =>
    match lookupScopes st name with
    | some v => v
    | none => Variable.new "str.undefined".toList []

/-- `FlareInterpreter::setVariable`. -/
def setVariable (st : St) (name : Str) (value : Variable) : St :=
  match st.localVariables with
  | locals :: rest => { st with localVariables := mapSet locals name value :: rest }
  | [] => { st with globalVariables := mapSet st.globalVariables name value }

/-- The name of the return slot. -/
def returnSlot : Str := "__return_value".toList

/-- `m_globalVariables["__return_value"] = v`. -/
def setReturnValue (st : St) (v : Variable) : St :=
  { st with globalVariables := mapSet st.globalVariables returnSlot v }

/-! ## Conditions -/

/-- Comparison of two floats. -/
def CFloat.lt (a b : CFloat) : Bool := decide (a.micro < b.micro)

/-- `FlareInterpreter::evaluateCondition`, the tail after the four operators. -/
def evaluateConditionDefault (st : St) (condition : Str) : Bool :=
  if condition = "true".toList ∨ condition = "1".toList then true
  else if condition = "false".toList ∨ condition = "0".toList then false
  else
    let condVar := getVariable st condition
    if condVar.isBoolean then condVar.getBoolValue
    else if condVar.isInteger then decide (condVar.getIntValue ≠ 0)
    else if condVar.isString then !condVar.getStringValue.isEmpty
    else false

/-- `FlareInterpreter::evaluateCondition`, from the `==` test on. -/
def evaluateConditionEq (st : St) (condition : Str) : Bool :=
  match findStr "==".toList condition with
  | some comparePos =>
    let leftVar := trim (substr condition 0 comparePos)
    let rightVar := trim (substrFrom condition (comparePos + 2))
    let leftVal := getVariable st leftVar
    if isQuoted rightVar then
      (if leftVal.isString then decide (leftVal.getStringValue = stripQuotes rightVar)
       else decide (leftVal.getValueAsString = stripQuotes rightVar))
    else
      let rightVal := getVariable st rightVar
      if leftVal.isInteger && rightVal.isInteger then
        decide (leftVal.getIntValue = rightVal.getIntValue)
      else if leftVal.isFloat && rightVal.isFloat then
        decide (leftVal.getFloatValue = rightVal.getFloatValue)
      else if leftVal.isString && rightVal.isString then
        decide (leftVal.getStringValue = rightVal.getStringValue)
      else decide (leftVal.getValueAsString = rightVal.getValueAsString)
  | none => evaluateConditionDefault st condition

/-- `FlareInterpreter::evaluateCondition`, from the `<` test on. -/
def evaluateConditionLt (st : St) (condition : Str) : Bool :=
  match findChar '<' condition with
  | some comparePos =>
    let leftVal := getVariable st (trim (substr condition 0 comparePos))
    let rightVal := getVariable st (trim (substrFrom condition (comparePos + 1)))
    if leftVal.isInteger && rightVal.isInteger then
      decide (leftVal.getIntValue < rightVal.getIntValue)
    else if leftVal.isFloat && rightVal.isFloat then
      CFloat.lt leftVal.getFloatValue rightVal.getFloatValue
    else evaluateConditionEq st condition
  | none => evaluateConditionEq st condition

/-- `FlareInterpreter::evaluateCondition`, from the `>` test on. -/
def evaluateConditionGt (st : St) (condition : Str) : Bool :=
  match findChar '>' condition with
  | some comparePos =>
    let leftVal := getVariable st (trim (substr condition 0 comparePos))
    let rightVal := getVariable st (trim (substrFrom condition (comparePos + 1)))
    if leftVal.isInteger && rightVal.isInteger then
      decide (rightVal.getIntValue < leftVal.getIntValue)
    else if leftVal.isFloat && rightVal.isFloat then
      CFloat.lt rightVal.getFloatValue leftVal.getFloatValue
    else evaluateConditionLt st condition
  | none => evaluateConditionLt st condition

/-- `FlareInterpreter::evaluateCondition`. -/
def evaluateCondition (st : St) (condition : Str) : Bool :=
  match findStr "!=".toList condition with
  | some neqPos =>
    let leftVar := trim (substr condition 0 neqPos)
    let rightVar := trim (substrFrom condition (neqPos + 2))
    let leftVal := getVariable st leftVar
    if isQuoted rightVar then
      (if leftVal.isString then decide (leftVal.getStringValue ≠ stripQuotes rightVar)
       else decide (leftVal.getValueAsString ≠ stripQuotes rightVar))
    else
      let rightVal := getVariable st rightVar
      if leftVal.isInteger && rightVal.isInteger then
        decide (leftVal.getIntValue ≠ rightVal.getIntValue)
      else if leftVal.isFloat && rightVal.isFloat then
        decide (leftVal.getFloatValue ≠ rightVal.getFloatValue)
      else decide (leftVal.getValueAsString ≠ rightVal.getValueAsString)
  | none => evaluateConditionGt st condition

/-! ## Block matching -/

/-- Position of the brace scan inside a line. -/
inductive ScanMode where
  | code | inString | escaped
  deriving DecidableEq, Repr

/-- The character loop used by `processIfStatement` and `processFunction`:
a `#` ends the line, a double quote opens a string that runs to the next
unescaped double quote, and outside strings `\x7b` adds 1 to `braceCount`
and `\x7d` subtracts 1; the loop stops when the count reaches 0. -/
def scanBraces : Str → ScanMode → Int → Int
  | [], _, braceCount => braceCount
  | c :: cs, .code, braceCount =>
    if c = '#' then braceCount
    else if c = '"' then scanBraces cs .inString braceCount
    else
      let b1 := if c = '\x7b' then braceCount + 1 else braceCount
      let b2 := if c = '\x7d' then b1 - 1 else b1
      if b2 = 0 then b2 else scanBraces cs .code b2
  | c :: cs, .inString, braceCount =>
    if c = '"' then scanBraces cs .code braceCount
    else if c = '\\' then scanBraces cs .escaped braceCount
    else scanBraces cs .inString braceCount
  | _ :: cs, .escaped, braceCount => scanBraces cs .inString braceCount

/-- The character loop used by `processForLoop` and `processWhileLoop`:
every brace counts. -/
def scanBracesNaive : Str → Int → Int
  | [], braceCount => braceCount
  | c :: cs, braceCount =>
    let b1 := if c = '\x7b' then braceCount + 1 else braceCount
    let b2 := if c = '\x7d' then b1 - 1 else b1
    if b2 = 0 then b2 else scanBracesNaive cs b2

/-- The line loop `while (end < size && braceCount > 0)` over the lines that
start at index `blockEnd`. -/
def blockLoop (scan : Str → Int → Int) : List Str → Int → Nat → Nat
  | [], _, blockEnd => blockEnd
  | l :: ls, braceCount, blockEnd =>
    if 0 < braceCount then blockLoop scan ls (scan l braceCount) (blockEnd + 1) else blockEnd

/-- End index of the block that starts at `blockStart`, with string and
comment handling. -/
def findBlockEnd (lines : List Str) (blockStart : Nat) : Nat :=
  blockLoop (fun l b => scanBraces l .code b) (lines.drop blockStart) 1 blockStart

/-- End index of the block that starts at `blockStart`, counting every brace. -/
def findBlockEndNaive (lines : List Str) (blockStart : Nat) : Nat :=
  blockLoop scanBracesNaive (lines.drop blockStart) 1 blockStart

/-- The lines `m_scriptLines[i]` for `blockStart <= i < blockEnd - 1`. -/
def blockLines (lines : List Str) (blockStart blockEnd : Nat) : List Str :=
  (lines.drop blockStart).take (blockEnd - 1 - blockStart)

/-! ## The recursive knot

`processLine`, `processFunctionCall` and `evaluateExpression` call each other
without bound.  Each function body below is written against a record `Rec` of
the three functions at the next lower fuel; `interp` ties the knot. -/

/-- The three mutually recursive member functions at a given fuel, and the
number of iterations a `for` or `while` loop may take at that fuel. -/
structure Rec where
  loopFuel : Nat
  processLine : Str → St → Res Bool
  processFunctionCall : Str → List Str → St → Res Bool
  evaluateExpression : Str → St → Res Variable

/-- The loop `for (i = start; i < end - 1; i++) { processLine(lines[i]);
if (!m_isRunning) return false; }` of the block executors. The result is
`false` when the loop left through `return false`. -/
def execBlock (pl : Str → St → Res Bool) : List Str → St → Res Bool
  | [], st => some (true, st)
  | l :: ls, st =>
    match pl l st with
    | none => none
    | some (_, st1) => if st1.isRunning then execBlock pl ls st1 else some (false, st1)

/-- Splitting at a delimiter with `find` and trimming every piece, the last
piece included. -/
def splitTrim (d : Char) : Str → Str → List Str
  | [], cur => [trim cur.reverse]
  | c :: cs, cur =>
    if c = d then trim cur.reverse :: splitTrim d cs [] else splitTrim d cs (c :: cur)

/-! ## Expressions -/

/-- Float arithmetic of the model. -/
def CFloat.add (a b : CFloat) : CFloat := ⟨a.micro + b.micro⟩

/-- Float arithmetic of the model. -/
def CFloat.sub (a b : CFloat) : CFloat := ⟨a.micro - b.micro⟩

/-- Float arithmetic of the model. -/
def CFloat.mul (a b : CFloat) : CFloat := ⟨(a.micro * b.micro).tdiv 1000000⟩

/-- Float arithmetic of the model. -/
def CFloat.div (a b : CFloat) : CFloat := ⟨(a.micro * 1000000).tdiv b.micro⟩

/-- `evaluateExpression`: the last-resort result. -/
def evalFallback (expr : Str) (st : St) : Res Variable :=
  some (Variable.new "str.literal".toList expr, st)

/-- `evaluateExpression`: the method-call section (`string.contains`). -/
def evalMethod (expr : Str) (st : St) : Res Variable :=
  match findChar '.' expr with
  | none => evalFallback expr st
  | some dotPos =>
    match findCharFrom '(' expr dotPos with
    | none => evalFallback expr st
    | some openParen =>
      match findCharFrom ')' expr openParen with
      | none => evalFallback expr st
      | some closeParen =>
        let objName := trim (substr expr 0 dotPos)
        let methodName := trim (substr expr (dotPos + 1) (openParen - dotPos - 1))
        if methodName = "contains".toList then
          let obj := getVariable st objName
          if obj.isString then
            let argsStr := substr expr (openParen + 1) (closeParen - openParen - 1)
            let argVar := getVariable st argsStr
            let searchStr : Str :=
              if argVar.getTypeString ≠ "str.undefined".toList then argVar.getStringValue
              else if isQuoted argsStr then stripQuotes argsStr
              else argsStr
            let contains := containsStr searchStr obj.getStringValue
            some (Variable.new "act.result".toList
              (if contains then "true".toList else "false".toList), st)
          else evalFallback expr st
        else evalFallback expr st

/-- The test `args.size() > 0 && args[0] == text`. -/
def firstArgIs (args : List Str) (text : Str) : Bool :=
  match args with
  | [] => false
  | a :: _ => a = text

/-- `evaluateExpression`, function-call section: the two debug statements
that follow the call. -/
def callDebug (funcName : Str) (args : List Str) (functionSuccess : Bool) (st1 : St) : St :=
  let st2 := cout st1 ("DEBUG: Function ".toList ++ funcName ++ " called with ".toList
    ++ natToString args.length ++ " args, success: ".toList
    ++ (if functionSuccess then "true".toList else "false".toList) ++ "\n".toList)
  match args with
  | [] => st2
  | a :: _ => cout st2 ("DEBUG: First arg value = '".toList ++ a ++ "'\n".toList)

/-- `evaluateExpression`, function-call section: the value returned after the
call.  The read of `args[0]` on an empty vector in the last `factorial` test
is undefined behaviour; the model takes that comparison to be false. -/
def callResult (funcName : Str) (args : List Str) (st3 : St) : Variable × St :=
  if funcName = "factorial".toList ∧ firstArgIs args "5".toList then
    (Variable.new "int.result".toList "120".toList, st3)
  else if funcName = "factorial".toList ∧ firstArgIs args "4".toList then
    (Variable.new "int.result".toList "24".toList, st3)
  else if funcName = "factorial".toList ∧ firstArgIs args "3".toList then
    (Variable.new "int.result".toList "6".toList, st3)
  else if funcName = "factorial".toList ∧ firstArgIs args "2".toList then
    (Variable.new "int.result".toList "2".toList, st3)
  else if funcName = "factorial".toList
      ∧ (firstArgIs args "1".toList ∨ firstArgIs args "0".toList) then
    (Variable.new "int.result".toList "1".toList, st3)
  else
    match mapFind st3.globalVariables returnSlot with
    | some returnVal =>
      (returnVal, cout st3 ("DEBUG: Return value is: '".toList
        ++ returnVal.getValueAsString ++ "', type: ".toList ++ returnVal.getTypeString
        ++ "\n".toList))
    | none =>
      (Variable.new "int.default".toList "0".toList,
        cout st3 "DEBUG: __return_value not found in global variables!\n".toList)

/-- `evaluateExpression`: the function-call section. -/
def evalCall (r : Rec) (expr : Str) (st : St) : Res Variable :=
  match findChar '(' expr, findLastChar ')' expr with
  | some openParen, some closeParen =>
    if openParen < closeParen then
      let funcName := trim (substr expr 0 openParen)
      let argsStr := substr expr (openParen + 1) (closeParen - openParen - 1)
      let args : List Str := if argsStr.isEmpty then [] else splitTrim ',' argsStr []
      match r.processFunctionCall funcName args st with
      | none => none
      | some (functionSuccess, st1) =>
        some (callResult funcName args (callDebug funcName args functionSuccess st1))
    else evalMethod expr st
  | _, _ => evalMethod expr st

/-- `evaluateExpression`: the division section. -/
def evalDiv (r : Rec) (expr : Str) (st : St) : Res Variable :=
  match findChar '/' expr with
  | none => evalCall r expr st
  | some divPos =>
    match r.evaluateExpression (trim (substr expr 0 divPos)) st with
    | none => none
    | some (leftVal, st1) =>
      match r.evaluateExpression (trim (substrFrom expr (divPos + 1))) st1 with
      | none => none
      | some (rightVal, st2) =>
        if rightVal.isInteger ∧ rightVal.getIntValue = 0 then
          some (Variable.new "str.error".toList "Division by zero".toList,
            reportError st2 "Division by zero".toList)
        else if rightVal.isFloat ∧ rightVal.getFloatValue = ⟨0⟩ then
          some (Variable.new "str.error".toList "Division by zero".toList,
            reportError st2 "Division by zero".toList)
        else if leftVal.isInteger ∧ rightVal.isInteger then
          some (Variable.new "int.result".toList
            (intToString (wrap32 (leftVal.getIntValue.tdiv rightVal.getIntValue))), st2)
        else if leftVal.isFloat ∧ rightVal.isFloat then
          some (Variable.new "fl.result".toList
            (floatToString (leftVal.getFloatValue.div rightVal.getFloatValue)), st2)
        else evalCall r expr st2

/-- `evaluateExpression`: the multiplication section. -/
def evalMul (r : Rec) (expr : Str) (st : St) : Res Variable :=
  match findChar '*' expr with
  | none => evalDiv r expr st
  | some mulPos =>
    match r.evaluateExpression (trim (substr expr 0 mulPos)) st with
    | none => none
    | some (leftVal, st1) =>
      match r.evaluateExpression (trim (substrFrom expr (mulPos + 1))) st1 with
      | none => none
      | some (rightVal, st2) =>
        if leftVal.isInteger ∧ rightVal.isInteger then
          some (Variable.new "int.result".toList
            (intToString (wrap32 (leftVal.getIntValue * rightVal.getIntValue))), st2)
        else if leftVal.isFloat ∧ rightVal.isFloat then
          some (Variable.new "fl.result".toList
            (floatToString (leftVal.getFloatValue.mul rightVal.getFloatValue)), st2)
        else evalDiv r expr st2

/-- `evaluateExpression`: the subtraction section. -/
def evalMinus (r : Rec) (expr : Str) (st : St) : Res Variable :=
  match findChar '-' expr with
  | none => evalMul r expr st
  | some minusPos =>
    if 0 < minusPos then
      match r.evaluateExpression (trim (substr expr 0 minusPos)) st with
      | none => none
      | some (leftVal, st1) =>
        match r.evaluateExpression (trim (substrFrom expr (minusPos + 1))) st1 with
        | none => none
        | some (rightVal, st2) =>
          if leftVal.isInteger ∧ rightVal.isInteger then
            some (Variable.new "int.result".toList
              (intToString (wrap32 (leftVal.getIntValue - rightVal.getIntValue))), st2)
          else if leftVal.isFloat ∧ rightVal.isFloat then
            some (Variable.new "fl.result".toList
              (floatToString (leftVal.getFloatValue.sub rightVal.getFloatValue)), st2)
          else evalMul r expr st2
    else evalMul r expr st

/-- `evaluateExpression`: the addition section. -/
def evalPlus (r : Rec) (expr : Str) (st : St) : Res Variable :=
  match findChar '+' expr with
  | none => evalMinus r expr st
  | some plusPos =>
    match r.evaluateExpression (trim (substr expr 0 plusPos)) st with
    | none => none
    | some (leftVal, st1) =>
      match r.evaluateExpression (trim (substrFrom expr (plusPos + 1))) st1 with
      | none => none
      | some (rightVal, st2) =>
        if leftVal.isInteger ∧ rightVal.isInteger then
          some (Variable.new "int.result".toList
            (intToString (wrap32 (leftVal.getIntValue + rightVal.getIntValue))), st2)
        else if leftVal.isFloat ∧ rightVal.isFloat then
          some (Variable.new "fl.result".toList
            (floatToString (leftVal.getFloatValue.add rightVal.getFloatValue)), st2)
        else if leftVal.isString ∨ rightVal.isString then
          some (Variable.new "str.result".toList
            (leftVal.getValueAsString ++ rightVal.getValueAsString), st2)
        else evalMinus r expr st2

/-- `FlareInterpreter::evaluateExpression`. -/
def evaluateExpressionB (r : Rec) (expr : Str) (st : St) : Res Variable :=
  let var := getVariable st expr
  if !var.getTypeString.isEmpty ∧ var.getTypeString ≠ "str.undefined".toList then some (var, st)
  else evalPlus r expr st

/-! ## Function definition and invocation -/

/-- `FlareInterpreter::processFunction`. -/
def processFunction (line : Str) (st : St) : Res Bool :=
  let trimmedLine := trim line
  if !startsWith "function ".toList trimmedLine then some (false, st)
  else
    match findCharFrom '(' trimmedLine 9 with
    | none =>
      some (false, reportError st "Invalid function syntax: missing opening parenthesis".toList)
    | some openParen =>
      let functionName := trim (substr trimmedLine 9 (openParen - 9))
      match findCharFrom ')' trimmedLine openParen with
      | none =>
        some (false, reportError st "Invalid function syntax: missing closing parenthesis".toList)
      | some closeParen =>
        let paramsStr := substr trimmedLine (openParen + 1) (closeParen - openParen - 1)
        let parameters : List Str := if paramsStr.isEmpty then [] else splitTrim ',' paramsStr []
        match findChar '\x7b' trimmedLine with
        | none =>
          some (false, reportError st "Invalid function syntax: missing opening brace".toList)
        | some _ =>
          let bodyStart := st.currentLine + 1
          let bodyEnd := findBlockEnd st.scriptLines bodyStart
          let func : FunctionDefinition :=
            ⟨functionName, parameters, (st.scriptLines.drop bodyStart).take (bodyEnd - bodyStart)⟩
          some (true, { st with
            userFunctions := mapSet st.userFunctions functionName func,
            currentLine := bodyEnd })

/-- One round of the argument-binding loop of `processFunctionCall`: the
Variable stored under the parameter name. -/
def bindArgument (st : St) (paramName argValue : Str) : Variable :=
  let argVar := getVariable st argValue
  if argVar.getTypeString ≠ "str.undefined".toList then argVar
  else if isQuoted argValue then Variable.new ("str.".toList ++ paramName) (stripQuotes argValue)
  else if (numericLoop argValue true false).1 then
    (if (numericLoop argValue true false).2 then Variable.new ("fl.".toList ++ paramName) argValue
     else Variable.new ("int.".toList ++ paramName) argValue)
  else Variable.new ("str.".toList ++ paramName) argValue

/-- The argument-binding loop of `processFunctionCall` (both lists have the
same length when it runs). -/
def bindArguments (st : St) : List Str → List Str → VarMap → VarMap
  | paramName :: ps, argValue :: as, localVars =>
    bindArguments st ps as (mapSet localVars paramName (bindArgument st paramName argValue))
  | _, _, localVars => localVars

/-- The cleanup `m_localVariables.pop(); m_currentLine = m_callStack.top();
m_callStack.pop();`.  On an empty call stack (undefined behaviour in C++)
the model keeps the line index. -/
def popFrame (st : St) : St :=
  { st with
    localVariables := st.localVariables.tail,
    currentLine := st.callStack.head?.getD st.currentLine,
    callStack := st.callStack.tail }

/-- The `return` line of a function body, with the trimmed text after
`return `. -/
def processReturn (r : Rec) (retValExpr : Str) (st : St) : Res Bool :=
  let simpleOrDefault : Res Bool :=
    if !containsChar '+' retValExpr ∧ !containsChar '-' retValExpr ∧ !containsChar '*' retValExpr
        ∧ !containsChar '/' retValExpr ∧ !containsChar '(' retValExpr then
      let returnValue := getVariable st retValExpr
      some (true, cout (setReturnValue (popFrame st) returnValue)
        ("DEBUG: In function, setting __return_value to '".toList ++ returnValue.getValueAsString
          ++ "', type: ".toList ++ returnValue.getTypeString ++ "\n".toList))
    else
      match evaluateExpressionB r retValExpr st with
      | none => none
      | some (returnValue, st1) =>
        some (true, cout (setReturnValue (popFrame st1) returnValue)
          ("DEBUG: In function default eval, setting __return_value to '".toList
            ++ returnValue.getValueAsString ++ "', type: ".toList ++ returnValue.getTypeString
            ++ "\n".toList))
  match findChar '*' retValExpr with
  | some mulPos =>
    let leftVal := getVariable st (trim (substr retValExpr 0 mulPos))
    let rightVal := getVariable st (trim (substrFrom retValExpr (mulPos + 1)))
    if leftVal.isInteger ∧ rightVal.isInteger then
      let result := wrap32 (leftVal.getIntValue * rightVal.getIntValue)
      some (true, setReturnValue (popFrame st)
        (Variable.new "int.result".toList (intToString result)))
    else simpleOrDefault
  | none => simpleOrDefault

/-- The element of `func.body` that the body loop of `processFunctionCall`
reads at an index. `func` is a reference to the entry of the registry, and the
loop iterates the vector of that entry: a `function` line that registers the
same name while the body runs overwrites the elements the loop goes on to
read. -/
def bodyLineAt (st : St) (name : Str) (index : Nat) : Option Str :=
  match mapFind st.userFunctions name with
  | some func => func.body.get? index
  | none => none

/-- The body loop of `processFunctionCall`, with what follows it. The first
number is the distance from the iterator to the end of the vector, both taken
when the loop starts; the second is the index of the element read next. Where
the entry was overwritten by a shorter body the C++ loop reads destroyed
elements, and where it was overwritten by a longer one it reads the storage
the vector gave up (undefined behaviour both): the model reads the entry as
it is and leaves the loop at an index the entry does not have. -/
def callBody (r : Rec) (name : Str) : Nat → Nat → St → Res Bool
  | 0, _, st =>
    some (true, setReturnValue (popFrame st)
      (Variable.new "int.__return_value".toList "0".toList))
  | count + 1, index, st =>
    match bodyLineAt st name index with
    | none =>
      some (true, setReturnValue (popFrame st)
        (Variable.new "int.__return_value".toList "0".toList))
    | some line =>
      let trimmedLine := trim line
      if startsWith "return ".toList trimmedLine then
        processReturn r (trim (substrFrom trimmedLine 7)) st
      else if trimmedLine = "\x7d".toList ∨ startsWith "\x7d else".toList trimmedLine
          ∨ startsWith "\x7d else if".toList trimmedLine then
        callBody r name count (index + 1) st
      else
        match r.processLine line st with
        | none => none
        | some (_, st1) =>
          if !st1.isRunning then some (false, popFrame st1)
          else callBody r name count (index + 1) st1

/-- `FlareInterpreter::processFunctionCall`. The body loop runs over the
entry of the registry itself, not over a copy of its body. -/
def processFunctionCallB (r : Rec) (name : Str) (args : List Str) (st : St) : Res Bool :=
  match mapFind st.userFunctions name with
  | none =>
    some (false, reportError st ("Function '".toList ++ name ++ "' not defined".toList))
  | some func =>
    if args.length ≠ func.parameters.length then
      some (false, reportError st ("Function '".toList ++ name ++ "' called with ".toList
        ++ natToString args.length ++ " arguments but requires ".toList
        ++ natToString func.parameters.length))
    else
      let localVars := bindArguments st func.parameters args []
      let st1 := { st with
        callStack := st.currentLine :: st.callStack,
        localVariables := localVars :: st.localVariables }
      callBody r name func.body.length 0 st1

/-! ## Control structures -/

/-- `FlareInterpreter::processIfStatement`. -/
def processIfStatement (r : Rec) (line : Str) (st : St) : Res Bool :=
  let trimmedLine := trim line
  match findChar '(' trimmedLine, findChar ')' trimmedLine, findChar '\x7b' trimmedLine with
  | some openParen, some closeParen, some openBrace =>
    if openParen < closeParen ∧ closeParen < openBrace then
      let condition := substr trimmedLine (openParen + 1) (closeParen - openParen - 1)
      let conditionMet := evaluateCondition st condition
      let ifBlockStart := st.currentLine + 1
      let ifBlockEnd := findBlockEnd st.scriptLines ifBlockStart
      let hasElseBlock : Bool :=
        match st.scriptLines.get? ifBlockEnd with
        | some l => trim l = "else".toList ∨ trim l = "else \x7b".toList
        | none => false
      let elseBlockStart := if hasElseBlock then ifBlockEnd + 1 else ifBlockEnd
      let elseBlockEnd :=
        if hasElseBlock then findBlockEnd st.scriptLines elseBlockStart else elseBlockStart
      if conditionMet then
        match execBlock r.processLine (blockLines st.scriptLines ifBlockStart ifBlockEnd) st with
        | none => none
        | some (false, st1) => some (false, st1)
        | some (true, st1) =>
          some (true, { st1 with
            currentLine := if hasElseBlock then elseBlockEnd - 1 else ifBlockEnd - 1 })
      else if hasElseBlock then
        match execBlock r.processLine (blockLines st.scriptLines elseBlockStart elseBlockEnd) st with
        | none => none
        | some (false, st1) => some (false, st1)
        | some (true, st1) => some (true, { st1 with currentLine := elseBlockEnd - 1 })
      else some (true, { st with currentLine := ifBlockEnd - 1 })
    else some (false, st)
  | _, _, _ => some (false, st)

/-- The increment clause of `processForLoop`, applied after one pass of the body. -/
def applyIncrement (r : Rec) (increment : Str) (st : St) : Option St :=
  if increment.isEmpty then some st
  else
    match findStr "++".toList increment with
    | some pos =>
      let varName := trim (substr increment 0 pos)
      let var := getVariable st varName
      if var.isInteger then
        some (setVariable st varName (Variable.new ("int.".toList ++ varName)
          (intToString (wrap32 (var.getIntValue + 1)))))
      else some st
    | none =>
      match findStr "--".toList increment with
      | some pos =>
        let varName := trim (substr increment 0 pos)
        let var := getVariable st varName
        if var.isInteger then
          some (setVariable st varName (Variable.new ("int.".toList ++ varName)
            (intToString (wrap32 (var.getIntValue - 1)))))
        else some st
      | none =>
        match findStr "+=".toList increment with
        | some plusEqualsPos =>
          let varName := trim (substr increment 0 plusEqualsPos)
          let valueStr := trim (substrFrom increment (plusEqualsPos + 2))
          let var := getVariable st varName
          let valueVar := getVariable st valueStr
          if var.isInteger ∧ valueVar.isInteger then
            some (setVariable st varName (Variable.new ("int.".toList ++ varName)
              (intToString (wrap32 (var.getIntValue + valueVar.getIntValue)))))
          else some st
        | none =>
          if containsChar '=' increment then
            (r.processLine ("int.".toList ++ increment) st).map Prod.snd
          else some st

/-- The loop `while (evaluateCondition(condition))` of `processForLoop`; the
result is `false` when the body loop left through `return false`. -/
def forIterate (r : Rec) (condition increment : Str) (body : List Str) : Nat → St → Res Bool
  | 0, _ => none
  | k + 1, st =>
    if evaluateCondition st condition then
      match execBlock r.processLine body st with
      | none => none
      | some (false, st1) => some (false, st1)
      | some (true, st1) =>
        match applyIncrement r increment st1 with
        | none => none
        | some st2 => forIterate r condition increment body k st2
    else some (true, st)

/-- `FlareInterpreter::processForLoop`. -/
def processForLoop (r : Rec) (line : Str) (st : St) : Res Bool :=
  let trimmedLine := trim line
  if !startsWith "for ".toList trimmedLine then some (false, st)
  else
    let syntaxError : Res Bool := some (false, reportError st "Invalid for loop syntax".toList)
    match findChar '(' trimmedLine, findChar ')' trimmedLine, findChar '\x7b' trimmedLine with
    | some openParen, some closeParen, some openBrace =>
      if openParen ≥ closeParen ∨ closeParen ≥ openBrace then syntaxError
      else
        let forParams := substr trimmedLine (openParen + 1) (closeParen - openParen - 1)
        match splitTrim ';' forParams [] with
        | [initialization, condition, increment] =>
          let loopBodyStart := st.currentLine + 1
          let loopBodyEnd := findBlockEndNaive st.scriptLines loopBodyStart
          let afterInit : Option St :=
            if initialization.isEmpty then some st
            else
              match findChar '=' initialization with
              | some equalsPos =>
                let varName := trim (substr initialization 0 equalsPos)
                let valueStr := trim (substrFrom initialization (equalsPos + 1))
                (r.processLine ("int.".toList ++ varName ++ " = ".toList ++ valueStr) st).map
                  Prod.snd
              | none => (r.processLine initialization st).map Prod.snd
          match afterInit with
          | none => none
          | some st1 =>
            match forIterate r condition increment
                (blockLines st.scriptLines loopBodyStart loopBodyEnd) r.loopFuel st1 with
            | none => none
            | some (false, st2) => some (false, st2)
            | some (true, st2) => some (true, { st2 with currentLine := loopBodyEnd - 1 })
        | _ =>
          some (false, reportError st
            "For loop requires initialization, condition, and increment".toList)
    | _, _, _ => syntaxError

/-- The loop `while (evaluateCondition(condition))` of `processWhileLoop`. -/
def whileIterate (r : Rec) (condition : Str) (body : List Str) : Nat → St → Res Bool
  | 0, _ => none
  | k + 1, st =>
    if evaluateCondition st condition then
      match execBlock r.processLine body st with
      | none => none
      | some (false, st1) => some (false, st1)
      | some (true, st1) => whileIterate r condition body k st1
    else some (true, st)

/-- `FlareInterpreter::processWhileLoop`. -/
def processWhileLoop (r : Rec) (line : Str) (st : St) : Res Bool :=
  let trimmedLine := trim line
  if !startsWith "while ".toList trimmedLine then some (false, st)
  else
    let syntaxError : Res Bool := some (false, reportError st "Invalid while loop syntax".toList)
    match findChar '(' trimmedLine, findChar ')' trimmedLine, findChar '\x7b' trimmedLine with
    | some openParen, some closeParen, some openBrace =>
      if openParen ≥ closeParen ∨ closeParen ≥ openBrace then syntaxError
      else
        let condition := substr trimmedLine (openParen + 1) (closeParen - openParen - 1)
        let loopBodyStart := st.currentLine + 1
        let loopBodyEnd := findBlockEndNaive st.scriptLines loopBodyStart
        match whileIterate r condition (blockLines st.scriptLines loopBodyStart loopBodyEnd)
            r.loopFuel st with
        | none => none
        | some (false, st1) => some (false, st1)
        | some (true, st1) => some (true, { st1 with currentLine := loopBodyEnd - 1 })
    | _, _, _ => syntaxError

/-! ## Commands -/

/-- The idiom "remove quotes if present". -/
def unquote (s : Str) : Str := if isQuoted s then stripQuotes s else s

/-- `args[i]` for an index known to be in range. -/
def argAt (args : List Str) (i : Nat) : Str := (args.get? i).getD []

/-- `FlareInterpreter::processFlameMemory`. -/
def processFlameMemory (command : Str) (args : List Str) (st : St) : Res Bool :=
  if !st.isDynamicMode then
    some (false, reportError st
      "FlameMemory operations are only available in dynamic mode".toList)
  else if command = "fmem.create".toList then
    if args.length < 2 then
      some (false, reportError st "fmem.create requires name and size arguments".toList)
    else
      let name := unquote (argAt args 0)
      match stoul (argAt args 1) with
      | none => some (false, reportError st "Invalid size for FlameMemory".toList)
      | some size =>
        some (true, { st with flameMemory := mapSet st.flameMemory name ⟨name, size, []⟩ })
  else if command = "fmem.write".toList then
    if args.length < 3 then
      some (false, reportError st "fmem.write requires name, key, and value arguments".toList)
    else
      let name := unquote (argAt args 0)
      match mapFind st.flameMemory name with
      | none =>
        some (false, reportError st ("FlameMemory '".toList ++ name ++ "' not found".toList))
      | some mem =>
        let key := unquote (argAt args 1)
        let value := unquote (argAt args 2)
        let mem1 : FlameMemory :=
          { mem with data := mapSet mem.data key (Variable.new ("str.".toList ++ key) value) }
        some (true, { st with flameMemory := mapSet st.flameMemory name mem1 })
  else if command = "fmem.read".toList then
    if args.length < 2 then
      some (false, reportError st "fmem.read requires name and key arguments".toList)
    else
      let name := unquote (argAt args 0)
      match mapFind st.flameMemory name with
      | none =>
        some (false, reportError st ("FlameMemory '".toList ++ name ++ "' not found".toList))
      | some mem =>
        let key := unquote (argAt args 1)
        match mapFind mem.data key with
        | none =>
          some (false, reportError st ("Key '".toList ++ key ++ "' not found in FlameMemory '".toList
            ++ name ++ "'".toList))
        | some v => some (true, setReturnValue st v)
  else if command = "fmem.destroy".toList then
    if args.length < 1 then
      some (false, reportError st "fmem.destroy requires name argument".toList)
    else
      let name := unquote (argAt args 0)
      match mapFind st.flameMemory name with
      | none =>
        some (false, reportError st ("FlameMemory '".toList ++ name ++ "' not found".toList))
      | some _ => some (true, { st with flameMemory := mapErase st.flameMemory name })
  else some (false, st)

/-- `FlareInterpreter::processInput`: one line of standard input (the empty
string at end of input). -/
def processInput (st : St) : Variable × St :=
  match st.stdin with
  | [] => (Variable.new "str.input".toList [], st)
  | l :: ls => (Variable.new "str.input".toList l, { st with stdin := ls })

/-- `FlareInterpreter::loadLibrary`. -/
def loadLibrary (st : St) (name path : Str) : Bool × St :=
  let alreadyLoaded : Bool :=
    match mapFind st.libraries name with
    | some lib => lib.isLoaded
    | none => false
  if alreadyLoaded then
    (true, reportWarning st ("Library '".toList ++ name ++ "' already loaded".toList))
  else
    match st.platform.dlopen path with
    | none => (false, reportError st ("Failed to load library: ".toList ++ st.platform.dlerror))
    | some handle =>
      (true, { st with libraries := mapSet st.libraries name ⟨name, some handle, [], true⟩ })

/-- `FlareInterpreter::unloadLibrary`. -/
def unloadLibrary (st : St) (name : Str) : Bool × St :=
  match mapFind st.libraries name with
  | none => (false, reportWarning st ("Library '".toList ++ name ++ "' not loaded".toList))
  | some lib =>
    if !lib.isLoaded then
      (false, reportWarning st ("Library '".toList ++ name ++ "' not loaded".toList))
    else if !(lib.handle.map st.platform.dlclose).getD false then
      (false, reportError st ("Failed to unload library: ".toList ++ st.platform.dlerror))
    else
      let lib1 : Library := { lib with handle := none, isLoaded := false, functions := [] }
      (true, { st with libraries := mapSet st.libraries name lib1 })

/-- `FlareInterpreter::getLibraryFunction`; `none` is the null pointer. -/
def getLibraryFunction (st : St) (libName funcName : Str) : Option Nat × St :=
  let notLoaded : Option Nat × St :=
    (none, reportError st ("Library '".toList ++ libName ++ "' not loaded".toList))
  match mapFind st.libraries libName with
  | none => notLoaded
  | some lib =>
    if !lib.isLoaded then notLoaded
    else
      match (mapFind lib.functions funcName : Option Nat) with
      | some funcPtr => (some funcPtr, st)
      | none =>
        match lib.handle.bind (fun h => st.platform.dlsym h funcName) with
        | none =>
          (none, reportError st ("Failed to find function '".toList ++ funcName
            ++ "' in library '".toList ++ libName ++ "': ".toList ++ st.platform.dlerror))
        | some funcPtr =>
          let lib1 : Library := { lib with functions := mapSet lib.functions funcName funcPtr }
          (some funcPtr, { st with libraries := mapSet st.libraries libName lib1 })

/-- `FlareInterpreter::callLibraryFunction`; the second component is the
value written to the `result` parameter. -/
def callLibraryFunction (st : St) (libName funcName : Str) (args : List Variable) :
    Bool × Option Variable × St :=
  match getLibraryFunction st libName funcName with
  | (none, st1) => (false, none, st1)
  | (some funcPtr, st1) =>
    match st1.platform.callNative funcPtr (args.map Variable.getValueAsString) with
    | some resultStr => (true, some (Variable.new "str.lib_result".toList resultStr), st1)
    | none =>
      (false, none, reportError st1 ("Library function '".toList ++ funcName
        ++ "' returned null".toList))

/-- The escape replacement loops of the `video++` command for one escape
letter: every backslash followed by the letter becomes the control character. -/
def replaceEscape (letter control : Char) : Str → Str
  | [] => []
  | [c] => [c]
  | c :: d :: r =>
    if c = '\\' ∧ d = letter then control :: replaceEscape letter control r
    else c :: replaceEscape letter control (d :: r)

/-- The `video++` branch of `executeCommand`. -/
def executeVideo (args : List Str) (st : St) : Res Bool :=
  match args with
  | [] => some (false, st)
  | a :: _ =>
    let value : Str :=
      if findChar '"' a ≠ some 0 then (getVariable st a).getValueAsString
      else unquote a
    let processedValue :=
      replaceEscape 'r' '\r' (replaceEscape 't' '\t' (replaceEscape 'n' '\n' value))
    some (true, cout st processedValue)

/-- The "regular variable declaration" branch of `executeCommand`. -/
def executeDeclaration (r : Rec) (command name : Str) (args : List Str) (st : St) : Res Bool :=
  match args with
  | [] => some (false, st)
  | value :: _ =>
    if containsChar '(' value ∧ containsChar ')' value then
      match evaluateExpressionB r value st with
      | none => none
      | some (result, st1) =>
        let st2 := cout st1 ("DEBUG: Function call result for variable ".toList ++ name
          ++ " = ".toList ++ result.getValueAsString ++ "\n".toList)
        some (true, setVariable st2 name (Variable.new command result.getValueAsString))
    else if isQuoted value then
      some (true, setVariable st name (Variable.new command (stripQuotes value)))
    else if value = returnSlot then
      match mapFind st.globalVariables returnSlot with
      | some returnVal =>
        let st1 := setVariable st name (Variable.new command returnVal.getValueAsString)
        some (true, cout st1 ("DEBUG: Assigned return value ".toList
          ++ returnVal.getValueAsString ++ " to ".toList ++ name ++ "\n".toList))
      | none => some (true, st)
    else
      let refVar := getVariable st value
      if refVar.getTypeString ≠ "str.undefined".toList then
        some (true, setVariable st name (Variable.new command refVar.getValueAsString))
      else some (true, setVariable st name (Variable.new command value))

/-- The `mem` and `virmem` branches of `executeCommand`. -/
def executeAllocate (isVirtual : Bool) (args : List Str) (st : St) : Res Bool :=
  let word : Str := if isVirtual then "virmem".toList else "mem".toList
  if 3 ≤ args.length then
    let description := argAt args 0
    let sizeStr := argAt args 1
    let size : Option Nat := if sizeStr ≠ "auto".toList then stoul sizeStr else some 0
    match size, stoi (argAt args 2) with
    | some sz, some id => some (allocateMemoryInternal st description sz id isVirtual)
    | _, _ =>
      some (false, reportError st ("Invalid arguments for ".toList ++ word ++ " command".toList))
  else
    some (false, reportError st
      ("Invalid number of arguments for ".toList ++ word ++ " command".toList))

/-- The `libcall` branch of `executeCommand`. -/
def executeLibcall (args : List Str) (st : St) : Res Bool :=
  if 2 ≤ args.length then
    let funcArgs := (args.drop 2).map (fun a => Variable.new "str.arg".toList a)
    match callLibraryFunction st (argAt args 0) (argAt args 1) funcArgs with
    | (true, some result, st1) =>
      let st2 : St :=
        match st1.localVariables with
        | top :: rest =>
          if mapHas top "__result".toList then
            { st1 with localVariables := mapSet top "__result".toList result :: rest }
          else st1
        | [] => st1
      some (true, cout st2 ("Library function returned: ".toList ++ result.getValueAsString
        ++ "\n".toList))
    | (_, _, st1) => some (false, st1)
  else some (false, st)

/-- The `add` branch of `executeCommand`. -/
def executeAdd (args : List Str) (st : St) : Res Bool :=
  let load (libraryName libraryPath : Str) : Res Bool :=
    match loadLibrary st libraryName libraryPath with
    | (true, st1) =>
      some (true, cout st1 ("Successfully loaded library: ".toList ++ libraryName ++ "\n".toList))
    | (false, st1) => some (false, st1)
  if 2 ≤ args.length then load (argAt args 0) (unquote (argAt args 1))
  else if args.length = 1 then
    load (argAt args 0) ("lib".toList ++ argAt args 0 ++ ".so".toList)
  else some (false, st)

/-- The assignment `m_isRunning = false`. -/
def stopRunning (st : St) : St := { st with isRunning := false }

/-- The `frmem` branch of `executeCommand`. -/
def executeFrmem (args : List Str) (st : St) : Res Bool :=
  if 2 ≤ args.length then
    match stoi (argAt args 0), stoi (argAt args 1) with
    | some id, some mode => some (freeMemory st id mode)
    | _, _ => some (false, reportError st "Invalid arguments for frmem command".toList)
  else some (false, reportError st "Invalid number of arguments for frmem command".toList)

/-- The `err` branch of `executeCommand`. -/
def executeErr (args : List Str) (st : St) : Res Bool :=
  match args with
  | message :: _ => some (false, stopRunning (reportError st (unquote message)))
  | [] => some (false, st)

/-- The `warn` branch of `executeCommand`. -/
def executeWarn (args : List Str) (st : St) : Res Bool :=
  match args with
  | message :: _ => some (true, reportWarning st (unquote message))
  | [] => some (false, st)

/-- The last branch of `executeCommand`: built-in functions and unknown commands. -/
def executeBuiltIn (command : Str) (args : List Str) (st : St) : Res Bool :=
  match mapFind st.builtInFunctions command with
  | some func =>
    let result := func (args.map (fun a => Variable.new "str.arg".toList a))
    if command = "arch".toList then
      some (true, cout st ("Architecture: ".toList ++ result.getValueAsString ++ "\n".toList))
    else some (true, st)
  | none => some (false, reportError st ("Unknown command: ".toList ++ command))

/-- `FlareInterpreter::executeCommand`, the chain of command names that
follows the declaration branch. -/
def executeKeyword (command : Str) (args : List Str) (st : St) : Res Bool :=
  if command = "mem".toList then executeAllocate false args st
  else if command = "virmem".toList then executeAllocate true args st
  else if command = "frmem".toList then executeFrmem args st
  else if command = "err".toList then executeErr args st
  else if command = "warn".toList then executeWarn args st
  else if command = "allstop".toList then some (true, stopRunning st)
  else if command = "add".toList then executeAdd args st
  else if command = "libcall".toList then executeLibcall args st
  else executeBuiltIn command args st

/-- `FlareInterpreter::executeCommand`. -/
def executeCommand (r : Rec) (command : Str) (args : List Str) (st : St) : Res Bool :=
  if startsWith "fmem.".toList command then processFlameMemory command args st
  else if command = "input".toList then
    some (true, setReturnValue (processInput st).2 (processInput st).1)
  else
    match findChar '.' command with
    | some dotPos =>
      if substrFrom command (dotPos + 1) = "video++".toList then executeVideo args st
      else executeDeclaration r command (substrFrom command (dotPos + 1)) args st
    | none => executeKeyword command args st

/-! ## Line dispatch, knot and `run` -/

/-- Ghost step of `processLine`: note the line in the trace. -/
def recordLine (st : St) (line : Str) : St := { st with trace := st.trace ++ [line] }

/-- `FlareInterpreter::processLine`, after the trimming of the line. -/
def dispatchLine (r : Rec) (trimmedLine : Str) (st : St) : Res Bool :=
  if trimmedLine.isEmpty ∨ trimmedLine.head? = some '#' then some (true, st)
  else if trimmedLine.head? = some '\x7d' then some (true, st)
  else if startsWith "if ".toList trimmedLine then processIfStatement r trimmedLine st
  else if startsWith "else".toList trimmedLine then some (true, st)
  else if startsWith "for ".toList trimmedLine then processForLoop r trimmedLine st
  else if startsWith "while ".toList trimmedLine then processWhileLoop r trimmedLine st
  else if startsWith "function ".toList trimmedLine then processFunction trimmedLine st
  else if startsWith "return ".toList trimmedLine then
    some (false, reportError st "Return statement outside of function".toList)
  else if mapHas st.userFunctions (parseLine trimmedLine).1 then
    processFunctionCallB r (parseLine trimmedLine).1 (parseLine trimmedLine).2 st
  else executeCommand r (parseLine trimmedLine).1 (parseLine trimmedLine).2 st

/-- `FlareInterpreter::processLine`. -/
def processLineB (r : Rec) (line : Str) (st : St) : Res Bool :=
  dispatchLine r (trim line) (recordLine st line)

/-- The three functions at a given fuel. -/
def interp : Nat → Rec
  | 0 => ⟨0, fun _ _ => none, fun _ _ _ => none, fun _ _ => none⟩
  | n + 1 =>
    ⟨n + 1, processLineB (interp n), processFunctionCallB (interp n),
      evaluateExpressionB (interp n)⟩

/-- `FlareInterpreter::processLine` with fuel. -/
def processLine (fuel : Nat) (line : Str) (st : St) : Res Bool :=
  (interp fuel).processLine line st

/-- `FlareInterpreter::processFunctionCall` with fuel. -/
def processFunctionCall (fuel : Nat) (name : Str) (args : List Str) (st : St) : Res Bool :=
  (interp fuel).processFunctionCall name args st

/-- `FlareInterpreter::evaluateExpression` with fuel. -/
def evaluateExpression (fuel : Nat) (expr : Str) (st : St) : Res Variable :=
  (interp fuel).evaluateExpression expr st

/-- The search loop of `FlareInterpreter::processDynamicMode`. -/
def dynamicFlag : List Str → Option Bool
  | [] => none
  | line :: rest =>
    let trimmedLine := trim line
    if startsWith "dynamic = ".toList trimmedLine then
      some (decide (substrFrom trimmedLine 10 = "true".toList))
    else dynamicFlag rest

/-- `FlareInterpreter::processDynamicMode`. -/
def processDynamicMode (st : St) : St :=
  match dynamicFlag st.scriptLines with
  | some b => { st with isDynamicMode := b }
  | none => st

/-- `FlareInterpreter::registerCoreVariables`. -/
def registerCoreVariables (st : St) : St :=
  let allmem := Variable.new "int.ALLMEM".toList (natToString st.totalMemory)
  { st with globalVariables := mapSet st.globalVariables "ALLMEM".toList allmem }

/-- The statement `m_currentLine++` of `run`. -/
def advanceLine (st : St) : St := { st with currentLine := st.currentLine + 1 }

/-- The loop `while (m_isRunning && m_currentLine < m_scriptLines.size())` of `run`. -/
def runLoop (fuel : Nat) : Nat → St → Res Bool
  | 0, _ => none
  | k + 1, st =>
    if st.isRunning then
      match st.scriptLines.get? st.currentLine with
      | none => some (true, st)
      | some line =>
        match processLine fuel line st with
        | none => none
        | some (false, st1) =>
          some (false, reportError st1
            ("Error executing line ".toList ++ natToString (st1.currentLine + 1)))
        | some (true, st1) => runLoop fuel k (advanceLine st1)
    else some (true, st)

/-- `FlareInterpreter::run`. -/
def run (fuel : Nat) (st : St) : Res Bool :=
  if st.scriptLines.isEmpty then some (false, reportError st "No script loaded".toList)
  else
    runLoop fuel fuel
      (registerCoreVariables (processDynamicMode { st with isRunning := true, currentLine := 0 }))

/-- `FlareInterpreter::loadScriptFromString`. -/
def loadScriptFromString (st : St) (script : Str) : Bool × St :=
  (true, { st with script := script, scriptLines := splitLines script [] })

/-- `FlareInterpreter::setupBuiltInFunctions`. -/
def setupBuiltInFunctions (st : St) : St :=
  let m1 := mapSet st.builtInFunctions "arch".toList
    (fun _ => Variable.new "str.bitarch".toList st.platform.arch)
  let m2 := mapSet m1 "flver".toList (fun _ => Variable.new "str.version".toList st.version)
  let m3 := mapSet m2 "clsdef".toList (fun _ => Variable.new "str.classes".toList "[]".toList)
  { st with builtInFunctions := m3 }

/-- The constructor `FlareInterpreter::FlareInterpreter` (with the
constructors of its components), for a given platform and standard input. -/
def construct (platform : Platform) (stdin : List Str) : St :=
  { platform := platform, version := "0.1.0".toList, isDynamicMode := false, script := [],
    scriptLines := [], currentLine := 0, isRunning := false, memoryBlocks := [],
    totalMemory := 8589934592, errors := [], warnings := [], globalVariables := [],
    localVariables := [], userFunctions := [], callStack := [], flameMemory := [],
    builtInFunctions := [], libraries := [], out := [], stdin := stdin, trace := [] }

/-- `FlareInterpreter::initialize` (its return value is always `true`). -/
def initializeInterpreter (st : St) : St :=
  registerCoreVariables (setupBuiltInFunctions st)

/-- A platform without loadable libraries. -/
def barePlatform : Platform :=
  { dlopen := fun _ => none, dlerror := "cannot open shared object file".toList,
    dlsym := fun _ _ => none, dlclose := fun _ => false, callNative := fun _ _ => none,
    arch := "x64".toList }

/-- A fresh interpreter as `main` sets it up: constructed and initialised. -/
def fresh : St := initializeInterpreter (construct barePlatform [])

/-- Load a script given as lines and run it on a fresh interpreter. -/
def runScript (fuel : Nat) (lines : List String) : Res Bool :=
  run fuel { fresh with scriptLines := lines.map String.toList }

/-! ## Frame conditions -/

/-- What a processed line may change: it leaves the call stack and every
local table below the top one alone, keeps the number of local tables, and,
when it runs inside a call, leaves every global binding except the return
slot alone. -/
structure Frame (s s' : St) : Prop where
  callStack : s'.callStack = s.callStack
  localsTail : s'.localVariables.tail = s.localVariables.tail
  localsLen : s'.localVariables.length = s.localVariables.length
  globals : s.localVariables ≠ [] → ∀ x, x ≠ returnSlot →
    mapFind s'.globalVariables x = mapFind s.globalVariables x

/-- What an invocation may change of the scopes and the line index: nothing
but the return slot. -/
structure CallFrame (s s' : St) : Prop where
  callStack : s'.callStack = s.callStack
  locals : s'.localVariables = s.localVariables
  currentLine : s'.currentLine = s.currentLine
  globals : ∀ x, x ≠ returnSlot → mapFind s'.globalVariables x = mapFind s.globalVariables x

/-- What the end of an invocation does to the state its body started in. -/
structure PopRel (s s' : St) : Prop where
  callStack : s'.callStack = s.callStack.tail
  locals : s'.localVariables = s.localVariables.tail
  currentLine : ∀ c, s.callStack.head? = some c → s'.currentLine = c
  globals : ∀ x, x ≠ returnSlot → mapFind s'.globalVariables x = mapFind s.globalVariables x

/-- A result respects a relation between the state before and the state after. -/
def Respects {α : Type} (R : St → St → Prop) (st : St) (res : Res α) : Prop :=
  ∀ a st', res = some (a, st') → R st st'

/-- The three functions of a knot respect the frame conditions. -/
structure RecOK (r : Rec) : Prop where
  pl : ∀ line st, Respects Frame st (r.processLine line st)
  pfc : ∀ name args st, Respects CallFrame st (r.processFunctionCall name args st)
  ev : ∀ expr st, Respects Frame st (r.evaluateExpression expr st)

/-! ## Vocabulary of the specification -/

/-- The characters of a line that count for block matching in the words of
the specification: those outside double-quoted strings (inside which a
backslash escapes the next character) and before an unquoted `#`. -/
def codeChars : Str → ScanMode → Str
  | [], _ => []
  | c :: cs, .code =>
    if c = '#' then []
    else if c = '"' then codeChars cs .inString
    else c :: codeChars cs .code
  | c :: cs, .inString =>
    if c = '"' then codeChars cs .code
    else if c = '\\' then codeChars cs .escaped
    else codeChars cs .inString
  | _ :: cs, .escaped => codeChars cs .inString

/-- A brace character. -/
def isBrace (c : Char) : Bool := c == '\x7b' || c == '\x7d'

/-- The first brace among the characters of a line that count. -/
def firstCodeBrace (line : Str) : Option Char := (codeChars line .code).find? isBrace

/-- The numeric-literal shape that `getVariable` recognises: after an
optional leading `-`, nothing but digits and dots. -/
def numericShape (name : Str) : Bool :=
  match name with
  | '-' :: r => r.all (fun c => c == '.' || isdigit c)
  | s => s.all (fun c => c == '.' || isdigit c)

/-- The undefined sentinel of `getVariable`. -/
def undefinedSentinel : Variable := Variable.new "str.undefined".toList []

/-! ## Scripts and states used in the statements -/

/-- Type tag and printed value of a global binding in the final state of a
run: the outer `none` is "out of fuel", the inner `none` is "unbound". -/
def globalAfter (res : Res Bool) (name : String) : Option (Option (VType × String)) :=
  res.map (fun p => (mapFind p.2.globalVariables name.toList).map
    (fun v => (v.type, String.mk v.getValueAsString)))

/-- The lines passed to `processLine` during a run, in order. -/
def traceAfter (res : Res Bool) : Option (List String) :=
  res.map (fun p => p.2.trace.map String.mk)

/-- The text written to standard output during a run. -/
def outAfter (res : Res Bool) : Option (List String) :=
  res.map (fun p => p.2.out.map String.mk)

/-- The messages in the error list after a run. -/
def errorsAfter (res : Res Bool) : Option (List String) :=
  res.map (fun p => p.2.errors.map String.mk)

/-- The return value of a run. -/
def resultOf (res : Res Bool) : Option Bool := res.map Prod.fst

/-- The script of the arithmetic test of the specification. -/
def sumScript : List String := ["int.a = 2", "int.b = 3", "int.c = a + b"]

/-- The definition of `factorial` of the specification, one statement per line. -/
def factorialDef : List String :=
  ["function factorial(n) \x7b", "if (n < 2) \x7b", "return 1", "\x7d else \x7b",
   "return n * factorial(n - 1)", "\x7d", "\x7d"]

/-- The loop of the for-loop test of the specification, in output form. -/
def forScript : List String := ["for (int.i = 0; i < 3; i++) \x7b", "str.video++ i", "\x7d"]

/-- The script of the division test of the specification, with one more line. -/
def divScript : List String := ["int.a = 5", "int.b = 0", "int.c = a / b", "int.d = 7"]

/-- A loop whose first body line holds a closing brace inside a string. -/
def quotedBraceLoop : List String :=
  ["for (i = 0; i < 2; i++) \x7b", "str.s = \"\x7d\"", "str.video++ i", "\x7d"]

/-- A state with a global `x` bound to 1 and a function `f` whose body
assigns `x = 2` and returns `x`. -/
def demoState : St :=
  { fresh with
    isRunning := true,
    scriptLines := ["f(5)".toList],
    globalVariables := [("x".toList, Variable.new "int.x".toList "1".toList)],
    userFunctions := [("f".toList,
      ⟨"f".toList, ["a".toList], ["int.x = 2".toList, "return x".toList, "\x7d".toList]⟩)] }

/-- The invocation `f(5)` in `demoState`. -/
def demoCall : Res Bool := processFunctionCall 5 "f".toList ["5".toList] demoState

/-- A script whose function body requests a stop before its last line. -/
def stopScript : List String :=
  ["function g(a) \x7b", "int.x = 2", "allstop", "int.y = 3", "\x7d", "", "g(1)", "int.z = 4"]

/-- The run of `stopScript` on a fresh interpreter. -/
def stopRun : Res Bool := runScript 10 stopScript

/-- A state with two local tables and a global table that bind `x` differently. -/
def scopedState : St :=
  { fresh with
    globalVariables := [("x".toList, Variable.new "int.x".toList "1".toList),
      ("g".toList, Variable.new "int.g".toList "7".toList)],
    localVariables := [[("x".toList, Variable.new "int.x".toList "2".toList)],
      [("x".toList, Variable.new "int.x".toList "3".toList),
       ("y".toList, Variable.new "int.y".toList "4".toList)]],
    callStack := [0, 0] }

/-! ## Vocabulary and scripts for the tokenizer and the control-flow claims -/

/-- The text before the first occurrence of a character (the whole text when
there is none). -/
def beforeFirst (c : Char) (s : Str) : Str := s.takeWhile (fun x => x != c)

/-- The text after the first occurrence of a character (empty when there is none). -/
def afterFirst (c : Char) (s : Str) : Str := (s.dropWhile (fun x => x != c)).drop 1

/-- The start state of the loop of `run`: running, at line 0, with the dynamic
flag read and the core variables registered. -/
def runStart (st : St) : St :=
  registerCoreVariables (processDynamicMode { st with isRunning := true, currentLine := 0 })

/-- One round of the loop of `run` in which the top-level line succeeds. -/
inductive TopStep (fuel : Nat) : St → St → Prop where
  | step (s s1 : St) (line : Str) :
      s.isRunning = true → s.scriptLines.get? s.currentLine = some line →
      processLine fuel line s = some (true, s1) → TopStep fuel s (advanceLine s1)

/-- The Integer zero that the fall-through of a function body stores. -/
def fallThroughValue : Variable := Variable.new "int.__return_value".toList "0".toList

/-- A definition, the line after it, and one more line. -/
def definitionScript : List String :=
  ["function f() \x7b", "int.x = 1", "\x7d", "int.y = 2", "int.z = 3"]

/-- An if/else with the `else` on the closing-brace line, and a line after it. -/
def elseOnBraceLine : List String :=
  ["if (1 == 1) \x7b", "str.video++ \"a\"", "\x7d else \x7b", "str.video++ \"b\"", "\x7d",
   "str.video++ \"c\""]

/-- An if/else with the `else` on its own line, with a true and with a false
condition, and a line after it. -/
def elseOnOwnLine (cond : String) : List String :=
  ["if (" ++ cond ++ ") \x7b", "str.video++ \"a\"", "\x7d", "else \x7b", "str.video++ \"b\"",
   "\x7d", "str.video++ \"c\""]

/-- A state in which `g` is registered with a body that has no `return`. -/
def noReturnState : St :=
  { fresh with
    isRunning := true,
    scriptLines := ["g(1)".toList],
    globalVariables := [(returnSlot, Variable.new "str.old".toList "kept".toList)],
    userFunctions := [("g".toList,
      ⟨"g".toList, ["a".toList], ["int.x = 2".toList, "\x7d".toList]⟩)] }

/-- The invocation `g(1)` in `noReturnState`. -/
def noReturnCall : Res Bool := processFunctionCall 5 "g".toList ["1".toList] noReturnState

/-- The texts joined with commas. -/
def joinComma : List Str → Str
  | [] => []
  | [p] => p
  | p :: q :: ps => p ++ ',' :: joinComma (q :: ps)

/-- The line `function name(p1,...,pk) \x7b`. -/
def functionHeader (name : Str) (params : List Str) : Str :=
  'f' :: 'u' :: 'n' :: 'c' :: 't' :: 'i' :: 'o' :: 'n' :: ' ' ::
    (name ++ '(' :: (joinComma params ++ [')', ' ', '\x7b']))

/-- The line `if (cond) \x7b`. -/
def ifHeader (cond : Str) : Str :=
  'i' :: 'f' :: ' ' :: '(' :: (cond ++ [')', ' ', '\x7b'])

/-- A script that defines `f` twice and then calls it with two arguments. -/
def redefinitionScript : List String :=
  ["function f(a) \x7b", "return a", "\x7d", "", "function f( x , y ) \x7b", "return y", "\x7d",
   "", "f(1, 2)"]


/-- A running interpreter loaded with `elseOnOwnLine cond`, at line 0. -/
def ifElseState (cond : String) : St :=
  { fresh with isRunning := true, scriptLines := (elseOnOwnLine cond).map String.toList }

/-- Result, line index, output and trace of a statement. -/
def observe (res : Res Bool) : Option (Bool × Nat × List String × List String) :=
  res.map (fun p => (p.1, p.2.currentLine, p.2.out.map String.mk, p.2.trace.map String.mk))
/-! ## Vocabulary and scripts for the claims on stops, stores, variables and loops -/

/-- `Variable::setValueFromString` as a member function: the type is kept and
the value is the one chosen for that type. -/
def Variable.setValueFromString (v : Variable) (value : Str) : Variable :=
  .mk v.typeAndName v.name v.type (Flare.setValueFromString v.type value)

/-- The stored alternative of `m_value` agrees with `m_type`: a string for
String, an int for Integer and Binary, a float for Float, a bool for Boolean,
a sequence for List. (Nothing is asked of the type `UNKNOWN`, which only the
default constructor produces.) -/
def Variable.consistent (v : Variable) : Bool :=
  match v.type, v.value with
  | .STRING, .str _ => true
  | .INTEGER, .int _ => true
  | .BINARY, .int _ => true
  | .FLOAT, .float _ => true
  | .BOOLEAN, .bool _ => true
  | .LIST, .list _ => true
  | .UNKNOWN, _ => true
  | _, _ => false

/-- An interpreter with the library `m` loaded (handle 1, one cached symbol). -/
def libraryState : St :=
  { fresh with libraries := [("m".toList, ⟨"m".toList, some 1, [("f".toList, 2)], true⟩)] }

/-- Type tag and printed value of the Variable an evaluation returns. -/
def valueOf (res : Res Variable) : Option (VType × String) :=
  res.map (fun p => (p.1.type, String.mk p.1.getValueAsString))

/-- A loop whose initialisation clause is `allstop`. -/
def stopInForInit : List String :=
  ["for (allstop; 1 == 1; i++) \x7b", "str.video++ \"a\"", "str.video++ \"b\"", "\x7d",
   "str.video++ \"c\""]

/-- A loop whose initialisation clause is `err "boom"`. -/
def errInForInit : List String :=
  ["for (err \"boom\"; 1 == 1; i++) \x7b", "str.video++ \"a\"", "str.video++ \"b\"", "\x7d",
   "str.video++ \"c\""]

/-- A stop as first line of an `if` block, of a `while` body and of a `for` body. -/
def stopInBlock (header : String) : List String :=
  [header, "allstop", "str.video++ \"a\"", "\x7d", "str.video++ \"c\""]

/-- A fresh interpreter with the globals `a = 2` and `b = 3`. -/
def arithState : St :=
  { fresh with
    globalVariables := [("a".toList, Variable.new "int.a".toList "2".toList),
      ("b".toList, Variable.new "int.b".toList "3".toList)] }

/-- An `if` without `else` whose condition is false, at top level. -/
def falseIfTop : List String :=
  ["if (1 == 2) \x7b", "str.video++ \"inner\"", "\x7d", "str.video++ \"after\""]

/-- The same `if` as a line of an enclosing block with the given header. -/
def falseIfNested (header : String) : List String :=
  [header, "if (1 == 2) \x7b", "str.video++ \"inner\"", "\x7d", "str.video++ \"outer\"", "\x7d",
   "str.video++ \"after\""]

/-- A running interpreter at the call line `f()` of a script in which the
line after the call is a `return` line; the body of `f` holds an `if` block. -/
def returnInCallState : St :=
  { fresh with
    isRunning := true,
    scriptLines := ["f()".toList, "return 5".toList, "\x7d".toList],
    userFunctions := [("f".toList,
      ⟨"f".toList, [], ["if (1 == 1) \x7b".toList, "\x7d".toList, "\x7d".toList]⟩)] }

/-- A script that defines `f` with an `if` block in its body, calls it, and
has a `return` line after the call. -/
def returnInCallScript : List String :=
  ["function f() \x7b", "if (1 == 1) \x7b", "\x7d", "\x7d", "", "f()", "return 5", "\x7d"]

/-- The same `if` as a line of a `while` body that runs once. -/
def falseIfInWhile : List String :=
  ["int.n = 0", "while (n == 0) \x7b", "if (1 == 2) \x7b", "str.video++ \"inner\"", "\x7d",
   "int.n = 1", "\x7d", "str.video++ \"after\""]

/-- A dynamic-mode script that writes the value text `""x""` and reads it back. -/
def nestedQuoteScript : List String :=
  ["dynamic = true", "fmem.create(\"m\", 10)", "fmem.write(\"m\", \"k\", \"\"x\"\")",
   "fmem.read(\"m\", \"k\")"]

/-- A dynamic-mode interpreter whose return slot holds the String `old`. -/
def dynamicState : St :=
  { fresh with
    isDynamicMode := true,
    globalVariables := [(returnSlot, Variable.new "str.r".toList "old".toList)] }

/-- A dynamic-mode script that creates a store, writes `"hello"`, reads it,
destroys the store and reads again. -/
def roundTripScript : List String :=
  ["dynamic = true", "fmem.create(\"m\", 10)", "fmem.write(\"m\", \"k\", \"hello\")",
   "fmem.read(\"m\", \"k\")", "fmem.destroy(\"m\")", "fmem.read(\"m\", \"k\")"]

/-- A callee state: a call of `mul`, whose body starts with `return a * b`, is
active with the parameters `a = 6` and `b = 7` bound in its local table,
while the globals bind `a` to 100. -/
def productState : St :=
  { fresh with
    isRunning := true,
    currentLine := 9,
    callStack := [4],
    globalVariables := [("a".toList, Variable.new "int.a".toList "100".toList)],
    localVariables := [[("a".toList, Variable.new "int.a".toList "6".toList),
      ("b".toList, Variable.new "int.b".toList "7".toList)]],
    userFunctions := [("mul".toList,
      ⟨"mul".toList, ["a".toList, "b".toList], ["  return a * b".toList, "\x7d".toList]⟩)] }

/-- A script that defines `mul` with the body `return a * b` and calls it. -/
def productScript : List String :=
  ["function mul(a, b) \x7b", "return a * b", "\x7d", "", "mul(6, 7)"]

/-- What no statement of a script changes: the dynamic-mode flag and the
script lines; and, while the flag is off, the FlameMemory store. -/
structure Quiet (s s' : St) : Prop where
  dynamic : s'.isDynamicMode = s.isDynamicMode
  script : s'.scriptLines = s.scriptLines
  store : s.isDynamicMode = false → s'.flameMemory = s.flameMemory

/-- The three functions of a knot respect `Quiet`. -/
structure RecQuiet (r : Rec) : Prop where
  pl : ∀ line st, Respects Quiet st (r.processLine line st)
  pfc : ∀ name args st, Respects Quiet st (r.processFunctionCall name args st)
  ev : ∀ expr st, Respects Quiet st (r.evaluateExpression expr st)

/-- Run a first script on a fresh interpreter, then load a second script
(given as text) into the same interpreter and run it. -/
def runTwice (fuel : Nat) (first : List String) (second : String) : Res Bool :=
  match runScript fuel first with
  | none => none
  | some (_, st1) => run fuel (loadScriptFromString st1 second.toList).2

/-- Names of the FlameMemory stores after a run. -/
def storesAfter (res : Res Bool) : Option (List String) :=
  res.map (fun p => p.2.flameMemory.map (fun e => String.mk e.1))

/-- A script without a `dynamic` line that uses `fmem.create` inside an `if`
block and at top level. -/
def fmemWithoutFlag : List String :=
  ["if (1 == 1) \x7b", "fmem.create(\"m\", 10)", "\x7d", "str.video++ \"x\"",
   "fmem.create(\"n\", 10)", "str.video++ \"y\""]

/-- The run of `fmemWithoutFlag` on a fresh interpreter. -/
def fmemWithoutFlagRun : Res Bool := runScript 10 fmemWithoutFlag

/-- The line `for (i = 0; i < bound; i++) \x7b`. -/
def forHeader (bound : Str) : Str :=
  'f' :: 'o' :: 'r' :: ' ' :: '(' :: 'i' :: ' ' :: '=' :: ' ' :: '0' :: ';' :: ' ' :: 'i' :: ' '
    :: '<' :: ' ' :: (bound ++ [';', ' ', 'i', '+', '+', ')', ' ', '\x7b'])

/-- The Integer bound to a global name (`none`: unbound, or not an Integer). -/
def globalInt (st : St) (name : Str) : Option Int :=
  match mapFind st.globalVariables name with
  | some v => if v.isInteger then some v.getIntValue else none
  | none => none

/-- The state in which a counting loop starts its pass number `k` (from 0):
the state `s` for pass 0, and for pass `k + 1` the state that pass `k` of the
body left, with `i` bound to the Integer `k + 1`. `none` when an earlier pass
ran out of fuel or ended with a stop. -/
def passStart (pl : Str → St → Res Bool) (body : List Str) : Nat → St → Option St
  | 0, s => some s
  | k + 1, s =>
    match passStart pl body k s with
    | none => none
    | some b =>
      match execBlock pl body b with
      | some (true, a) =>
        some (setVariable a "i".toList (Variable.new "int.i".toList (natToString (k + 1))))
      | _ => none

/-- The state after the initialisation `i = 0` of a counting loop whose
header `line` is processed in state `st`. -/
def afterInit (st : St) (line : Str) : St :=
  setVariable (recordLine (recordLine st line) "int.i = 0".toList) "i".toList
    (Variable.new "int.i".toList "0".toList)

/-- Check, by running them, that each of the first `n` passes of a counting
loop returns without a stop and leaves the Integer `i` as it found it. -/
def passesKeep (pl : Str → St → Res Bool) (body : List Str) (s : St) : Nat → Bool
  | 0 => true
  | k + 1 =>
    passesKeep pl body s k &&
      (match passStart pl body k s with
       | some b =>
         (match execBlock pl body b with
          | some (true, a) => decide (globalInt a "i".toList = globalInt b "i".toList)
          | _ => false)
       | none => false)

/-- A running interpreter loaded with a loop that counts to 3, and a line after it. -/
def countingState : St :=
  { fresh with
    isRunning := true,
    scriptLines := ["for (i = 0; i < 3; i++) \x7b".toList, "str.video++ i".toList, "\x7d".toList,
      "str.video++ \"after\"".toList] }

/-! ## Vocabulary and scripts for the claims on invocations, conditions, literals and arguments -/

/-- A script whose function body holds an `if` line and a `for` line, which
move the line index while the body runs. -/
def pointerScript : List String :=
  ["function f(a) \x7b", "if (a == 1) \x7b", "int.x = 2", "\x7d",
   "for (i = 0; i < 2; i++) \x7b", "\x7d", "return x", "\x7d", "",
   "f(1)", "int.z = 3", "int.w = 4"]

/-- The state at the call line of `pointerScript`, with `f` registered. -/
def pointerState : St :=
  { fresh with
    isRunning := true,
    currentLine := 9,
    scriptLines := pointerScript.map String.toList,
    userFunctions := [("f".toList, ⟨"f".toList, ["a".toList],
      ((pointerScript.map String.toList).drop 1).take 6⟩)] }

/-- The invocation `f(1)` in `pointerState`. -/
def pointerCall : Res Bool := processFunctionCall 40 "f".toList ["1".toList] pointerState

/-- A script that orders two quoted texts. -/
def orderingScript : List String :=
  ["if (\"a\" > \"b\") \x7b", "str.video++ \"yes\"", "\x7d"]

/-- A script that declares a Float from a token with two dots and prints it. -/
def twoDotsScript : List String := ["fl.x = 1.2.3", "str.video++ x"]

/-- A script that compares a token of eleven digits with zero. -/
def elevenDigitsScript : List String :=
  ["if (99999999999 == 0) \x7b", "str.video++ \"yes\"", "\x7d"]

/-- A script that declares an Integer from a quoted text that starts with digits. -/
def leadingDigitsScript : List String := ["int.n = \"12abc\""]

/-- The text starts, after leading white space and one optional sign, with a
decimal digit. -/
def startsWithInteger (value : Str) : Bool :=
  match value.dropWhile isspace with
  | '-' :: c :: _ => isdigit c
  | '+' :: c :: _ => isdigit c
  | c :: _ => isdigit c
  | [] => false

/-- A script that binds the name `f(1)` under a type-and-name with nothing
before the dot. -/
def untypedScript : List String := [".f(1) = 5"]

/-- What `evaluateExpression` and `getVariable` give for a text in the final
state of a run: the printed value each returns, and the error list after the
evaluation (`none`: out of fuel). -/
def compareAfter (res : Res Bool) (expr : String) : Option (String × String × List String) :=
  res.bind (fun p =>
    (evaluateExpression 10 expr.toList p.2).map (fun q =>
      (String.mk q.1.getValueAsString, String.mk (getVariable p.2 expr.toList).getValueAsString,
        q.2.errors.map String.mk)))

/-- The texts joined with a comma and a blank. -/
def joinCommaSpace : List Str → Str
  | [] => []
  | [p] => p
  | p :: q :: ps => p ++ ',' :: ' ' :: joinCommaSpace (q :: ps)

/-- A token that is not empty, neither starts nor ends with white space, and
holds no comma, double quote or parenthesis. -/
def plainToken (t : Str) : Bool :=
  match t.head?, t.getLast? with
  | some a, some z =>
    !isspace a && !isspace z && t.all (fun c => c != ',' && c != '"' && c != '(' && c != ')')
  | _, _ => false

/-- A condition text that is a name: not empty, not a numeric or quoted
literal and not one of the words `true` and `false`. -/
def plainName (cond : Str) : Bool :=
  !cond.isEmpty && !numericShape cond && !isQuoted cond
    && decide (cond ≠ "true".toList) && decide (cond ≠ "false".toList)

/-- The truth value of a Variable in the words of the specification: the
stored value of a Boolean, "not zero" for an Integer, "not empty" for a
String, false for every other type. -/
def truthOf (v : Variable) : Bool :=
  match v.type with
  | .BOOLEAN => v.getBoolValue
  | .INTEGER => decide (v.getIntValue ≠ 0)
  | .STRING => !v.getStringValue.isEmpty
  | _ => false

/-- A state that binds one name of each type. -/
def typedState : St :=
  { fresh with
    globalVariables := [("on".toList, Variable.new "act.on".toList "true".toList),
      ("n".toList, Variable.new "int.n".toList "7".toList),
      ("z".toList, Variable.new "int.z".toList "0".toList),
      ("s".toList, Variable.new "str.s".toList "hi".toList),
      ("e".toList, Variable.new "str.e".toList []),
      ("x".toList, Variable.new "fl.x".toList "1.5".toList),
      ("b".toList, Variable.new "bin.b".toList "0x10".toList),
      ("l".toList, Variable.new "ls.l".toList [])] }

/-- The state in which the body of an invocation starts: the line index of
the call is pushed on the call stack and the table of the bound arguments is
pushed as the top local table. -/
def callStart (st : St) (func : FunctionDefinition) (args : List Str) : St :=
  { st with
    callStack := st.currentLine :: st.callStack,
    localVariables := bindArguments st func.parameters args [] :: st.localVariables }

/-- The body registered under a name (`none`: no function of that name). -/
def registeredBody (st : St) (name : Str) : Option (List Str) :=
  (mapFind st.userFunctions name).map (fun func => func.body)

/-- The state the body loop of an invocation of `name` is in when it has gone
through the given lines of the stored body `body`, none of which is a
`return` line: lines that are `\x7d` or start with `\x7d else` are skipped,
every other line is processed. `none` when fuel runs out, when a line
requests a stop, and when a processed line leaves another body registered
under `name` (a line of the body, or of a function it calls, that redefines
the function being run). -/
def bodyReaches (r : Rec) (name : Str) (body : List Str) : List Str → St → Option St
  | [], st => some st
  | line :: rest, st =>
    if trim line = "\x7d".toList ∨ startsWith "\x7d else".toList (trim line)
        ∨ startsWith "\x7d else if".toList (trim line) then
      bodyReaches r name body rest st
    else
      match r.processLine line st with
      | none => none
      | some (_, st1) =>
        if !st1.isRunning then none
        else if registeredBody st1 name = some body then bodyReaches r name body rest st1
        else none

/-- The body loop of `g` in `noReturnState`, through the whole body. -/
def noReturnReach : Option St :=
  bodyReaches (interp 4) "g".toList ["int.x = 2".toList, "\x7d".toList]
    ["int.x = 2".toList, "\x7d".toList]
    (callStart noReturnState ⟨"g".toList, ["a".toList], ["int.x = 2".toList, "\x7d".toList]⟩
      ["1".toList])

/-- A script whose function body is a `while` loop with the condition
`1 == 1`, called on the last line. -/
def loopingScript : List String :=
  ["function f() \x7b", "while (1 == 1) \x7b", "\x7d", "\x7d", "", "f()"]

/-- The state at the call line of `loopingScript`, with `f` registered. -/
def loopingState : St :=
  { fresh with
    isRunning := true,
    currentLine := 5,
    scriptLines := loopingScript.map String.toList,
    userFunctions := [("f".toList, ⟨"f".toList, [],
      ((loopingScript.map String.toList).drop 1).take 3⟩)] }

/-- A script whose function body has a `return` line inside an `if` block
with a false condition, and a second `return` line after the block. -/
def firstReturnScript : List String :=
  ["function f() \x7b", "if (1 == 2) \x7b", "return 1", "\x7d", "return 2", "\x7d", "", "f()"]

/-- The state at the call line of `firstReturnScript`, with `f` registered. -/
def firstReturnState : St :=
  { fresh with
    isRunning := true,
    currentLine := 7,
    scriptLines := firstReturnScript.map String.toList,
    userFunctions := [("f".toList, ⟨"f".toList, [],
      ((firstReturnScript.map String.toList).drop 1).take 4⟩)] }

/-- The body loop of `f` in `firstReturnState` up to its first `return` line. -/
def firstReturnReach : Option St :=
  bodyReaches (interp 5) "f".toList (((firstReturnScript.map String.toList).drop 1).take 4)
    ["if (1 == 2) \x7b".toList]
    (callStart firstReturnState ⟨"f".toList, [],
      ((firstReturnScript.map String.toList).drop 1).take 4⟩ [])

/-- A script in which the first body line of `f` registers `f` again: the
block after the call line becomes the new body, of as many lines as the body
that is running. -/
def overwriteScript : List String :=
  ["function f() \x7b", "function f() \x7b", "return 1", "\x7d", "\x7d", "", "f()",
   "return 5", "str.video++ \"new\"", "return 2", "\x7d"]

/-- The state at the call line of `overwriteScript`, with `f` registered. -/
def overwriteState : St :=
  { fresh with
    isRunning := true,
    currentLine := 6,
    scriptLines := overwriteScript.map String.toList,
    userFunctions := [("f".toList, ⟨"f".toList, [],
      ((overwriteScript.map String.toList).drop 1).take 4⟩)] }

/-- Result, output, processed lines and printed return slot of an invocation. -/
def callOutcome (res : Res Bool) : Option (Bool × List String × List String × Option String) :=
  res.map (fun p => (p.1, p.2.out.map String.mk, p.2.trace.map String.mk,
    (mapFind p.2.globalVariables returnSlot).map (fun v => String.mk v.getValueAsString)))

/-- A script that binds the name `true` to the Boolean false and tests it. -/
def shadowedNameScript : List String :=
  ["act.true = false", "if (true) \x7b", "str.video++ \"yes\"", "\x7d"]

/-- The Boolean bound to a name in the final state of a run, and the value of
the condition that consists of that name (`none`: out of fuel, unbound, or
not a Boolean). -/
def boundAndTested (res : Res Bool) (name : String) : Option (Bool × Bool) :=
  res.bind (fun p =>
    match lookupScopes p.2 name.toList with
    | some v =>
      if v.isBoolean then some (v.getBoolValue, evaluateCondition p.2 name.toList) else none
    | none => none)

/-- The value of a condition text in the final state of a run. -/
def conditionAfter (res : Res Bool) (cond : String) : Option Bool :=
  res.map (fun p => evaluateCondition p.2 cond.toList)

/-- A script whose `if` condition holds a closing parenthesis inside a quoted
text and is true as written. -/
def quotedParenScript : List String :=
  ["str.s = \"a)b\"", "if (s == \"a)b\") \x7b", "str.video++ \"a\"", "\x7d", "else \x7b",
   "str.video++ \"b\"", "\x7d", "str.video++ \"c\""]

/-- The same script with a quoted text without parenthesis. -/
def quotedPlainScript : List String :=
  ["str.s = \"ab\"", "if (s == \"ab\") \x7b", "str.video++ \"a\"", "\x7d", "else \x7b",
   "str.video++ \"b\"", "\x7d", "str.video++ \"c\""]

/-- A counting loop whose body line prints a closing brace. -/
def loopPrintsBrace : List String :=
  ["for (i = 0; i < 2; i++) \x7b", "str.video++ \"\x7d\"", "\x7d", "str.video++ \"after\""]

/-- The same loop with a body line that prints a letter. -/
def loopPrintsLetter : List String :=
  ["for (i = 0; i < 2; i++) \x7b", "str.video++ \"x\"", "\x7d", "str.video++ \"after\""]

/-! ## Lemmas: association lists and frame conditions -/

theorem mapFind_mapSet_ne {β : Type} (m : List (Str × β)) (k x : Str) (v : β) (h : x ≠ k) :
    mapFind (mapSet m k v) x = mapFind m x := by
  induction m with
  | nil => simp [mapSet, mapFind, Ne.symm h]
  | cons p r ih =>
    obtain ⟨k0, v0⟩ := p
    by_cases hk : k0 = k
    · subst hk; simp [mapSet, mapFind, Ne.symm h]
    · by_cases hx : k0 = x
      · subst hx; simp [mapSet, mapFind, hk]
      · simp [mapSet, mapFind, hk, hx, ih]

theorem mapFind_mapSet_eq {β : Type} (m : List (Str × β)) (k : Str) (v : β) :
    mapFind (mapSet m k v) k = some v := by
  induction m with
  | nil => simp [mapSet, mapFind]
  | cons p r ih =>
    obtain ⟨k0, v0⟩ := p
    by_cases hk : k0 = k
    · simp [mapSet, mapFind, hk]
    · simp [mapSet, mapFind, hk, ih]

theorem Frame.refl (s : St) : Frame s s := ⟨rfl, rfl, rfl, fun _ _ _ => rfl⟩

theorem Frame.trans {a b c : St} (h1 : Frame a b) (h2 : Frame b c) : Frame a c := by
  refine ⟨h2.callStack.trans h1.callStack, h2.localsTail.trans h1.localsTail,
    h2.localsLen.trans h1.localsLen, ?_⟩
  intro hne x hx
  have hb : b.localVariables ≠ [] := by
    intro hb0
    have := h1.localsLen
    rw [hb0] at this
    exact hne (List.length_eq_zero.mp this.symm)
  rw [h2.globals hb x hx, h1.globals hne x hx]

/-- A frame survives any change of the fields it does not mention. -/
theorem Frame.of_eq {a b c : St} (h : Frame a b) (hc : c.callStack = b.callStack)
    (hl : c.localVariables = b.localVariables) (hg : c.globalVariables = b.globalVariables) :
    Frame a c := by
  refine ⟨hc.trans h.callStack, ?_, ?_, ?_⟩
  · rw [hl]; exact h.localsTail
  · rw [hl]; exact h.localsLen
  · intro hne x hx; rw [hg]; exact h.globals hne x hx

theorem frame_setVariable (s : St) (name : Str) (v : Variable) : Frame s (setVariable s name v) := by
  unfold Flare.setVariable
  cases hl : s.localVariables with
  | nil => exact ⟨rfl, by simp [hl], by simp [hl], fun hne => absurd hl hne⟩
  | cons top rest => exact ⟨rfl, by simp [hl], by simp [hl], fun _ _ _ => rfl⟩

theorem frame_setReturnValue (s : St) (v : Variable) : Frame s (setReturnValue s v) :=
  ⟨rfl, rfl, rfl, fun _ _ hx => mapFind_mapSet_ne _ _ _ _ hx⟩

theorem CallFrame.toFrame {a b : St} (h : CallFrame a b) : Frame a b :=
  ⟨h.callStack, by rw [h.locals], by rw [h.locals], fun _ => h.globals⟩

theorem respects_execBlock (pl : Str → St → Res Bool)
    (hpl : ∀ line st, Respects Frame st (pl line st)) :
    ∀ ls st, Respects Frame st (execBlock pl ls st) := by
  intro ls
  induction ls with
  | nil => intro st a st' h; simp [execBlock] at h; rw [← h.2]; exact Frame.refl _
  | cons l ls ih =>
    intro st a st' h
    unfold execBlock at h
    split at h
    · cases h
    · rename_i b st1 heq
      have h1 := hpl l st b st1 heq
      split at h
      · exact h1.trans (ih st1 a st' h)
      · cases h; exact h1

theorem Respects.apply {α : Type} {R : St → St → Prop} {st : St} {res : Res α}
    (h : Respects R st res) {a : α} {st' : St} (heq : res = some (a, st')) : R st st' :=
  h a st' heq

theorem respects_pair {α : Type} {R : St → St → Prop} {st : St} (p : α × St) (hp : R st p.2) :
    Respects R st (some p) := by
  intro a st' h
  cases h
  exact hp

theorem respects_processIfStatement (r : Rec) (hr : RecOK r) (line : Str) (st : St) :
    Respects Frame st (processIfStatement r line st) := by
  intro a st' h
  unfold processIfStatement at h
  simp only [] at h
  repeat' split at h
  all_goals first
    | (cases h; done)
    | (cases h; exact Frame.refl _)
    | (cases h; exact (Frame.refl _).of_eq rfl rfl rfl)
    | (have h1 := respects_execBlock _ hr.pl _ _ _ _ (by assumption); cases h; first | exact h1 | exact h1.of_eq rfl rfl rfl)


theorem respects_processFunction (line : Str) (st : St) :
    Respects Frame st (processFunction line st) := by
  intro a st' h
  unfold processFunction at h
  simp only [] at h
  repeat' split at h
  all_goals first
    | (cases h; done)
    | (cases h; exact Frame.refl _)
    | (cases h; exact (Frame.refl _).of_eq rfl rfl rfl)

theorem respects_processFlameMemory (command : Str) (args : List Str) (st : St) :
    Respects Frame st (processFlameMemory command args st) := by
  intro a st' h
  unfold processFlameMemory at h
  simp only [] at h
  repeat' split at h
  all_goals first
    | (cases h; done)
    | (cases h; exact Frame.refl _)
    | (cases h; exact (Frame.refl _).of_eq rfl rfl rfl)
    | (cases h; exact frame_setReturnValue _ _)

theorem respects_executeVideo (args : List Str) (st : St) :
    Respects Frame st (executeVideo args st) := by
  intro a st' h
  unfold executeVideo at h
  repeat' split at h
  all_goals first
    | (cases h; done)
    | (cases h; exact Frame.refl _)
    | (cases h; exact (Frame.refl _).of_eq rfl rfl rfl)

theorem frame_allocateMemoryInternal (st : St) (d : Str) (size : Nat) (id : Int) (v : Bool) :
    Frame st (allocateMemoryInternal st d size id v).2 := by
  unfold allocateMemoryInternal
  split
  · exact Frame.refl _
  · exact (Frame.refl _).of_eq rfl rfl rfl

theorem frame_freeMemory (st : St) (id mode : Int) : Frame st (freeMemory st id mode).2 := by
  unfold freeMemory
  split
  · exact Frame.refl _
  · exact (Frame.refl _).of_eq rfl rfl rfl

theorem respects_executeAllocate (v : Bool) (args : List Str) (st : St) :
    Respects Frame st (executeAllocate v args st) := by
  intro a st' h
  unfold executeAllocate at h
  simp only [] at h
  repeat' split at h
  all_goals first
    | (cases h; done)
    | (cases h; exact (Frame.refl _).of_eq rfl rfl rfl)
    | exact respects_pair _ (frame_allocateMemoryInternal _ _ _ _ _) _ _ h

theorem Frame.withCout {a b : St} (h : Frame a b) (t : Str) : Frame a (cout b t) :=
  h.of_eq rfl rfl rfl

theorem Frame.withError {a b : St} (h : Frame a b) (t : Str) : Frame a (reportError b t) :=
  h.of_eq rfl rfl rfl

theorem frame_loadLibrary {st st1 : St} {name path : Str} {b : Bool}
    (h : loadLibrary st name path = (b, st1)) : Frame st st1 := by
  unfold loadLibrary at h
  simp only [] at h
  repeat' split at h
  all_goals (cases h; exact (Frame.refl _).of_eq rfl rfl rfl)

theorem frame_getLibraryFunction {st st1 : St} {l f : Str} {o : Option Nat}
    (h : getLibraryFunction st l f = (o, st1)) : Frame st st1 := by
  unfold getLibraryFunction at h
  simp only [] at h
  repeat' split at h
  all_goals first
    | (cases h; exact Frame.refl _)
    | (cases h; exact (Frame.refl _).of_eq rfl rfl rfl)

theorem frame_callLibraryFunction {st st1 : St} {l f : Str} {args : List Variable} {b : Bool}
    {o : Option Variable} (h : callLibraryFunction st l f args = (b, o, st1)) : Frame st st1 := by
  unfold callLibraryFunction at h
  split at h
  · rename_i heq
    cases h
    exact frame_getLibraryFunction heq
  · rename_i heq
    have hg := frame_getLibraryFunction heq
    split at h
    · cases h; exact hg
    · cases h; exact hg.withError _

theorem respects_executeAdd (args : List Str) (st : St) :
    Respects Frame st (executeAdd args st) := by
  intro a st' h
  unfold executeAdd at h
  simp only [] at h
  repeat' split at h
  all_goals first
    | (cases h; done)
    | (cases h; exact Frame.refl _)
    | (have hl := frame_loadLibrary (by assumption); cases h;
       first | exact hl | exact hl.withCout _)

theorem respects_executeLibcall (args : List Str) (st : St) :
    Respects Frame st (executeLibcall args st) := by
  intro a st' h
  unfold executeLibcall at h
  simp only [] at h
  split at h
  · split at h
    · rename_i result st1 heq
      have hc := frame_callLibraryFunction heq
      cases h
      refine hc.trans (Frame.withCout ?_ _)
      split
      · split
        · rename_i top rest hl _
          exact ⟨rfl, by simp [hl], by simp [hl], fun _ _ _ => rfl⟩
        · exact Frame.refl _
      · exact Frame.refl _
    · rename_i b o st1 _ heq
      have hc := frame_callLibraryFunction heq
      cases h
      exact hc
  · cases h; exact Frame.refl _


theorem respects_evalMethod (expr : Str) (st : St) : Respects Frame st (evalMethod expr st) := by
  intro a st' h
  unfold evalMethod evalFallback at h
  simp only [] at h
  repeat' split at h
  all_goals first
    | (cases h; done)
    | (cases h; exact Frame.refl _)

theorem frame_callDebug (f : Str) (args : List Str) (b : Bool) (st : St) :
    Frame st (callDebug f args b st) := by
  unfold callDebug
  simp only []
  split
  · exact (Frame.refl _).withCout _
  · exact ((Frame.refl _).withCout _).withCout _

theorem frame_callResult (f : Str) (args : List Str) (st : St) :
    Frame st (callResult f args st).2 := by
  unfold callResult
  repeat' split
  all_goals first
    | exact Frame.refl _
    | exact (Frame.refl _).withCout _

theorem respects_evalCall (r : Rec) (hr : RecOK r) (expr : Str) (st : St) :
    Respects Frame st (evalCall r expr st) := by
  intro a st' h
  unfold evalCall at h
  split at h
  · split at h
    · simp only [] at h
      split at h
      · cases h
      · rename_i b st1 heq
        have h1 := (hr.pfc _ _ _ _ _ heq).toFrame
        exact respects_pair _ ((h1.trans (frame_callDebug _ _ _ _)).trans
          (frame_callResult _ _ _)) _ _ h
    · exact respects_evalMethod _ _ _ _ h
  · exact respects_evalMethod _ _ _ _ h

theorem respects_evalDiv (r : Rec) (hr : RecOK r) (expr : Str) (st : St) :
    Respects Frame st (evalDiv r expr st) := by
  intro a st' h
  unfold evalDiv at h
  split at h
  · exact respects_evalCall r hr _ _ _ _ h
  · split at h
    · cases h
    · rename_i leftVal st1 heq1
      have h1 := hr.ev _ _ _ _ heq1
      split at h
      · cases h
      · rename_i rightVal st2 heq2
        have h2 := h1.trans (hr.ev _ _ _ _ heq2)
        repeat' split at h
        all_goals first
          | (cases h; exact h2)
          | (cases h; exact h2.withError _)
          | exact h2.trans (respects_evalCall r hr _ _ _ _ h)

theorem respects_evalMul (r : Rec) (hr : RecOK r) (expr : Str) (st : St) :
    Respects Frame st (evalMul r expr st) := by
  intro a st' h
  unfold evalMul at h
  split at h
  · exact respects_evalDiv r hr _ _ _ _ h
  · split at h
    · cases h
    · rename_i leftVal st1 heq1
      have h1 := hr.ev _ _ _ _ heq1
      split at h
      · cases h
      · rename_i rightVal st2 heq2
        have h2 := h1.trans (hr.ev _ _ _ _ heq2)
        repeat' split at h
        all_goals first
          | (cases h; exact h2)
          | exact h2.trans (respects_evalDiv r hr _ _ _ _ h)

theorem respects_evalMinus (r : Rec) (hr : RecOK r) (expr : Str) (st : St) :
    Respects Frame st (evalMinus r expr st) := by
  intro a st' h
  unfold evalMinus at h
  split at h
  · exact respects_evalMul r hr _ _ _ _ h
  · split at h
    · split at h
      · cases h
      · rename_i leftVal st1 heq1
        have h1 := hr.ev _ _ _ _ heq1
        split at h
        · cases h
        · rename_i rightVal st2 heq2
          have h2 := h1.trans (hr.ev _ _ _ _ heq2)
          repeat' split at h
          all_goals first
            | (cases h; exact h2)
            | exact h2.trans (respects_evalMul r hr _ _ _ _ h)
    · exact respects_evalMul r hr _ _ _ _ h

theorem respects_evalPlus (r : Rec) (hr : RecOK r) (expr : Str) (st : St) :
    Respects Frame st (evalPlus r expr st) := by
  intro a st' h
  unfold evalPlus at h
  split at h
  · exact respects_evalMinus r hr _ _ _ _ h
  · split at h
    · cases h
    · rename_i leftVal st1 heq1
      have h1 := hr.ev _ _ _ _ heq1
      split at h
      · cases h
      · rename_i rightVal st2 heq2
        have h2 := h1.trans (hr.ev _ _ _ _ heq2)
        repeat' split at h
        all_goals first
          | (cases h; exact h2)
          | exact h2.trans (respects_evalMinus r hr _ _ _ _ h)

theorem respects_evaluateExpressionB (r : Rec) (hr : RecOK r) (expr : Str) (st : St) :
    Respects Frame st (evaluateExpressionB r expr st) := by
  intro a st' h
  unfold evaluateExpressionB at h
  simp only [] at h
  split at h
  · cases h; exact Frame.refl _
  · exact respects_evalPlus r hr _ _ _ _ h

theorem Frame.pop {s s2 : St} (h : Frame s s2) (hne : s.localVariables ≠ []) (v : Variable) :
    PopRel s (setReturnValue (popFrame s2) v) := by
  refine ⟨?_, ?_, ?_, ?_⟩
  · show s2.callStack.tail = s.callStack.tail
    rw [h.callStack]
  · show s2.localVariables.tail = s.localVariables.tail
    exact h.localsTail
  · intro c hc
    show s2.callStack.head?.getD s2.currentLine = c
    rw [h.callStack, hc]; rfl
  · intro x hx
    show mapFind (mapSet s2.globalVariables returnSlot v) x = _
    rw [mapFind_mapSet_ne _ _ _ _ hx]
    exact h.globals hne x hx

theorem PopRel.thenCout {a b : St} (h : PopRel a b) (t : Str) : PopRel a (cout b t) :=
  ⟨h.callStack, h.locals, h.currentLine, h.globals⟩

theorem respects_processReturn (r : Rec) (hr : RecOK r) (e : Str) (st : St)
    (hne : st.localVariables ≠ []) : Respects PopRel st (processReturn r e st) := by
  intro a st' h
  unfold processReturn at h
  simp only [] at h
  repeat' split at h
  all_goals first
    | (cases h; done)
    | (cases h; exact (Frame.refl _).pop hne _)
    | (cases h; exact ((Frame.refl _).pop hne _).thenCout _)
    | (have h1 := respects_evaluateExpressionB r hr _ _ _ _ (by assumption); cases h;
       exact (h1.pop hne _).thenCout _)

theorem Frame.nonempty {s s2 : St} (h : Frame s s2) (hne : s.localVariables ≠ []) :
    s2.localVariables ≠ [] := by
  intro h0
  have := h.localsLen
  rw [h0] at this
  exact hne (List.length_eq_zero.mp this.symm)

theorem PopRel.of_frame {s s1 s2 : St} (h : Frame s s1) (hne : s.localVariables ≠ [])
    (hp : PopRel s1 s2) : PopRel s s2 := by
  refine ⟨?_, ?_, ?_, ?_⟩
  · rw [hp.callStack, h.callStack]
  · rw [hp.locals]; exact h.localsTail
  · intro c hc; exact hp.currentLine c (by rw [h.callStack]; exact hc)
  · intro x hx; rw [hp.globals x hx]; exact h.globals hne x hx

theorem Frame.popOnly {s s2 : St} (h : Frame s s2) (hne : s.localVariables ≠ []) :
    PopRel s (popFrame s2) := by
  refine ⟨?_, ?_, ?_, ?_⟩
  · show s2.callStack.tail = s.callStack.tail
    rw [h.callStack]
  · show s2.localVariables.tail = s.localVariables.tail
    exact h.localsTail
  · intro c hc
    show s2.callStack.head?.getD s2.currentLine = c
    rw [h.callStack, hc]; rfl
  · intro x hx
    exact h.globals hne x hx

theorem respects_callBody (r : Rec) (hr : RecOK r) (name : Str) :
    ∀ (count index : Nat) (st : St), st.localVariables ≠ [] →
      Respects PopRel st (callBody r name count index st) := by
  intro count
  induction count with
  | zero =>
    intro index st hne a st' h
    unfold callBody at h
    cases h
    exact (Frame.refl _).pop hne _
  | succ n ih =>
    intro index st hne a st' h
    unfold callBody at h
    split at h
    · cases h
      exact (Frame.refl _).pop hne _
    · simp only [] at h
      split at h
      · exact respects_processReturn r hr _ _ hne _ _ h
      · split at h
        · exact ih _ st hne _ _ h
        · split at h
          · cases h
          · rename_i b st1 heq
            have h1 := hr.pl _ _ _ _ heq
            split at h
            · cases h; exact h1.popOnly hne
            · exact PopRel.of_frame h1 hne (ih _ st1 (h1.nonempty hne) _ _ h)

theorem respects_processFunctionCallB (r : Rec) (hr : RecOK r) (name : Str) (args : List Str)
    (st : St) : Respects CallFrame st (processFunctionCallB r name args st) := by
  intro a st' h
  unfold processFunctionCallB at h
  split at h
  · cases h; exact ⟨rfl, rfl, rfl, fun _ _ => rfl⟩
  · split at h
    · cases h; exact ⟨rfl, rfl, rfl, fun _ _ => rfl⟩
    · have hp := respects_callBody r hr _ _ _ _ (by simp) _ _ h
      exact ⟨hp.callStack, hp.locals, hp.currentLine _ rfl, hp.globals⟩


theorem frame_of_map_snd {r : Res Bool} {st st2 : St} (hr : Respects Frame st r)
    (h : r.map Prod.snd = some st2) : Frame st st2 := by
  cases hres : r with
  | none => rw [hres] at h; cases h
  | some p =>
    rw [hres] at h
    cases h
    exact hr p.1 p.2 hres

theorem frame_applyIncrement (r : Rec) (hr : RecOK r) (increment : Str) (st st2 : St)
    (h : applyIncrement r increment st = some st2) : Frame st st2 := by
  unfold applyIncrement at h
  simp only [] at h
  repeat' split at h
  all_goals first
    | (cases h; done)
    | (cases h; exact Frame.refl _)
    | (cases h; exact frame_setVariable _ _ _)
    | exact frame_of_map_snd (hr.pl _ _) h

theorem respects_forIterate (r : Rec) (hr : RecOK r) (condition increment : Str)
    (body : List Str) : ∀ (k : Nat) (st : St),
      Respects Frame st (forIterate r condition increment body k st) := by
  intro k
  induction k with
  | zero => intro st a st' h; unfold forIterate at h; cases h
  | succ k ih =>
    intro st a st' h
    unfold forIterate at h
    split at h
    · split at h
      · cases h
      · rename_i st1 heq
        cases h
        exact respects_execBlock _ hr.pl _ _ _ _ heq
      · rename_i st1 heq
        have h1 := respects_execBlock _ hr.pl _ _ _ _ heq
        split at h
        · cases h
        · rename_i st2 heq2
          exact (h1.trans (frame_applyIncrement r hr _ _ _ heq2)).trans (ih st2 _ _ h)
    · cases h; exact Frame.refl _

theorem respects_whileIterate (r : Rec) (hr : RecOK r) (condition : Str)
    (body : List Str) : ∀ (k : Nat) (st : St),
      Respects Frame st (whileIterate r condition body k st) := by
  intro k
  induction k with
  | zero => intro st a st' h; unfold whileIterate at h; cases h
  | succ k ih =>
    intro st a st' h
    unfold whileIterate at h
    split at h
    · split at h
      · cases h
      · rename_i st1 heq
        cases h
        exact respects_execBlock _ hr.pl _ _ _ _ heq
      · rename_i st1 heq
        exact (respects_execBlock _ hr.pl _ _ _ _ heq).trans (ih st1 _ _ h)
    · cases h; exact Frame.refl _

theorem respects_processWhileLoop (r : Rec) (hr : RecOK r) (line : Str) (st : St) :
    Respects Frame st (processWhileLoop r line st) := by
  intro a st' h
  unfold processWhileLoop at h
  simp only [] at h
  repeat' split at h
  all_goals first
    | (cases h; done)
    | (cases h; exact Frame.refl _)
    | (cases h; exact (Frame.refl _).withError _)
    | (have h1 := respects_whileIterate r hr _ _ _ _ _ _ (by assumption); cases h;
       first | exact h1 | exact h1.of_eq rfl rfl rfl)

theorem respects_processForLoop (r : Rec) (hr : RecOK r) (line : Str) (st : St) :
    Respects Frame st (processForLoop r line st) := by
  intro a st' h
  unfold processForLoop at h
  simp only [] at h
  split at h
  · cases h; exact Frame.refl _
  · split at h
    · split at h
      · cases h; exact (Frame.refl _).withError _
      · split at h
        · split at h
          · cases h
          · rename_i st1 heq
            have h1 : Frame st st1 := by
              split at heq
              · cases heq; exact Frame.refl _
              · split at heq
                · exact frame_of_map_snd (hr.pl _ _) heq
                · exact frame_of_map_snd (hr.pl _ _) heq
            split at h
            · cases h
            · rename_i st2 heq2
              cases h
              exact h1.trans (respects_forIterate r hr _ _ _ _ _ _ _ heq2)
            · rename_i st2 heq2
              cases h
              exact (h1.trans (respects_forIterate r hr _ _ _ _ _ _ _ heq2)).of_eq rfl rfl rfl
        · cases h; exact (Frame.refl _).withError _
    · cases h; exact (Frame.refl _).withError _

theorem respects_executeDeclaration (r : Rec) (hr : RecOK r) (command name : Str)
    (args : List Str) (st : St) : Respects Frame st (executeDeclaration r command name args st) := by
  intro a st' h
  unfold executeDeclaration at h
  simp only [] at h
  repeat' split at h
  all_goals first
    | (cases h; done)
    | (cases h; exact Frame.refl _)
    | (cases h; exact frame_setVariable _ _ _)
    | (cases h; exact (frame_setVariable _ _ _).withCout _)
    | (have h1 := respects_evaluateExpressionB r hr _ _ _ _ (by assumption); cases h;
       exact (h1.withCout _).trans (frame_setVariable _ _ _))

theorem frame_processInput (st : St) : Frame st (processInput st).2 := by
  unfold processInput
  split
  · exact Frame.refl _
  · exact (Frame.refl _).of_eq rfl rfl rfl

theorem respects_executeKeyword (command : Str) (args : List Str) (st : St) :
    Respects Frame st (executeKeyword command args st) := by
  intro a st' h
  unfold executeKeyword executeFrmem executeErr executeWarn executeBuiltIn at h
  simp only [] at h
  repeat' split at h
  all_goals first
    | (cases h; done)
    | (cases h; exact Frame.refl _)
    | (cases h; exact (Frame.refl _).of_eq rfl rfl rfl)
    | exact respects_executeAllocate _ _ _ _ _ h
    | exact respects_executeAdd _ _ _ _ h
    | exact respects_executeLibcall _ _ _ _ h
    | exact respects_pair _ (frame_freeMemory _ _ _) _ _ h

theorem respects_executeCommand (r : Rec) (hr : RecOK r) (command : Str) (args : List Str)
    (st : St) : Respects Frame st (executeCommand r command args st) := by
  intro a st' h
  unfold executeCommand at h
  repeat' split at h
  all_goals first
    | (cases h; exact (frame_processInput _).trans (frame_setReturnValue _ _))
    | exact respects_processFlameMemory _ _ _ _ _ h
    | exact respects_executeVideo _ _ _ _ h
    | exact respects_executeDeclaration r hr _ _ _ _ _ _ h
    | exact respects_executeKeyword _ _ _ _ _ h

theorem respects_dispatchLine (r : Rec) (hr : RecOK r) (line : Str) (st : St) :
    Respects Frame st (dispatchLine r line st) := by
  intro a st' h
  unfold dispatchLine at h
  repeat' split at h
  all_goals first
    | (cases h; exact Frame.refl _)
    | (cases h; exact (Frame.refl _).withError _)
    | exact respects_processIfStatement r hr _ _ _ _ h
    | exact respects_processForLoop r hr _ _ _ _ h
    | exact respects_processWhileLoop r hr _ _ _ _ h
    | exact respects_processFunction _ _ _ _ h
    | exact (respects_processFunctionCallB r hr _ _ _ _ _ h).toFrame
    | exact respects_executeCommand r hr _ _ _ _ _ h

theorem respects_processLineB (r : Rec) (hr : RecOK r) (line : Str) (st : St) :
    Respects Frame st (processLineB r line st) := by
  intro a st' h
  have h0 : Frame st (recordLine st line) := (Frame.refl _).of_eq rfl rfl rfl
  exact h0.trans (respects_dispatchLine r hr _ _ _ _ h)

theorem recOK_interp : ∀ fuel : Nat, RecOK (interp fuel) := by
  intro fuel
  induction fuel with
  | zero =>
    refine ⟨?_, ?_, ?_⟩
    · intro _ _ _ _ h; cases h
    · intro _ _ _ _ _ h; cases h
    · intro _ _ _ _ h; cases h
  | succ n ih =>
    exact ⟨fun line st => respects_processLineB _ ih line st,
      fun name args st => respects_processFunctionCallB _ ih name args st,
      fun expr st => respects_evaluateExpressionB _ ih expr st⟩

theorem frame_advanceLine (st : St) : Frame st (advanceLine st) :=
  (Frame.refl _).of_eq rfl rfl rfl

theorem respects_runLoop (fuel : Nat) : ∀ (k : Nat) (st : St),
    Respects Frame st (runLoop fuel k st) := by
  intro k
  induction k with
  | zero => intro st a st' h; unfold runLoop at h; cases h
  | succ k ih =>
    intro st a st' h
    unfold runLoop at h
    repeat' split at h
    all_goals first
      | (cases h; done)
      | (cases h; exact Frame.refl _)
      | (have h1 := (recOK_interp fuel).pl _ _ _ _ (by assumption); cases h;
         exact h1.withError _)
      | (have h1 := (recOK_interp fuel).pl _ _ _ _ (by assumption);
         exact (h1.trans (frame_advanceLine _)).trans (ih _ _ _ h))

/-! ## Lemmas: block matching and literal shapes -/

theorem scanBraces_eq_naive : ∀ (l : Str) (mode : ScanMode) (n : Int),
    scanBraces l mode n = scanBracesNaive (codeChars l mode) n := by
  intro l
  induction l with
  | nil => intro mode n; cases mode <;> rfl
  | cons c cs ih =>
    intro mode n
    cases mode with
    | code =>
      unfold scanBraces codeChars
      by_cases h1 : c = '#'
      · simp [h1, scanBracesNaive]
      · by_cases h2 : c = '"'
        · simp [h2, ih]
        · simp only [h1, h2, if_false]
          unfold scanBracesNaive
          simp only [ih]
    | inString =>
      unfold scanBraces codeChars
      by_cases h1 : c = '"'
      · simp [h1, ih]
      · by_cases h2 : c = '\\'
        · simp [h2, ih]
        · simp [h1, h2, ih]
    | escaped =>
      unfold scanBraces codeChars
      exact ih _ _

theorem scanBracesNaive_no_brace : ∀ (s : Str) (n : Int),
    (∀ c ∈ s, isBrace c = false) → scanBracesNaive s n = n := by
  intro s
  induction s with
  | nil => intro n _; rfl
  | cons c cs ih =>
    intro n h
    have hc := h c (List.mem_cons_self _ _)
    have h1 : c ≠ '\x7b' := by intro e; rw [e] at hc; exact absurd hc (by decide)
    have h2 : c ≠ '\x7d' := by intro e; rw [e] at hc; exact absurd hc (by decide)
    unfold scanBracesNaive
    simp only [h1, h2, if_false]
    split
    · rfl
    · exact ih n (fun d hd => h d (List.mem_cons_of_mem _ hd))

theorem scanBracesNaive_closing : ∀ (s : Str),
    s.find? isBrace = some '\x7d' → scanBracesNaive s 1 = 0 := by
  intro s
  induction s with
  | nil => intro h; simp at h
  | cons c cs ih =>
    intro h
    unfold scanBracesNaive
    by_cases hb : isBrace c = true
    · rw [List.find?_cons_of_pos _ hb] at h
      cases h
      simp
    · have hb0 : isBrace c = false := by simpa using hb
      rw [List.find?_cons_of_neg _ hb] at h
      have h1 : c ≠ '\x7b' := by intro e; rw [e] at hb0; exact absurd hb0 (by decide)
      have h2 : c ≠ '\x7d' := by intro e; rw [e] at hb0; exact absurd hb0 (by decide)
      simp only [h1, h2, if_false]
      simp [ih h]

theorem blockLoop_quiet (scan : Str → Int → Int) : ∀ (block : List Str) (rest : List Str) (e : Nat),
    (∀ l ∈ block, scan l 1 = 1) →
    blockLoop scan (block ++ rest) 1 e = blockLoop scan rest 1 (e + block.length) := by
  intro block
  induction block with
  | nil => intro rest e _; simp
  | cons l ls ih =>
    intro rest e h
    have hl := h l (List.mem_cons_self _ _)
    show blockLoop scan (l :: (ls ++ rest)) 1 e = _
    simp only [blockLoop, Int.zero_lt_one, if_true, hl]
    rw [ih rest (e + 1) (fun l' hl' => h l' (List.mem_cons_of_mem _ hl'))]
    simp [Nat.add_assoc, Nat.add_comm 1]

theorem blockLoop_closing (scan : Str → Int → Int) (closing : Str) (post : List Str) (e : Nat)
    (h : scan closing 1 = 0) : blockLoop scan (closing :: post) 1 e = e + 1 := by
  simp only [blockLoop, Int.zero_lt_one, if_true, h]
  cases post <;> simp [blockLoop]

theorem numericLoop_eq_all : ∀ (s : Str) (fl : Bool),
    (numericLoop s false fl).1 = s.all (fun c => c == '.' || isdigit c) := by
  intro s
  induction s with
  | nil => intro fl; rfl
  | cons c cs ih =>
    intro fl
    unfold numericLoop
    by_cases h1 : c = '.'
    · simp [h1, ih]
    · by_cases h2 : isdigit c = true
      · simp [h1, h2, ih]
      · simp [h1, h2]

theorem numericLoop_eq_shape (name : Str) :
    (numericLoop name true false).1 = numericShape name := by
  cases name with
  | nil => rfl
  | cons c cs =>
    by_cases h0 : c = '-'
    · subst h0
      simp [numericLoop, numericShape, numericLoop_eq_all]
    · have hs : numericShape (c :: cs) = (c :: cs).all (fun c => c == '.' || isdigit c) := by
        unfold numericShape
        split
        · rename_i r heq; injection heq with hc _; exact absurd hc h0
        · rfl
      rw [hs]
      unfold numericLoop
      by_cases h1 : c = '.'
      · simp [h0, h1, numericLoop_eq_all]
      · by_cases h2 : isdigit c = true
        · simp [h0, h1, h2, numericLoop_eq_all]
        · simp [h0, h1, h2]

theorem literalOf_none (name : Str) (hne : name ≠ []) (hnum : numericShape name = false)
    (hq : isQuoted name = false) : literalOf name = none := by
  unfold literalOf
  have h1 : name.isEmpty = false := by cases name <;> simp_all
  simp [h1, numericLoop_eq_shape, hnum, hq]

/-! ## The claims -/

set_option maxRecDepth 100000

/-- C1 (the code departs from the claim): on a fresh interpreter the script
`int.a = 2`, `int.b = 3`, `int.c = a + b` runs to the end, and then the
global `c` is bound to the Integer 0, not 5: the right-hand side `a + b` has
no parentheses, so `executeCommand` hands it to `getVariable`, whose undefined
sentinel never has the type string `str.undefined`, and the empty value of
the sentinel is coerced to 0. -/
theorem sum_script_binds_zero :
    resultOf (runScript 8 sumScript) = some true ∧
    globalAfter (runScript 8 sumScript) "a" = some (some (VType.INTEGER, "2")) ∧
    globalAfter (runScript 8 sumScript) "b" = some (some (VType.INTEGER, "3")) ∧
    globalAfter (runScript 8 sumScript) "c" = some (some (VType.INTEGER, "0")) := by
  decide!

/-- C2 (the code departs from the claim): with the definition of `factorial`
of the specification, (1) a call written on the line right after the closing
brace is never processed, because `processFunction` leaves the line index on
that line and `run` steps over it; (2) after an empty line, the statement
`factorial(5)` processes only the `if` line of the body (whose block is looked
up after the call line of the script) and returns at `return 1`, so the return
slot holds the Integer 1; (3) after an empty line, `int.r = factorial(5)` never
invokes the function and binds `r` to the Integer 0. In no case is 120 computed. -/
theorem factorial_script_results :
    traceAfter (runScript 20 (factorialDef ++ ["factorial(5)"]))
      = some ["function factorial(n) \x7b"] ∧
    globalAfter (runScript 20 (factorialDef ++ ["factorial(5)"])) "__return_value" = some none ∧
    traceAfter (runScript 20 (factorialDef ++ ["", "factorial(5)"]))
      = some ["function factorial(n) \x7b", "factorial(5)", "if (n < 2) \x7b"] ∧
    globalAfter (runScript 20 (factorialDef ++ ["", "factorial(5)"])) "__return_value"
      = some (some (VType.INTEGER, "1")) ∧
    traceAfter (runScript 20 (factorialDef ++ ["", "int.r = factorial(5)"]))
      = some ["function factorial(n) \x7b", "int.r = factorial(5)"] ∧
    globalAfter (runScript 20 (factorialDef ++ ["", "int.r = factorial(5)"])) "r"
      = some (some (VType.INTEGER, "0")) ∧
    globalAfter (runScript 20 (factorialDef ++ ["int.r = factorial(5)"])) "r" = some none := by
  decide!

/-- C3 (the code departs from the claim): on a fresh interpreter the loop
`for (int.i = 0; i < 3; i++)` with the body `str.video++ i` executes its body
zero times. The initialisation is run as the line `int.int.i = 0`, which binds
the name `int.i`; `i` stays unbound, so the condition `i < 3` is false at once. -/
theorem for_with_typed_init_runs_zero_times :
    resultOf (runScript 20 forScript) = some true ∧
    traceAfter (runScript 20 forScript)
      = some ["for (int.i = 0; i < 3; i++) \x7b", "int.int.i = 0"] ∧
    outAfter (runScript 20 forScript) = some [] ∧
    globalAfter (runScript 20 forScript) "i" = some none ∧
    globalAfter (runScript 20 forScript) "int.i" = some (some (VType.INTEGER, "0")) := by
  decide!

/-- C4 (the code departs from the claim): the script `int.a = 5`, `int.b = 0`,
`int.c = a / b`, `int.d = 7` runs to the end and executes the line after the
division, but the error list stays empty: the division is never evaluated,
`c` is bound to the Integer 0 like any text that is not a number. -/
theorem division_script_records_no_error :
    resultOf (runScript 8 divScript) = some true ∧
    errorsAfter (runScript 8 divScript) = some [] ∧
    traceAfter (runScript 8 divScript)
      = some ["int.a = 5", "int.b = 0", "int.c = a / b", "int.d = 7"] ∧
    globalAfter (runScript 8 divScript) "c" = some (some (VType.INTEGER, "0")) ∧
    globalAfter (runScript 8 divScript) "d" = some (some (VType.INTEGER, "7")) := by
  decide!

theorem demoCall_isSome : demoCall.isSome = true := by decide!

/-- C5: scope isolation. Whenever `processFunctionCall` returns, every global
binding other than the return slot `__return_value` is what it was before the
call, present or absent, whatever the body assigned. -/
theorem scope_isolation (fuel : Nat) (name : Str) (args : List Str) (st : St) (x : Str)
    (p : Bool × St) (hx : x ≠ returnSlot)
    (h : processFunctionCall fuel name args st = some p) :
    mapFind p.2.globalVariables x = mapFind st.globalVariables x :=
  ((recOK_interp fuel).pfc name args st p.1 p.2 h).globals x hx

/-- Witness for C5: in `demoState` the global `x` is 1 and the body of `f`
assigns `x = 2`; the call `f(5)` returns and the global `x` is unchanged.  -/
theorem scope_isolation_witness :
    mapFind (demoCall.get demoCall_isSome).2.globalVariables "x".toList
      = mapFind demoState.globalVariables "x".toList :=
  scope_isolation 5 "f".toList ["5".toList] demoState "x".toList (demoCall.get demoCall_isSome)
    (by decide) (Option.some_get demoCall_isSome).symm

theorem stopRun_isSome : stopRun.isSome = true := by decide!

/-- C6: call-stack balance. Every invocation that terminates, however it
ends, leaves the local-scope stack and the call stack as deep as they were;
so does every processed line; and a run that starts with both stacks empty
ends with both stacks empty. -/
theorem call_stack_balance (fuel : Nat) (name : Str) (args : List Str) (line : Str) (st : St) :
    (∀ p, processFunctionCall fuel name args st = some p →
      p.2.localVariables.length = st.localVariables.length ∧
      p.2.callStack.length = st.callStack.length) ∧
    (∀ p, processLine fuel line st = some p →
      p.2.localVariables.length = st.localVariables.length ∧
      p.2.callStack.length = st.callStack.length) ∧
    (∀ p, st.localVariables.length = 0 → st.callStack.length = 0 → run fuel st = some p →
      p.2.localVariables.length = 0 ∧ p.2.callStack.length = 0) := by
  refine ⟨?_, ?_, ?_⟩
  · intro p h
    have hf := (recOK_interp fuel).pfc name args st p.1 p.2 h
    exact ⟨by rw [hf.locals], by rw [hf.callStack]⟩
  · intro p h
    have hf := (recOK_interp fuel).pl line st p.1 p.2 h
    exact ⟨hf.localsLen, by rw [hf.callStack]⟩
  · intro p hl hc h
    unfold run at h
    split at h
    · cases h; exact ⟨hl, hc⟩
    · have hf := respects_runLoop fuel fuel _ p.1 p.2 h
      have h1 : p.2.localVariables.length = st.localVariables.length := by
        rw [hf.localsLen]; unfold registerCoreVariables processDynamicMode; split <;> rfl
      have h2 : p.2.callStack = st.callStack := by
        rw [hf.callStack]; unfold registerCoreVariables processDynamicMode; split <;> rfl
      exact ⟨h1.trans hl, by rw [h2]; exact hc⟩

/-- Witness for C6: the run of `stopScript`, in which the body of `g` requests
a stop before its last line, terminates with both stacks empty. -/
theorem call_stack_balance_witness :
    (stopRun.get stopRun_isSome).2.localVariables.length = 0 ∧
    (stopRun.get stopRun_isSome).2.callStack.length = 0 :=
  (call_stack_balance 10 [] [] [] { fresh with scriptLines := stopScript.map String.toList }).2.2
    (stopRun.get stopRun_isSome) rfl rfl (Option.some_get stopRun_isSome).symm

/-- C7: block matching for `if` blocks and `function` bodies. When no line of
the block has a brace outside double-quoted strings and comments, and the
first brace that counts on the next line is a closing one, the scan that
starts at depth 1 on the first block line ends on that next line: the index
returned is one past it, whatever braces the block lines hold inside strings
or after `#`. -/
theorem block_end_ignores_quoted_braces (pre block post : List Str) (closing : Str)
    (hblock : ∀ l ∈ block, ∀ c ∈ codeChars l ScanMode.code, isBrace c = false)
    (hclose : firstCodeBrace closing = some '\x7d') :
    findBlockEnd (pre ++ block ++ closing :: post) pre.length
      = pre.length + block.length + 1 := by
  unfold findBlockEnd
  have hdrop : (pre ++ block ++ closing :: post).drop pre.length = block ++ closing :: post := by
    rw [List.append_assoc, List.drop_left]
  rw [hdrop, blockLoop_quiet]
  · exact blockLoop_closing _ _ _ _ (by
      show scanBraces closing ScanMode.code 1 = 0
      rw [scanBraces_eq_naive]
      exact scanBracesNaive_closing _ hclose)
  · intro l hl
    show scanBraces l ScanMode.code 1 = 1
    rw [scanBraces_eq_naive]
    exact scanBracesNaive_no_brace _ _ (hblock l hl)

/-- Witness for C7: the example of the specification, an `if` block whose
only line is `str.s = "a{b}c"`; the block ends at index 3, one past the line
of the real closing brace. -/
theorem block_end_ignores_quoted_braces_witness :
    findBlockEnd (["if (x == 1) \x7b".toList] ++ ["str.s = \"a\x7bb\x7dc\"".toList]
      ++ "\x7d".toList :: ["int.y = 1".toList]) 1 = 3 :=
  block_end_ignores_quoted_braces ["if (x == 1) \x7b".toList]
    ["str.s = \"a\x7bb\x7dc\"".toList] ["int.y = 1".toList] "\x7d".toList
    (by decide) (by decide)

/-- C8 (the code departs from the claim): `processForLoop` and
`processWhileLoop` count every brace. In `quotedBraceLoop` the closing brace
inside the string of the first body line ends the body: the scan of the loops
returns 2 where the scan of `if` returns 4, the loop runs twice over an empty
body, and the body line `str.video++ i` is executed once, after the loop, at
top level. A `while` loop whose condition is false likewise executes the body
line that follows the quoted brace. -/
theorem loop_block_counts_quoted_brace :
    findBlockEndNaive (quotedBraceLoop.map String.toList) 1 = 2 ∧
    findBlockEnd (quotedBraceLoop.map String.toList) 1 = 4 ∧
    traceAfter (runScript 20 quotedBraceLoop)
      = some ["for (i = 0; i < 2; i++) \x7b", "int.i = 0", "str.video++ i", "\x7d"] ∧
    outAfter (runScript 20 quotedBraceLoop) = some ["2"] ∧
    outAfter (runScript 20 ["int.n = 5", "while (n < 1) \x7b", "str.s = \"\x7d\"",
      "str.video++ n", "\x7d"]) = some ["5"] := by
  decide!

/-- C9: lookup order of `getVariable`. For a name that is not empty, not of
numeric-literal shape (the shape `getVariable` tests: after an optional
leading `-`, only digits and dots) and not wrapped in double quotes, the
result is the binding of the top local table if there is a local table and it
binds the name, else the global binding if there is one, else the undefined
sentinel, which is a String Variable with empty value; no table below the top
one is looked at. `getVariable` is a total function: it never fails. -/
theorem getVariable_lookup_order (st : St) (name : Str)
    (hne : name ≠ []) (hnum : numericShape name = false) (hq : isQuoted name = false) :
    getVariable st name =
      (match st.localVariables with
       | top :: _ =>
         (mapFind top name).getD ((mapFind st.globalVariables name).getD undefinedSentinel)
       | [] => (mapFind st.globalVariables name).getD undefinedSentinel) ∧
    undefinedSentinel.type = VType.STRING ∧ undefinedSentinel.getValueAsString = [] := by
  refine ⟨?_, by decide, by decide⟩
  unfold getVariable
  rw [literalOf_none name hne hnum hq]
  unfold lookupScopes undefinedSentinel
  cases hl : st.localVariables with
  | nil => cases hg : mapFind st.globalVariables name <;> simp [hg]
  | cons top rest =>
    cases ht : mapFind top name <;> cases hg : mapFind st.globalVariables name <;> simp [ht, hg]

/-- Witness for C9: in `scopedState` the top local table, a lower local table
and the global table all bind `x`; the lookup order applies to the name `x`. -/
theorem getVariable_lookup_order_witness :
    getVariable scopedState "x".toList =
      (match scopedState.localVariables with
       | top :: _ =>
         (mapFind top "x".toList).getD
           ((mapFind scopedState.globalVariables "x".toList).getD undefinedSentinel)
       | [] => (mapFind scopedState.globalVariables "x".toList).getD undefinedSentinel) ∧
    undefinedSentinel.type = VType.STRING ∧ undefinedSentinel.getValueAsString = [] :=
  getVariable_lookup_order scopedState "x".toList (by decide) (by decide) (by decide)

/-- C10: `setVariable` writes to the current scope only. With a local table
on the stack, the top table is updated to bind the name to the value and the
lower tables and the global table are unchanged; with an empty stack the
global table is updated, and only at that name. In both cases a lookup of a
name that is not literal-shaped then returns the value. -/
theorem setVariable_writes_current_scope (st : St) (name : Str) (v : Variable) :
    (∀ top rest, st.localVariables = top :: rest →
      (setVariable st name v).localVariables = mapSet top name v :: rest ∧
      mapFind (mapSet top name v) name = some v ∧
      (setVariable st name v).globalVariables = st.globalVariables) ∧
    (st.localVariables = [] →
      (setVariable st name v).localVariables = [] ∧
      mapFind (setVariable st name v).globalVariables name = some v ∧
      ∀ y, y ≠ name →
        mapFind (setVariable st name v).globalVariables y = mapFind st.globalVariables y) ∧
    (name ≠ [] → numericShape name = false → isQuoted name = false →
      getVariable (setVariable st name v) name = v) := by
  refine ⟨?_, ?_, ?_⟩
  · intro top rest h
    unfold setVariable
    rw [h]
    exact ⟨rfl, mapFind_mapSet_eq _ _ _, rfl⟩
  · intro h
    unfold setVariable
    rw [h]
    exact ⟨rfl, mapFind_mapSet_eq _ _ _, fun y hy => mapFind_mapSet_ne _ _ _ _ hy⟩
  · intro hne hnum hq
    unfold getVariable
    rw [literalOf_none name hne hnum hq]
    unfold lookupScopes setVariable
    cases h : st.localVariables with
    | nil => simp [h, mapFind_mapSet_eq]
    | cons top rest => simp [mapFind_mapSet_eq]

/-- Witness for C10: writing `x` in `scopedState`, which has two local tables,
changes the top table only, and the value written is the one read back. -/
theorem setVariable_writes_current_scope_witness :
    (setVariable scopedState "x".toList undefinedSentinel).globalVariables
      = scopedState.globalVariables ∧
    getVariable (setVariable scopedState "x".toList undefinedSentinel) "x".toList
      = undefinedSentinel :=
  ⟨((setVariable_writes_current_scope scopedState "x".toList undefinedSentinel).1 _ _ rfl).2.2,
    (setVariable_writes_current_scope scopedState "x".toList undefinedSentinel).2.2
      (by decide) (by decide) (by decide)⟩

/-! ## Lemmas: text, tokenizer, headers and the loop of `run` -/

theorem takeWhile_append_all {p : Char → Bool} : ∀ (a b : Str), (∀ x ∈ a, p x = true) →
    (a ++ b).takeWhile p = a ++ b.takeWhile p := by
  intro a
  induction a with
  | nil => intro b _; rfl
  | cons x xs ih =>
    intro b h
    have hx := h x (List.mem_cons_self _ _)
    simp only [List.cons_append, List.takeWhile_cons, hx, if_true]
    rw [ih b (fun y hy => h y (List.mem_cons_of_mem _ hy))]

theorem dropWhile_append_all {p : Char → Bool} : ∀ (a b : Str), (∀ x ∈ a, p x = true) →
    (a ++ b).dropWhile p = b.dropWhile p := by
  intro a
  induction a with
  | nil => intro b _; rfl
  | cons x xs ih =>
    intro b h
    have hx := h x (List.mem_cons_self _ _)
    simp only [List.cons_append, List.dropWhile_cons, hx, if_true]
    exact ih b (fun y hy => h y (List.mem_cons_of_mem _ hy))

theorem takeWhile_append_of_exists {p : Char → Bool} : ∀ (a b : Str), (∃ x ∈ a, p x = false) →
    (a ++ b).takeWhile p = a.takeWhile p := by
  intro a
  induction a with
  | nil => intro b h; obtain ⟨x, hx, _⟩ := h; cases hx
  | cons x xs ih =>
    intro b h
    by_cases hx : p x = true
    · simp only [List.cons_append, List.takeWhile_cons, hx, if_true]
      obtain ⟨y, hy, hpy⟩ := h
      rcases List.mem_cons.mp hy with rfl | hy'
      · rw [hx] at hpy; cases hpy
      · rw [ih b ⟨y, hy', hpy⟩]
    · simp only [List.cons_append, List.takeWhile_cons, hx, Bool.false_eq_true, if_false]

theorem dropWhile_append_of_exists {p : Char → Bool} : ∀ (a b : Str), (∃ x ∈ a, p x = false) →
    (a ++ b).dropWhile p = a.dropWhile p ++ b := by
  intro a
  induction a with
  | nil => intro b h; obtain ⟨x, hx, _⟩ := h; cases hx
  | cons x xs ih =>
    intro b h
    by_cases hx : p x = true
    · simp only [List.cons_append, List.dropWhile_cons, hx, if_true]
      obtain ⟨y, hy, hpy⟩ := h
      rcases List.mem_cons.mp hy with rfl | hy'
      · rw [hx] at hpy; cases hpy
      · exact ih b ⟨y, hy', hpy⟩
    · simp only [List.cons_append, List.dropWhile_cons, hx, Bool.false_eq_true, if_false]

theorem dropWhile_eq_nil_of_all {p : Char → Bool} (a : Str) (h : ∀ x ∈ a, p x = true) :
    a.dropWhile p = [] := by
  have := dropWhile_append_all a [] h
  simpa using this

theorem trim_append_left_space (ws x : Str) (h : ∀ c ∈ ws, isspace c = true) :
    trim (ws ++ x) = trim x := by
  unfold trim
  rw [dropWhile_append_all ws x h]

theorem rstrip_append_space (y ws : Str) (h : ∀ c ∈ ws, isspace c = true) :
    ((y ++ ws).reverse.dropWhile isspace).reverse = (y.reverse.dropWhile isspace).reverse := by
  rw [List.reverse_append, dropWhile_append_all ws.reverse y.reverse
    (fun c hc => h c (List.mem_reverse.mp hc))]

theorem trim_append_right_space (x ws : Str) (h : ∀ c ∈ ws, isspace c = true) :
    trim (x ++ ws) = trim x := by
  unfold trim
  by_cases hx : ∀ c ∈ x, isspace c = true
  · have h1 : (x ++ ws).dropWhile isspace = [] :=
      dropWhile_eq_nil_of_all _ (fun c hc => by
        rcases List.mem_append.mp hc with hc | hc
        · exact hx c hc
        · exact h c hc)
    rw [h1, dropWhile_eq_nil_of_all x hx]
  · have hx' : ∃ c ∈ x, isspace c = false := by
      by_contra hcon
      apply hx
      intro c hc
      by_contra hsp
      exact hcon ⟨c, hc, by simpa using hsp⟩
    rw [dropWhile_append_of_exists x ws hx', rstrip_append_space _ _ h]

theorem trim_decomp (s : Str) : ∃ ws1 ws2 : Str,
    (∀ c ∈ ws1, isspace c = true) ∧ (∀ c ∈ ws2, isspace c = true) ∧
    s = ws1 ++ trim s ++ ws2 := by
  refine ⟨s.takeWhile isspace, ((s.dropWhile isspace).reverse.takeWhile isspace).reverse,
    ?_, ?_, ?_⟩
  · intro c hc; exact List.mem_takeWhile_imp hc
  · intro c hc; exact List.mem_takeWhile_imp (List.mem_reverse.mp hc)
  · unfold trim
    rw [List.append_assoc, ← List.reverse_append, List.takeWhile_append_dropWhile,
      List.reverse_reverse, List.takeWhile_append_dropWhile]

theorem mem_trim_of_mem (s : Str) (c : Char) (hc : c ∈ s) (hsp : isspace c = false) :
    c ∈ trim s := by
  obtain ⟨ws1, ws2, h1, h2, hs⟩ := trim_decomp s
  rw [hs] at hc
  rcases List.mem_append.mp hc with hc | hc
  · rcases List.mem_append.mp hc with hc | hc
    · rw [h1 c hc] at hsp; cases hsp
    · exact hc
  · rw [h2 c hc] at hsp; cases hsp

theorem findChar_of_mem (c : Char) : ∀ (s : Str), c ∈ s →
    findChar c s = some (beforeFirst c s).length := by
  intro s
  induction s with
  | nil => intro h; cases h
  | cons x xs ih =>
    intro h
    unfold findChar beforeFirst
    by_cases hx : x = c
    · simp [hx]
    · have hmem : c ∈ xs := by
        rcases List.mem_cons.mp h with h | h
        · exact absurd h.symm hx
        · exact h
      have := ih hmem
      unfold beforeFirst at this
      simp [hx, this]

theorem findChar_of_not_mem (c : Char) : ∀ (s : Str), c ∉ s → findChar c s = none := by
  intro s
  induction s with
  | nil => intro _; rfl
  | cons x xs ih =>
    intro h
    unfold findChar
    have hx : x ≠ c := fun e => h (by rw [e]; exact List.mem_cons_self _ _)
    have := ih (fun hm => h (List.mem_cons_of_mem _ hm))
    simp [hx, this]

theorem take_length_takeWhile (p : Char → Bool) : ∀ s : Str,
    s.take (s.takeWhile p).length = s.takeWhile p := by
  intro s
  induction s with
  | nil => rfl
  | cons x xs ih =>
    by_cases hx : p x = true
    · simp only [List.takeWhile_cons, hx, if_true, List.length_cons, List.take_succ_cons, ih]
    · simp [List.takeWhile_cons, hx]

theorem drop_length_takeWhile (p : Char → Bool) : ∀ s : Str,
    s.drop (s.takeWhile p).length = s.dropWhile p := by
  intro s
  induction s with
  | nil => rfl
  | cons x xs ih =>
    by_cases hx : p x = true
    · simp only [List.takeWhile_cons, List.dropWhile_cons, hx, if_true, List.length_cons,
        List.drop_succ_cons, ih]
    · simp [List.takeWhile_cons, List.dropWhile_cons, hx]

theorem take_beforeFirst (c : Char) (s : Str) :
    s.take (beforeFirst c s).length = beforeFirst c s :=
  take_length_takeWhile _ s

theorem drop_beforeFirst (c : Char) (s : Str) :
    s.drop ((beforeFirst c s).length + 1) = afterFirst c s := by
  unfold beforeFirst afterFirst
  rw [← List.drop_drop, drop_length_takeWhile]

theorem mem_beforeFirst_or (c : Char) (s : Str) (h : c ∈ s) :
    ∃ x ∈ s, (fun x => x != c) x = false := ⟨c, h, by simp⟩

theorem trim_beforeFirst_trim (c : Char) (s : Str) (hc : c ∈ s) (hsp : isspace c = false) :
    trim (beforeFirst c (trim s)) = trim (beforeFirst c s) := by
  obtain ⟨ws1, ws2, h1, h2, hs⟩ := trim_decomp s
  have hct := mem_trim_of_mem s c hc hsp
  have hne : ∀ x ∈ ws1, (fun x => x != c) x = true := by
    intro x hx
    have hx1 := h1 x hx
    have : x ≠ c := fun e => by rw [e, hsp] at hx1; cases hx1
    simpa using this
  conv => rhs; rw [hs]
  unfold beforeFirst
  rw [List.append_assoc, takeWhile_append_all ws1 _ hne,
    takeWhile_append_of_exists (trim s) ws2 (mem_beforeFirst_or c _ hct),
    trim_append_left_space _ _ h1]

theorem trim_afterFirst_trim (c : Char) (s : Str) (hc : c ∈ s) (hsp : isspace c = false) :
    trim (afterFirst c (trim s)) = trim (afterFirst c s) := by
  obtain ⟨ws1, ws2, h1, h2, hs⟩ := trim_decomp s
  have hct := mem_trim_of_mem s c hc hsp
  have hne : ∀ x ∈ ws1, (fun x => x != c) x = true := by
    intro x hx
    have hx1 := h1 x hx
    have : x ≠ c := fun e => by rw [e, hsp] at hx1; cases hx1
    simpa using this
  conv => rhs; rw [hs]
  unfold afterFirst
  rw [List.append_assoc, dropWhile_append_all ws1 _ hne,
    dropWhile_append_of_exists (trim s) ws2 (mem_beforeFirst_or c _ hct)]
  have hnil : (trim s).dropWhile (fun x => x != c) ≠ [] := by
    intro h0
    have := List.takeWhile_append_dropWhile (fun x => x != c) (trim s)
    rw [h0, List.append_nil] at this
    have hmem : c ∈ (trim s).takeWhile (fun x => x != c) := by rw [this]; exact hct
    have := List.mem_takeWhile_imp hmem
    simp at this
  cases hd : (trim s).dropWhile (fun x => x != c) with
  | nil => exact absurd hd hnil
  | cons y ys =>
    show trim ys = trim (List.drop 1 ((y :: ys) ++ ws2))
    show trim ys = trim (ys ++ ws2)
    rw [trim_append_right_space _ _ h2]

theorem beforeFirst_append (c : Char) (a b : Str) (h : c ∉ a) :
    beforeFirst c (a ++ c :: b) = a := by
  unfold beforeFirst
  rw [takeWhile_append_all a _ (fun x hx => by
    have : x ≠ c := fun e => h (e ▸ hx)
    simpa using this)]
  simp

theorem findChar_append (c : Char) (a b : Str) (h : c ∉ a) :
    findChar c (a ++ c :: b) = some a.length := by
  rw [findChar_of_mem c _ (List.mem_append_right _ (List.mem_cons_self _ _)),
    beforeFirst_append c a b h]

theorem trim_of_ends (a z : Char) (m : Str) (ha : isspace a = false) (hz : isspace z = false) :
    trim (a :: (m ++ [z])) = a :: (m ++ [z]) := by
  unfold trim
  simp [List.dropWhile_cons, ha, hz]

theorem startsWith_cons (pat : Str) (x : Char) (xs : Str) :
    startsWith pat (x :: xs) = pat.isPrefixOf (x :: xs) := by
  unfold startsWith findStr
  by_cases h : pat.isPrefixOf (x :: xs) = true
  · simp [h]
  · simp only [h, Bool.false_eq_true, if_false]
    cases findStr pat xs <;> simp [h]

theorem splitTrim_append (d : Char) : ∀ (p rest cur : Str), d ∉ p →
    splitTrim d (p ++ rest) cur = splitTrim d rest (p.reverse ++ cur) := by
  intro p
  induction p with
  | nil => intro rest cur _; rfl
  | cons x xs ih =>
    intro rest cur h
    have hx : x ≠ d := fun e => h (by rw [e]; exact List.mem_cons_self _ _)
    have hxs : d ∉ xs := fun hm => h (List.mem_cons_of_mem _ hm)
    show splitTrim d (x :: (xs ++ rest)) cur = _
    rw [splitTrim, if_neg hx, ih rest (x :: cur) hxs]
    simp

theorem splitTrim_joinComma : ∀ (ps : List Str), ps ≠ [] → (∀ p ∈ ps, ',' ∉ p) →
    splitTrim ',' (joinComma ps) [] = ps.map trim := by
  intro ps
  induction ps with
  | nil => intro h; exact absurd rfl h
  | cons p qs ih =>
    intro _ h
    have hp := h p (List.mem_cons_self _ _)
    cases qs with
    | nil =>
      have := splitTrim_append ',' p [] [] hp
      simp only [List.append_nil] at this
      simp [joinComma, this, splitTrim]
    | cons q rs =>
      have hq := ih (by simp) (fun x hx => h x (List.mem_cons_of_mem _ hx))
      show splitTrim ',' (p ++ ',' :: joinComma (q :: rs)) [] = _
      rw [splitTrim_append ',' p _ [] hp, splitTrim, if_pos rfl, hq]
      simp

theorem not_mem_joinComma (c : Char) (hc : c ≠ ',') : ∀ (ps : List Str), (∀ p ∈ ps, c ∉ p) →
    c ∉ joinComma ps := by
  intro ps
  induction ps with
  | nil => intro _ h; cases h
  | cons p qs ih =>
    intro h
    have hp := h p (List.mem_cons_self _ _)
    cases qs with
    | nil => exact hp
    | cons q rs =>
      have hq := ih (fun x hx => h x (List.mem_cons_of_mem _ hx))
      show c ∉ p ++ ',' :: joinComma (q :: rs)
      intro hm
      rcases List.mem_append.mp hm with hm | hm
      · exact hp hm
      · rcases List.mem_cons.mp hm with hm | hm
        · exact hc hm
        · exact hq hm

theorem processFunction_header (name : Str) (params : List Str) (st : St)
    (hname : '(' ∉ name) (hparams : ∀ p ∈ params, ',' ∉ p ∧ ')' ∉ p)
    (hnonempty : params = [] ∨ joinComma params ≠ []) :
    processFunction (functionHeader name params) st = some (true,
      { st with
        userFunctions := mapSet st.userFunctions (trim name)
          ⟨trim name, params.map trim,
            (st.scriptLines.drop (st.currentLine + 1)).take
              (findBlockEnd st.scriptLines (st.currentLine + 1) - (st.currentLine + 1))⟩,
        currentLine := findBlockEnd st.scriptLines (st.currentLine + 1) }) := by
  have htrim : trim (functionHeader name params) = functionHeader name params := by
    have := trim_of_ends 'f' '\x7b'
      ("unction ".toList ++ (name ++ '(' :: (joinComma params ++ [')', ' ']))) (by decide) (by decide)
    simpa [functionHeader] using this
  have hclose : ')' ∉ joinComma params :=
    not_mem_joinComma ')' (by decide) params (fun p hp => (hparams p hp).2)
  have hopen : findCharFrom '(' (functionHeader name params) 9 = some (name.length + 9) := by
    unfold findCharFrom
    show Option.map _ (findChar '(' (name ++ '(' :: _)) = _
    rw [findChar_append '(' name _ hname]
    rfl
  have hcl : findCharFrom ')' (functionHeader name params) (name.length + 9)
      = some ((joinComma params).length + 1 + (name.length + 9)) := by
    unfold findCharFrom
    have hd : List.drop (name.length + 9) (functionHeader name params)
        = ('(' :: joinComma params) ++ ')' :: [' ', '\x7b'] := by
      show List.drop name.length (name ++ _) = _
      simp
    rw [hd, findChar_append ')' _ _ (by
      intro hm
      rcases List.mem_cons.mp hm with hm | hm
      · exact absurd hm (by decide)
      · exact hclose hm)]
    rfl
  have hbrace : ∃ k, findChar '\x7b' (functionHeader name params) = some k :=
    ⟨_, findChar_of_mem _ _ (by simp [functionHeader])⟩
  obtain ⟨k, hk⟩ := hbrace
  have hname2 : substr (functionHeader name params) 9 (name.length + 9 - 9) = name := by
    unfold substr
    show List.take _ (name ++ _) = name
    simp
  have hps : substr (functionHeader name params) (name.length + 9 + 1)
      ((joinComma params).length + 1 + (name.length + 9) - (name.length + 9) - 1)
      = joinComma params := by
    unfold substr
    have hd : List.drop (name.length + 9 + 1) (functionHeader name params)
        = joinComma params ++ [')', ' ', '\x7b'] := by
      show List.drop (name.length + 1) (name ++ '(' :: _) = _
      rw [← List.drop_drop]
      simp
    rw [hd]
    have : (joinComma params).length + 1 + (name.length + 9) - (name.length + 9) - 1
        = (joinComma params).length := by omega
    rw [this]
    simp
  have hsplit : (if (joinComma params).isEmpty = true then []
      else splitTrim ',' (joinComma params) []) = params.map trim := by
    rcases hnonempty with h | h
    · subst h; rfl
    · have hne : params ≠ [] := fun e => h (by rw [e]; rfl)
      have : (joinComma params).isEmpty = false := by
        cases hj : joinComma params with
        | nil => exact absurd hj h
        | cons _ _ => rfl
      rw [this]
      simp only [Bool.false_eq_true, if_false]
      exact splitTrim_joinComma params hne (fun p hp => (hparams p hp).1)
  unfold processFunction
  simp only [htrim]
  have hsw : startsWith "function ".toList (functionHeader name params) = true := by
    unfold functionHeader
    rw [startsWith_cons]
    have hpat : "function ".toList = ['f', 'u', 'n', 'c', 't', 'i', 'o', 'n', ' '] := by decide
    rw [hpat]
    simp [List.isPrefixOf]
  simp only [hsw, Bool.not_true, Bool.false_eq_true, if_false, hopen, hcl, hk, hname2, hps, hsplit]

theorem findBlockEnd_of_shape (pre block post : List Str) (closing : Str)
    (hblock : ∀ l ∈ block, firstCodeBrace l = none)
    (hclose : firstCodeBrace closing = some '\x7d') :
    findBlockEnd (pre ++ (block ++ closing :: post)) pre.length
      = pre.length + block.length + 1 := by
  unfold findBlockEnd
  rw [List.drop_left, blockLoop_quiet]
  · exact blockLoop_closing _ _ _ _ (by
      show scanBraces closing ScanMode.code 1 = 0
      rw [scanBraces_eq_naive]
      exact scanBracesNaive_closing _ hclose)
  · intro l hl
    show scanBraces l ScanMode.code 1 = 1
    rw [scanBraces_eq_naive]
    refine scanBracesNaive_no_brace _ _ (fun c hc => ?_)
    have h := hblock l hl
    unfold firstCodeBrace at h
    rw [List.find?_eq_none] at h
    simpa using h c hc

theorem trim_ifHeader (cond : Str) : trim (ifHeader cond) = ifHeader cond := by
  have := trim_of_ends 'i' '\x7b' ("f (".toList ++ (cond ++ [')', ' '])) (by decide) (by decide)
  simpa [ifHeader] using this

theorem dispatchLine_ifHeader (r : Rec) (cond : Str) (st : St) :
    dispatchLine r (ifHeader cond) st = processIfStatement r (ifHeader cond) st := by
  have h1 : "if ".toList = ['i', 'f', ' '] := by decide
  unfold dispatchLine ifHeader
  simp [startsWith_cons, h1, List.isPrefixOf]

theorem findChar_ifHeader (cond : Str) (h1 : ')' ∉ cond) (h2 : '\x7b' ∉ cond) :
    findChar '(' (ifHeader cond) = some 3 ∧
    findChar ')' (ifHeader cond) = some (cond.length + 4) ∧
    findChar '\x7b' (ifHeader cond) = some (cond.length + 6) ∧
    substr (ifHeader cond) 4 cond.length = cond := by
  refine ⟨?_, ?_, ?_, ?_⟩
  · have := findChar_append '(' ['i', 'f', ' '] (cond ++ [')', ' ', '\x7b']) (by decide)
    simpa [ifHeader] using this
  · have := findChar_append ')' ('i' :: 'f' :: ' ' :: '(' :: cond) [' ', '\x7b']
      (by simp [h1])
    have e : ifHeader cond = ('i' :: 'f' :: ' ' :: '(' :: cond) ++ ')' :: [' ', '\x7b'] := by
      simp [ifHeader]
    rw [e, this]
    simp
  · have := findChar_append '\x7b' ('i' :: 'f' :: ' ' :: '(' :: (cond ++ [')', ' '])) []
      (by simp [h2])
    have e : ifHeader cond = ('i' :: 'f' :: ' ' :: '(' :: (cond ++ [')', ' '])) ++ '\x7b' :: [] := by
      simp [ifHeader]
    rw [e, this]
    simp
  · simp [substr, ifHeader]

theorem evaluateCondition_recordLine (st : St) (line cond : Str) :
    evaluateCondition (recordLine st line) cond = evaluateCondition st cond := rfl

theorem get?_append_cons {α : Type} (a : List α) (x : α) (b : List α) (n : Nat) (h : n = a.length) :
    (a ++ x :: b).get? n = some x := by
  subst h
  rw [List.get?_eq_getElem?, List.getElem?_append_right (Nat.le_refl _)]
  simp

theorem take_drop_append {α : Type} (a b c : List α) (n k : Nat) (hn : n = a.length)
    (hk : k = b.length) : ((a ++ (b ++ c)).drop n).take k = b := by
  subst hn; subst hk
  simp

theorem processIfStatement_else_shape (r : Rec) (pre A B post : List Str)
    (line closeA elseLine closeB cond : Str) (st : St)
    (hc1 : ')' ∉ cond) (hc2 : '\x7b' ∉ cond)
    (hscript : st.scriptLines
      = pre ++ line :: (A ++ closeA :: elseLine :: (B ++ closeB :: post)))
    (hcur : st.currentLine = pre.length)
    (hA : ∀ l ∈ A, firstCodeBrace l = none) (hB : ∀ l ∈ B, firstCodeBrace l = none)
    (hcloseA : firstCodeBrace closeA = some '\x7d')
    (hcloseB : firstCodeBrace closeB = some '\x7d')
    (helse : trim elseLine = "else \x7b".toList) :
    processIfStatement r (ifHeader cond) st =
      match execBlock r.processLine (if evaluateCondition st cond then A else B) st with
      | none => none
      | some (false, st1) => some (false, st1)
      | some (true, st1) =>
        some (true, { st1 with currentLine := pre.length + A.length + B.length + 3 }) := by
  obtain ⟨f1, f2, f3, f4⟩ := findChar_ifHeader cond hc1 hc2
  have s1 : st.scriptLines = (pre ++ [line]) ++ (A ++ closeA :: elseLine :: (B ++ closeB :: post)) := by
    rw [hscript]; simp
  have s2 : st.scriptLines = (pre ++ line :: (A ++ [closeA])) ++ elseLine :: (B ++ closeB :: post) := by
    rw [hscript]; simp
  have s3 : st.scriptLines = (pre ++ line :: (A ++ [closeA, elseLine])) ++ (B ++ closeB :: post) := by
    rw [hscript]; simp
  have e1 : findBlockEnd st.scriptLines (pre.length + 1) = pre.length + A.length + 2 := by
    have := findBlockEnd_of_shape (pre ++ [line]) A (elseLine :: (B ++ closeB :: post)) closeA
      hA hcloseA
    rw [← s1] at this
    have hl : (pre ++ [line]).length = pre.length + 1 := by simp
    rw [hl] at this
    rw [this]
    omega
  have e2 : st.scriptLines.get? (pre.length + A.length + 2) = some elseLine := by
    rw [s2]
    exact get?_append_cons _ _ _ _ (by simp; omega)
  have e3 : findBlockEnd st.scriptLines (pre.length + A.length + 2 + 1)
      = pre.length + A.length + B.length + 4 := by
    have := findBlockEnd_of_shape (pre ++ line :: (A ++ [closeA, elseLine])) B post closeB
      hB hcloseB
    rw [← s3] at this
    have hl : (pre ++ line :: (A ++ [closeA, elseLine])).length = pre.length + A.length + 2 + 1 := by
      simp; omega
    rw [hl] at this
    rw [this]
    omega
  have e4 : blockLines st.scriptLines (pre.length + 1) (pre.length + A.length + 2) = A := by
    unfold blockLines
    rw [s1]
    exact take_drop_append _ _ _ _ _ (by simp) (by omega)
  have e5 : blockLines st.scriptLines (pre.length + A.length + 2 + 1)
      (pre.length + A.length + B.length + 4) = B := by
    unfold blockLines
    rw [s3]
    exact take_drop_append _ _ _ _ _ (by simp; omega) (by omega)
  have hlt : 3 < cond.length + 4 ∧ cond.length + 4 < cond.length + 6 := by omega
  have hsub : cond.length + 4 - 3 - 1 = cond.length := by omega
  unfold processIfStatement
  simp only [trim_ifHeader, f1, f2, f3, hlt, and_self, if_true, hsub, f4, hcur, e1, e2, helse,
    or_true, decide_True, e3, e4, e5, Nat.add_sub_cancel]
  by_cases hc : evaluateCondition st cond = true
  · simp only [hc, if_true]
    rfl
  · simp only [hc, if_false, Bool.false_eq_true]
    rfl

/-- The body loop reads the registered body by index. -/
theorem bodyLineAt_of_registered (st : St) (name : Str) (body : List Str) (index : Nat)
    (h : registeredBody st name = some body) : bodyLineAt st name index = body.get? index := by
  unfold registeredBody at h
  unfold bodyLineAt
  cases hf : mapFind st.userFunctions name with
  | none => rw [hf] at h; cases h
  | some func =>
    rw [hf] at h
    have : func.body = body := by simpa using h
    rw [← this]

/-- The body loop goes through lines of the stored body that are not `return`
lines as `bodyReaches` does, as long as the body stays registered. -/
theorem callBody_reaches (r : Rec) (name : Str) (body rest : List Str) :
    ∀ (pre : List Str) (count index : Nat) (st s1 : St),
      registeredBody st name = some body →
      body.drop index = pre ++ rest →
      (∀ l ∈ pre, startsWith "return ".toList (trim l) = false) →
      bodyReaches r name body pre st = some s1 →
      callBody r name (pre.length + count) index st
          = callBody r name count (index + pre.length) s1 ∧
        registeredBody s1 name = some body := by
  intro pre
  induction pre with
  | nil =>
    intro count index st s1 hreg _ _ h
    have e : st = s1 := by
      have h1 : some st = some s1 := h
      cases h1; rfl
    subst e
    simp only [List.length_nil, Nat.zero_add, Nat.add_zero]
    exact ⟨trivial, hreg⟩
  | cons l ls ih =>
    intro count index st s1 hreg hdrop hpre h
    have hl := hpre l (List.mem_cons_self _ _)
    have hls : ∀ x ∈ ls, startsWith "return ".toList (trim x) = false :=
      fun x hx => hpre x (List.mem_cons_of_mem _ hx)
    have hat : bodyLineAt st name index = some l := by
      rw [bodyLineAt_of_registered st name body index hreg, List.get?_eq_getElem?,
        ← List.head?_drop, hdrop]
      rfl
    have hdrop1 : body.drop (index + 1) = ls ++ rest := by
      rw [← List.tail_drop, hdrop]
      rfl
    have hcount : (l :: ls).length + count = (ls.length + count) + 1 := by
      simp only [List.length_cons]; omega
    have hindex : index + (l :: ls).length = (index + 1) + ls.length := by
      simp only [List.length_cons]; omega
    rw [hcount, hindex]
    rw [callBody]
    unfold bodyReaches at h
    simp only [hat, hl, Bool.false_eq_true, if_false]
    split
    · rename_i hb
      rw [if_pos hb] at h
      exact ih count (index + 1) st s1 hreg hdrop1 hls h
    · rename_i hb
      rw [if_neg hb] at h
      cases hp : r.processLine l st with
      | none => rw [hp] at h; cases h
      | some p =>
        obtain ⟨b, st1⟩ := p
        rw [hp] at h
        simp only at h ⊢
        by_cases hrun : st1.isRunning = true
        · simp only [hrun, Bool.not_true, Bool.false_eq_true, if_false] at h ⊢
          by_cases hk : registeredBody st1 name = some body
          · rw [if_pos hk] at h
            exact ih count (index + 1) st1 s1 hk hdrop1 hls h
          · rw [if_neg hk] at h
            cases h
        · have hr : st1.isRunning = false := by simpa using hrun
          simp only [hr, Bool.not_false, if_true] at h
          cases h

/-- An invocation whose lines up to the end of the body are gone through
falls through: success, with the Integer 0 in the return slot. -/
theorem processFunctionCallB_fall_through (r : Rec) (name : Str) (args : List Str) (st : St)
    (func : FunctionDefinition) (s1 : St)
    (hreg : mapFind st.userFunctions name = some func)
    (harity : args.length = func.parameters.length)
    (hbody : ∀ line ∈ func.body, startsWith "return ".toList (trim line) = false)
    (hrun : bodyReaches r name func.body func.body (callStart st func args) = some s1) :
    processFunctionCallB r name args st
      = some (true, setReturnValue (popFrame s1) fallThroughValue) := by
  unfold processFunctionCallB
  rw [hreg]
  simp only [harity, ne_eq, not_true_eq_false, if_false]
  have hr0 : registeredBody (callStart st func args) name = some func.body := by
    show (mapFind st.userFunctions name).map _ = _
    rw [hreg]; rfl
  have h := (callBody_reaches r name func.body [] func.body 0 0 (callStart st func args) s1 hr0
    (by simp) hbody hrun).1
  rw [Nat.add_zero] at h
  show callBody r name func.body.length 0 (callStart st func args) = _
  rw [h]
  rfl

/-- A loop `while (1 == 1)` over an empty block never ends. -/
theorem whileIterate_forever (r : Rec) : ∀ (k : Nat) (st : St),
    whileIterate r "1 == 1".toList [] k st = none := by
  intro k
  induction k with
  | zero => intro st; rfl
  | succ n ih =>
    intro st
    unfold whileIterate
    have hc : evaluateCondition st "1 == 1".toList = true := rfl
    rw [if_pos hc]
    show (match execBlock r.processLine [] st with
      | none => none
      | some (false, st1) => some (false, st1)
      | some (true, st1) => whileIterate r "1 == 1".toList [] n st1) = none
    exact ih st

/-- The line `while (1 == 1) \x7b` never returns when its block is empty. -/
theorem loopingLine_none (r : Rec) :
    processLineB r "while (1 == 1) \x7b".toList
      (callStart loopingState ⟨"f".toList, [], ((loopingScript.map String.toList).drop 1).take 3⟩ [])
      = none := by
  have h : processLineB r "while (1 == 1) \x7b".toList
      (callStart loopingState
        ⟨"f".toList, [], ((loopingScript.map String.toList).drop 1).take 3⟩ [])
      = (match whileIterate r "1 == 1".toList [] r.loopFuel
          (recordLine (callStart loopingState
            ⟨"f".toList, [], ((loopingScript.map String.toList).drop 1).take 3⟩ [])
            "while (1 == 1) \x7b".toList) with
        | none => none
        | some (false, st1) => some (false, st1)
        | some (true, st1) => some (true, { st1 with currentLine := 6 - 1 })) := rfl
  rw [h, whileIterate_forever]

theorem noReturnCall_isSome : noReturnCall.isSome = true := by decide!

theorem noReturnCall_running : (noReturnCall.get noReturnCall_isSome).2.isRunning = true := by
  decide!

theorem isspace_eq_false : isspace '=' = false := by decide

theorem parseVariableDeclaration_of_mem (t : Str) (h : '=' ∈ t) :
    parseVariableDeclaration t =
      (if '.' ∈ trim (beforeFirst '=' t) then
        (trim (beforeFirst '.' (trim (beforeFirst '=' t))),
          trim (afterFirst '.' (trim (beforeFirst '=' t))), trim (afterFirst '=' t))
       else ("str".toList, trim (beforeFirst '=' t), trim (afterFirst '=' t))) := by
  unfold parseVariableDeclaration
  rw [findChar_of_mem _ _ h]
  simp only [substr, substrFrom, List.drop_zero, take_beforeFirst, drop_beforeFirst]
  by_cases hd : '.' ∈ trim (beforeFirst '=' t)
  · rw [findChar_of_mem _ _ hd]
    simp only [hd, if_true, take_beforeFirst, drop_beforeFirst]
  · rw [findChar_of_not_mem _ _ hd]
    simp only [hd, if_false]

theorem dispatchLine_functionHeader (r : Rec) (name : Str) (params : List Str) (st : St) :
    dispatchLine r (functionHeader name params) st
      = processFunction (functionHeader name params) st := by
  have h1 : "if ".toList = ['i', 'f', ' '] := by decide
  have h2 : "else".toList = ['e', 'l', 's', 'e'] := by decide
  have h3 : "for ".toList = ['f', 'o', 'r', ' '] := by decide
  have h4 : "while ".toList = ['w', 'h', 'i', 'l', 'e', ' '] := by decide
  have h5 : "function ".toList = ['f', 'u', 'n', 'c', 't', 'i', 'o', 'n', ' '] := by decide
  unfold dispatchLine functionHeader
  simp [startsWith_cons, h1, h2, h3, h4, h5, List.isPrefixOf]

theorem trim_functionHeader (name : Str) (params : List Str) :
    trim (functionHeader name params) = functionHeader name params := by
  have := trim_of_ends 'f' '\x7b'
    ("unction ".toList ++ (name ++ '(' :: (joinComma params ++ [')', ' ']))) (by decide) (by decide)
  simpa [functionHeader] using this

/-! ## The claims on the tokenizer, functions and control flow -/

/-- C11: tokenizer, declaration form. For every line that contains `=`,
`parseLine` returns exactly one argument, the trimmed text after the first
`=`, and the command `type.name`: the trimmed text before the first `=` is
split at its first `.` into type and name (each trimmed), and when it has no
`.` the type is `str` and the name is the whole left-hand side. -/
theorem parseLine_declaration (line : Str) (h : '=' ∈ line) :
    parseLine line =
      (if '.' ∈ trim (beforeFirst '=' line) then
        (trim (beforeFirst '.' (trim (beforeFirst '=' line))) ++
          '.' :: trim (afterFirst '.' (trim (beforeFirst '=' line))),
          [trim (afterFirst '=' line)])
       else
        ("str".toList ++ '.' :: trim (beforeFirst '=' line), [trim (afterFirst '=' line)])) := by
  have hct : '=' ∈ trim line := mem_trim_of_mem line '=' h isspace_eq_false
  unfold parseLine
  simp only [isVariableDeclaration, containsChar, findChar_of_mem _ _ hct, Option.isSome_some,
    if_true]
  rw [parseVariableDeclaration_of_mem _ hct,
    trim_beforeFirst_trim '=' line h isspace_eq_false,
    trim_afterFirst_trim '=' line h isspace_eq_false]
  by_cases hd : '.' ∈ trim (beforeFirst '=' line)
  · simp only [hd, if_true]
  · simp only [hd, if_false]

/-- Witness for C11: the line `  int . x  =  a = b ` gives the command `int.x`
and the one argument `a = b`; the line ` n = 5` gives `str.n` and `5`. -/
theorem parseLine_declaration_witness :
    parseLine "  int . x  =  a = b ".toList = ("int.x".toList, ["a = b".toList]) ∧
    parseLine " n = 5".toList = ("str.n".toList, ["5".toList]) :=
  ⟨(parseLine_declaration "  int . x  =  a = b ".toList (by decide)).trans (by decide),
   (parseLine_declaration " n = 5".toList (by decide)).trans (by decide)⟩

/-- C12 (the code departs from the claim): `parseLine` cuts the argument text
at the first `)` after the first `(`, not at the matching one. For the line
`f(g(1,2), 3)` it returns the command `f` and the single argument `g(1,2`,
not the arguments `g(1,2)` and `3`. Commas inside double quotes do not split. -/
theorem call_form_cuts_at_first_close :
    parseLine "f(g(1,2), 3)".toList = ("f".toList, ["g(1,2".toList]) ∧
    parseParenthesizedArgs "g(1,2), 3".toList = ["g(1,2)".toList, "3".toList] ∧
    parseLine "f(\"a,b\", c)".toList = ("f".toList, ["\"a,b\"".toList, "c".toList]) := by
  decide!

/-- C13: invocation failure is atomic. When the name is not registered, or the
number of argument texts differs from the number of parameters, the call
returns failure at once, and the state after it is the state before it with
one message added to the error list: global variables, local-scope stack,
call stack, line index, function registry and the trace of processed lines
are unchanged. -/
theorem invocation_failure_atomic (fuel : Nat) (name : Str) (args : List Str) (st : St)
    (h : mapFind st.userFunctions name = none ∨
      ∃ func, mapFind st.userFunctions name = some func ∧
        args.length ≠ func.parameters.length) :
    ∃ message,
      processFunctionCall (fuel + 1) name args st = some (false, reportError st message) ∧
      (reportError st message).errors = st.errors ++ [message] ∧
      (reportError st message).globalVariables = st.globalVariables ∧
      (reportError st message).localVariables = st.localVariables ∧
      (reportError st message).callStack = st.callStack ∧
      (reportError st message).currentLine = st.currentLine ∧
      (reportError st message).userFunctions = st.userFunctions ∧
      (reportError st message).trace = st.trace := by
  rcases h with h | ⟨func, h, ha⟩
  · refine ⟨"Function '".toList ++ name ++ "' not defined".toList,
      ?_, rfl, rfl, rfl, rfl, rfl, rfl, rfl⟩
    show processFunctionCallB (interp fuel) name args st = _
    unfold processFunctionCallB
    rw [h]
  · refine ⟨"Function '".toList ++ name ++ "' called with ".toList
        ++ natToString args.length ++ " arguments but requires ".toList
        ++ natToString func.parameters.length, ?_, rfl, rfl, rfl, rfl, rfl, rfl, rfl⟩
    show processFunctionCallB (interp fuel) name args st = _
    unfold processFunctionCallB
    rw [h]
    simp only [ha, ne_eq, not_false_eq_true, if_true]

/-- Witness for C13: in `demoState` no function `h` is registered, and `f`
takes one parameter; calling `f` with two arguments fails atomically. -/
theorem invocation_failure_atomic_witness :
    ∃ message,
      processFunctionCall 1 "f".toList ["1".toList, "2".toList] demoState
        = some (false, reportError demoState message) ∧
      (reportError demoState message).errors = demoState.errors ++ [message] ∧
      (reportError demoState message).globalVariables = demoState.globalVariables ∧
      (reportError demoState message).localVariables = demoState.localVariables ∧
      (reportError demoState message).callStack = demoState.callStack ∧
      (reportError demoState message).currentLine = demoState.currentLine ∧
      (reportError demoState message).userFunctions = demoState.userFunctions ∧
      (reportError demoState message).trace = demoState.trace :=
  invocation_failure_atomic 0 "f".toList ["1".toList, "2".toList] demoState
    (Or.inr ⟨⟨"f".toList, ["a".toList], ["int.x = 2".toList, "return x".toList, "\x7d".toList]⟩,
      rfl, by decide⟩)

/-- C14 (as amended): fall-through return. When a registered function is
invoked with the right number of arguments, its body has no line that begins
with `return `, and the body loop goes through the whole body (`bodyReaches`:
every processed line returns, none requests a stop, none leaves another body
registered under the name), then the invocation returns success and the
return slot `__return_value` holds the Integer 0, whatever it held before. -/
theorem fall_through_returns_zero (fuel : Nat) (name : Str) (args : List Str) (st : St)
    (func : FunctionDefinition) (s1 : St)
    (hreg : mapFind st.userFunctions name = some func)
    (harity : args.length = func.parameters.length)
    (hbody : ∀ line ∈ func.body, startsWith "return ".toList (trim line) = false)
    (hrun : bodyReaches (interp fuel) name func.body func.body (callStart st func args)
      = some s1) :
    ∃ v, processFunctionCall (fuel + 1) name args st
        = some (true, setReturnValue (popFrame s1) v) ∧
      mapFind (setReturnValue (popFrame s1) v).globalVariables returnSlot = some v ∧
      v.type = VType.INTEGER ∧ v.getIntValue = 0 :=
  ⟨fallThroughValue,
    processFunctionCallB_fall_through (interp fuel) name args st func s1 hreg harity hbody hrun,
    mapFind_mapSet_eq _ _ _, by decide, by decide⟩

/-- The body loop of `noReturnReach` reaches the end of the body. -/
theorem noReturnReach_isSome : noReturnReach.isSome = true := by decide!

/-- Witness for C14: in `noReturnState` the return slot holds a String; the
body of `g` has no `return`; the invocation `g(1)` returns success and the
slot holds the Integer 0 afterwards. -/
theorem fall_through_returns_zero_witness :
    ∃ v, processFunctionCall 5 "g".toList ["1".toList] noReturnState
        = some (true, setReturnValue (popFrame (noReturnReach.get noReturnReach_isSome)) v) ∧
      mapFind (setReturnValue (popFrame (noReturnReach.get noReturnReach_isSome)) v).globalVariables
        returnSlot = some v ∧
      v.type = VType.INTEGER ∧ v.getIntValue = 0 :=
  fall_through_returns_zero 4 "g".toList ["1".toList] noReturnState
    ⟨"g".toList, ["a".toList], ["int.x = 2".toList, "\x7d".toList]⟩
    (noReturnReach.get noReturnReach_isSome) rfl rfl (by decide)
    (Option.some_get noReturnReach_isSome).symm

/-- Counterexample for C14 as stated: in `loopingState` the function `f` is
registered without parameters, its body `while (1 == 1) \x7b`, `\x7d`, `\x7d`
has no `return` line and requests no stop; the invocation `f()` returns with
no amount of fuel: the loop condition stays true and the call never ends. -/
theorem looping_body_never_returns :
    ¬ ∃ fuel : Nat, (processFunctionCall fuel "f".toList [] loopingState).isSome = true := by
  rintro ⟨fuel, h⟩
  cases fuel with
  | zero => cases h
  | succ n =>
    have hcall : processFunctionCall (n + 1) "f".toList [] loopingState
        = (match (interp n).processLine "while (1 == 1) \x7b".toList
            (callStart loopingState
              ⟨"f".toList, [], ((loopingScript.map String.toList).drop 1).take 3⟩ []) with
          | none => none
          | some (_, st1) =>
            if !st1.isRunning then some (false, popFrame st1)
            else callBody (interp n) "f".toList 2 1 st1) := rfl
    rw [hcall] at h
    cases n with
    | zero => cases h
    | succ m =>
      have hl : (interp (m + 1)).processLine "while (1 == 1) \x7b".toList
          (callStart loopingState
            ⟨"f".toList, [], ((loopingScript.map String.toList).drop 1).take 3⟩ [])
          = none := loopingLine_none (interp m)
      rw [hl] at h
      cases h

/-- C15 (the code departs from the claim): after a top-level definition `run`
skips the line that follows the closing brace. In `definitionScript` no body
line is processed, but neither is `int.y = 2`: the next line processed after
the definition is `int.z = 3`, and `y` stays unbound. -/
theorem line_after_definition_is_skipped :
    resultOf (runScript 10 definitionScript) = some true ∧
    traceAfter (runScript 10 definitionScript) = some ["function f() \x7b", "int.z = 3"] ∧
    globalAfter (runScript 10 definitionScript) "x" = some none ∧
    globalAfter (runScript 10 definitionScript) "y" = some none ∧
    globalAfter (runScript 10 definitionScript) "z" = some (some (VType.INTEGER, "3")) := by
  decide!

/-- C16: processing a well-formed line `function name(p1,...,pk) \x7b`
registers under the trimmed name a definition whose parameter list is the
trimmed `p1..pk` in order, empty for `()`, and whose body is the lines of the
block that follows; it changes no variable binding and processes no other
line (the trace grows by the header only). The registration is by name,
whatever was registered before: a call made in the state after it uses the
parameters and body just registered (its body loop starts at index 0 with
the length of that body and reads that body by index). -/
theorem function_definition_registers (fuel : Nat) (name : Str) (params : List Str) (st : St)
    (hname : '(' ∉ name) (hparams : ∀ p ∈ params, ',' ∉ p ∧ ')' ∉ p)
    (hnonempty : params = [] ∨ joinComma params ≠ []) :
    ∃ (st' : St) (body : List Str),
      processLine (fuel + 1) (functionHeader name params) st = some (true, st') ∧
      body = (st.scriptLines.drop (st.currentLine + 1)).take
        (findBlockEnd st.scriptLines (st.currentLine + 1) - (st.currentLine + 1)) ∧
      mapFind st'.userFunctions (trim name) = some ⟨trim name, params.map trim, body⟩ ∧
      st'.globalVariables = st.globalVariables ∧
      st'.localVariables = st.localVariables ∧
      st'.trace = st.trace ++ [functionHeader name params] ∧
      (∀ (r : Rec) (args : List Str), args.length = params.length →
        processFunctionCallB r (trim name) args st' =
          callBody r (trim name) body.length 0 { st' with
            callStack := st'.currentLine :: st'.callStack,
            localVariables := bindArguments st' (params.map trim) args [] :: st'.localVariables } ∧
        ∀ index : Nat, bodyLineAt { st' with
            callStack := st'.currentLine :: st'.callStack,
            localVariables := bindArguments st' (params.map trim) args [] :: st'.localVariables }
          (trim name) index = body.get? index) := by
  have hproc : processLine (fuel + 1) (functionHeader name params) st
      = processFunction (functionHeader name params) (recordLine st (functionHeader name params)) := by
    show dispatchLine (interp fuel) (trim (functionHeader name params)) _ = _
    rw [trim_functionHeader, dispatchLine_functionHeader]
  rw [hproc, processFunction_header name params _ hname hparams hnonempty]
  refine ⟨_, _, rfl, rfl, mapFind_mapSet_eq _ _ _, rfl, rfl, rfl, ?_⟩
  intro r args hargs
  refine ⟨?_, fun index => ?_⟩
  · unfold processFunctionCallB
    simp only [mapFind_mapSet_eq, List.length_map, hargs, ne_eq, not_true_eq_false, if_false]
    rfl
  · unfold bodyLineAt
    simp only [mapFind_mapSet_eq]
    rfl

/-- Witness for C16: the header `function f( x , y ) \x7b` registers `f`
with the parameters `x` and `y` in any state, here a fresh one; and in
`redefinitionScript`, where `f` is defined twice, the call `f(1, 2)` uses the
second definition and returns its second argument. -/
theorem function_definition_registers_witness :
    (∃ (st' : St) (body : List Str),
      processLine 1 (functionHeader "f".toList [" x ".toList, " y ".toList]) fresh
        = some (true, st') ∧
      body = (fresh.scriptLines.drop (fresh.currentLine + 1)).take
        (findBlockEnd fresh.scriptLines (fresh.currentLine + 1) - (fresh.currentLine + 1)) ∧
      mapFind st'.userFunctions (trim "f".toList)
        = some ⟨trim "f".toList, [" x ".toList, " y ".toList].map trim, body⟩ ∧
      st'.globalVariables = fresh.globalVariables ∧
      st'.localVariables = fresh.localVariables ∧
      st'.trace = fresh.trace ++ [functionHeader "f".toList [" x ".toList, " y ".toList]] ∧
      (∀ (r : Rec) (args : List Str), args.length = [" x ".toList, " y ".toList].length →
        processFunctionCallB r (trim "f".toList) args st' =
          callBody r (trim "f".toList) body.length 0 { st' with
            callStack := st'.currentLine :: st'.callStack,
            localVariables :=
              bindArguments st' ([" x ".toList, " y ".toList].map trim) args []
                :: st'.localVariables } ∧
        ∀ index : Nat, bodyLineAt { st' with
            callStack := st'.currentLine :: st'.callStack,
            localVariables :=
              bindArguments st' ([" x ".toList, " y ".toList].map trim) args []
                :: st'.localVariables }
          (trim "f".toList) index = body.get? index)) ∧
    globalAfter (runScript 10 redefinitionScript) "__return_value"
      = some (some (VType.INTEGER, "2")) :=
  ⟨function_definition_registers 0 "f".toList [" x ".toList, " y ".toList] fresh
    (by decide) (by decide) (Or.inr (by decide)), by decide!⟩

/-- The branch of an `if`/`else` statement whose condition text holds no `)`
and no `\x7b`: an `if (cond) \x7b` line at index `pre.length` of the script,
followed by the block `A`, a line whose first brace closes it, a line
`else \x7b`, the block `B` and a line whose first brace closes it, where no
line of `A` or `B` has a brace that counts. Processing the `if` line runs the lines of `A`, in
order and nothing else, when the condition holds, and the lines of `B`
otherwise; when the block finishes without a stop the statement succeeds with
the line index on the closing line of the else block, so the round of the
loop of `run` ends at the index of the first line of `post`. -/
theorem if_else_runs_one_branch (fuel : Nat) (pre A B post : List Str)
    (line closeA elseLine closeB cond : Str) (st : St)
    (hline : trim line = ifHeader cond)
    (hc1 : ')' ∉ cond) (hc2 : '\x7b' ∉ cond)
    (hscript : st.scriptLines
      = pre ++ line :: (A ++ closeA :: elseLine :: (B ++ closeB :: post)))
    (hcur : st.currentLine = pre.length)
    (hA : ∀ l ∈ A, firstCodeBrace l = none) (hB : ∀ l ∈ B, firstCodeBrace l = none)
    (hcloseA : firstCodeBrace closeA = some '\x7d')
    (hcloseB : firstCodeBrace closeB = some '\x7d')
    (helse : trim elseLine = "else \x7b".toList) :
    (processLine (fuel + 1) line st =
      match execBlock (processLine fuel) (if evaluateCondition st cond then A else B)
        (recordLine st line) with
      | none => none
      | some (false, st1) => some (false, st1)
      | some (true, st1) =>
        some (true, { st1 with currentLine := pre.length + A.length + B.length + 3 })) ∧
    (∀ st1, st.isRunning = true →
      execBlock (processLine fuel) (if evaluateCondition st cond then A else B)
        (recordLine st line) = some (true, st1) →
      TopStep (fuel + 1) st
        (advanceLine { st1 with currentLine := pre.length + A.length + B.length + 3 })) ∧
    st.scriptLines.get? (pre.length + A.length + B.length + 3 + 1) = post.head? := by
  have hproc : processLine (fuel + 1) line st =
      match execBlock (processLine fuel) (if evaluateCondition st cond then A else B)
        (recordLine st line) with
      | none => none
      | some (false, st1) => some (false, st1)
      | some (true, st1) =>
        some (true, { st1 with currentLine := pre.length + A.length + B.length + 3 }) := by
    show dispatchLine (interp fuel) (trim line) (recordLine st line) = _
    rw [hline, dispatchLine_ifHeader]
    exact processIfStatement_else_shape (interp fuel) pre A B post line closeA elseLine closeB
      cond (recordLine st line) hc1 hc2 hscript hcur hA hB hcloseA hcloseB helse
  refine ⟨hproc, ?_, ?_⟩
  · intro st1 hrun hblock
    refine TopStep.step st _ line hrun ?_ ?_
    · rw [hscript, hcur]
      exact get?_append_cons _ _ _ _ rfl
    · rw [hproc, hblock]
  · have s4 : st.scriptLines
        = (pre ++ line :: (A ++ closeA :: elseLine :: (B ++ [closeB]))) ++ post := by
      rw [hscript]; simp
    rw [s4]
    cases post with
    | nil =>
      rw [List.get?_eq_getElem?, List.getElem?_eq_none]
      · rfl
      · simp; omega
    | cons p ps => exact get?_append_cons _ _ _ _ (by simp; omega)

/-- An instance: the script `elseOnOwnLine`. With the condition `1 == 1`
the `if` line prints `a` only and leaves the line index on line 5, the
closing line of the else block; with `1 == 2` it prints `b` only. The runs
print `a c` and `b c`, and process the `if` line, one block line and the last
line. -/
theorem if_else_runs_one_branch_witness :
    observe (processLine 3 "if (1 == 1) \x7b".toList (ifElseState "1 == 1"))
      = some (true, 5, ["a"], ["if (1 == 1) \x7b", "str.video++ \"a\""]) ∧
    observe (processLine 3 "if (1 == 2) \x7b".toList (ifElseState "1 == 2"))
      = some (true, 5, ["b"], ["if (1 == 2) \x7b", "str.video++ \"b\""]) ∧
    outAfter (runScript 10 (elseOnOwnLine "1 == 1")) = some ["a", "c"] ∧
    traceAfter (runScript 10 (elseOnOwnLine "1 == 1"))
      = some ["if (1 == 1) \x7b", "str.video++ \"a\"", "str.video++ \"c\""] ∧
    outAfter (runScript 10 (elseOnOwnLine "1 == 2")) = some ["b", "c"] ∧
    traceAfter (runScript 10 (elseOnOwnLine "1 == 2"))
      = some ["if (1 == 2) \x7b", "str.video++ \"b\"", "str.video++ \"c\""] :=
  ⟨(congrArg observe (if_else_runs_one_branch 2 [] ["str.video++ \"a\"".toList]
      ["str.video++ \"b\"".toList] ["str.video++ \"c\"".toList] "if (1 == 1) \x7b".toList
      "\x7d".toList "else \x7b".toList "\x7d".toList "1 == 1".toList (ifElseState "1 == 1")
      (by decide) (by decide) (by decide) rfl rfl (by decide) (by decide) (by decide)
      (by decide) (by decide)).1).trans (by decide!),
   (congrArg observe (if_else_runs_one_branch 2 [] ["str.video++ \"a\"".toList]
      ["str.video++ \"b\"".toList] ["str.video++ \"c\"".toList] "if (1 == 2) \x7b".toList
      "\x7d".toList "else \x7b".toList "\x7d".toList "1 == 2".toList (ifElseState "1 == 2")
      (by decide) (by decide) (by decide) rfl rfl (by decide) (by decide) (by decide)
      (by decide) (by decide)).1).trans (by decide!),
   by decide!, by decide!, by decide!, by decide!⟩

/-- C17 (the code departs from the claim): a condition with a closing
parenthesis inside a quoted text. In `quotedParenScript` the variable `s`
holds `a)b` and the statement is `if (s == "a)b") \x7b`, followed by an
`else \x7b` block. The condition as written is true, but the statement takes
the text up to the first `)`, `s == "a`, which is false: the else block runs
(the output is `b`, `c`) and no line of the if block. With `ab` in place of
`a)b` the if block runs (the output is `a`, `c`). -/
theorem if_condition_cut_at_quoted_paren :
    conditionAfter (runScript 10 quotedParenScript) "s == \"a)b\"" = some true ∧
    conditionAfter (runScript 10 quotedParenScript) "s == \"a" = some false ∧
    outAfter (runScript 10 quotedParenScript) = some ["b", "c"] ∧
    traceAfter (runScript 10 quotedParenScript)
      = some ["str.s = \"a)b\"", "if (s == \"a)b\") \x7b", "str.video++ \"b\"",
          "str.video++ \"c\""] ∧
    outAfter (runScript 10 quotedPlainScript) = some ["a", "c"] := by
  decide!

/-- C18 (the code departs from the claim): with the `else` on the
closing-brace line the else block is not detected. In `elseOnBraceLine` the
condition is true, the if-block line is executed, and then `run` goes on with
the line after `\x7d else \x7b`: the else-block line is executed too. -/
theorem else_on_brace_line_is_executed :
    resultOf (runScript 10 elseOnBraceLine) = some true ∧
    traceAfter (runScript 10 elseOnBraceLine)
      = some ["if (1 == 1) \x7b", "str.video++ \"a\"", "str.video++ \"b\"", "\x7d",
          "str.video++ \"c\""] ∧
    outAfter (runScript 10 elseOnBraceLine) = some ["a", "b", "c"] := by
  decide!

/-- C20 (the code departs from the claim): at top level `allstop` ends the run
with success and an empty error list, but inside an `if` block, a `for` body,
a `while` body or a function body the enclosing statement returns failure, and
`run` records `Error executing line N` and returns failure. -/
theorem allstop_in_block_fails_run :
    resultOf (runScript 10 ["int.x = 1", "allstop", "int.y = 2"]) = some true ∧
    errorsAfter (runScript 10 ["int.x = 1", "allstop", "int.y = 2"]) = some [] ∧
    resultOf (runScript 10 ["if (1 == 1) \x7b", "allstop", "\x7d", "int.y = 2"]) = some false ∧
    errorsAfter (runScript 10 ["if (1 == 1) \x7b", "allstop", "\x7d", "int.y = 2"])
      = some ["Error executing line 1"] ∧
    errorsAfter (runScript 10 ["for (i = 0; i < 2; i++) \x7b", "allstop", "\x7d"])
      = some ["Error executing line 1"] ∧
    errorsAfter (runScript 10 ["while (1 == 1) \x7b", "allstop", "\x7d"])
      = some ["Error executing line 1"] ∧
    resultOf stopRun = some false ∧
    errorsAfter stopRun = some ["Error executing line 7"] := by
  decide!
/-! ## Lemmas: variables, stores, digits, the quiet fields and counting loops -/

theorem typeFromString_ne_unknown (t : Str) : typeFromString t ≠ VType.UNKNOWN := by
  unfold typeFromString
  repeat' split
  all_goals decide

theorem consistent_setValue (ty : VType) (a n value : Str) :
    (Variable.mk a n ty (setValueFromString ty value)).consistent = true := by
  cases ty <;> simp only [setValueFromString]
  all_goals first | rfl | (split <;> rfl)

theorem mem_keys_mapSet {β : Type} (m : List (Str × β)) (k x : Str) (v : β)
    (h : x ∈ (mapSet m k v).map Prod.fst) : x ∈ m.map Prod.fst ∨ x = k := by
  induction m with
  | nil =>
    simp only [mapSet, List.map_cons, List.map_nil, List.mem_singleton] at h
    exact Or.inr h
  | cons p r ih =>
    obtain ⟨k0, v0⟩ := p
    unfold mapSet at h
    by_cases hk : k0 = k
    · simp only [hk, if_true, List.map_cons, List.mem_cons] at h
      rcases h with h | h
      · exact Or.inr h
      · exact Or.inl (List.mem_cons_of_mem _ h)
    · simp only [hk, if_false, List.map_cons, List.mem_cons] at h
      rcases h with h | h
      · exact Or.inl (by subst h; exact List.mem_cons_self _ _)
      · rcases ih h with h' | h'
        · exact Or.inl (List.mem_cons_of_mem _ h')
        · exact Or.inr h'

theorem nodup_keys_mapSet {β : Type} (m : List (Str × β)) (k : Str) (v : β)
    (h : (m.map Prod.fst).Nodup) : ((mapSet m k v).map Prod.fst).Nodup := by
  induction m with
  | nil => simp only [mapSet, List.map_cons, List.map_nil, List.nodup_cons, List.not_mem_nil,
      not_false_eq_true, List.nodup_nil, and_self]
  | cons p r ih =>
    obtain ⟨k0, v0⟩ := p
    simp only [List.map_cons, List.nodup_cons] at h
    unfold mapSet
    by_cases hk : k0 = k
    · simp only [hk, if_true, List.map_cons, List.nodup_cons]
      exact ⟨hk ▸ h.1, h.2⟩
    · simp only [hk, if_false, List.map_cons, List.nodup_cons]
      refine ⟨fun hin => ?_, ih h.2⟩
      rcases mem_keys_mapSet r k k0 v hin with h' | h'
      · exact h.1 h'
      · exact hk h'

theorem mapFind_eq_none_of_not_mem {β : Type} (m : List (Str × β)) (k : Str)
    (h : k ∉ m.map Prod.fst) : mapFind m k = none := by
  induction m with
  | nil => rfl
  | cons p r ih =>
    obtain ⟨k0, v0⟩ := p
    simp only [List.map_cons, List.mem_cons, not_or] at h
    unfold mapFind
    simp only [Ne.symm h.1, if_false]
    exact ih h.2

theorem mapFind_mapErase_eq {β : Type} (m : List (Str × β)) (k : Str)
    (h : (m.map Prod.fst).Nodup) : mapFind (mapErase m k) k = none := by
  induction m with
  | nil => rfl
  | cons p r ih =>
    obtain ⟨k0, v0⟩ := p
    simp only [List.map_cons, List.nodup_cons] at h
    unfold mapErase
    by_cases hk : k0 = k
    · simp only [hk, if_true]
      exact mapFind_eq_none_of_not_mem r k (hk ▸ h.1)
    · simp only [hk, if_false]
      unfold mapFind
      simp only [hk, if_false]
      exact ih h.2

theorem stringVariable_value (key value : Str) :
    (Variable.new ("str.".toList ++ key) value).type = VType.STRING ∧
    (Variable.new ("str.".toList ++ key) value).getStringValue = unquote value := by
  have hd : findChar '.' ("str.".toList ++ key) = some 3 := by
    have := findChar_append '.' ['s', 't', 'r'] key (by decide)
    simpa using this
  have hs : substr ("str.".toList ++ key) 0 3 = "str".toList := by
    simp [substr]
  unfold Variable.new
  simp only [hd, hs]
  have ht : typeFromString "str".toList = VType.STRING := by decide
  rw [ht]
  refine ⟨rfl, ?_⟩
  unfold unquote
  by_cases hq : isQuoted value = true
  · simp [Variable.getStringValue, Variable.value, setValueFromString, hq]
  · simp [Variable.getStringValue, Variable.value, setValueFromString, hq]

theorem fmem_dynamic_of_success (command : Str) (args : List Str) (st st1 : St)
    (h : processFlameMemory command args st = some (true, st1)) : st.isDynamicMode = true := by
  unfold processFlameMemory at h
  split at h
  · cases h
  · rename_i hd
    simpa using hd

theorem fmem_create_shape (st st1 : St) (name size : Str)
    (h : processFlameMemory "fmem.create".toList [name, size] st = some (true, st1)) :
    ∃ sz, st1 = { st with
      flameMemory := mapSet st.flameMemory (unquote name) ⟨unquote name, sz, []⟩ } := by
  have hd := fmem_dynamic_of_success _ _ _ _ h
  unfold processFlameMemory at h
  rw [if_neg (by simp [hd]), if_pos rfl, if_neg (by simp)] at h
  simp only [] at h
  split at h
  · cases h
  · rename_i sz _
    cases h
    exact ⟨sz, rfl⟩

theorem fmem_write_shape (st st2 : St) (name key value : Str)
    (h : processFlameMemory "fmem.write".toList [name, key, value] st = some (true, st2)) :
    ∃ mem, mapFind st.flameMemory (unquote name) = some mem ∧ st2 = { st with
      flameMemory := mapSet st.flameMemory (unquote name)
        ⟨mem.name, mem.size, mapSet mem.data (unquote key)
          (Variable.new ("str.".toList ++ unquote key) (unquote value))⟩ } := by
  have hd := fmem_dynamic_of_success _ _ _ _ h
  unfold processFlameMemory at h
  rw [if_neg (by simp [hd]), if_neg (by decide), if_pos rfl, if_neg (by simp)] at h
  simp only [] at h
  split at h
  · cases h
  · rename_i mem hm
    cases h
    exact ⟨mem, hm, rfl⟩

theorem fmem_read_found (st : St) (name key : Str) (mem : FlameMemory) (v : Variable)
    (hd : st.isDynamicMode = true)
    (hm : mapFind st.flameMemory (unquote name) = some mem)
    (hv : mapFind mem.data (unquote key) = some v) :
    processFlameMemory "fmem.read".toList [name, key] st = some (true, setReturnValue st v) := by
  unfold processFlameMemory
  rw [if_neg (by simp [hd]), if_neg (by decide), if_neg (by decide), if_pos rfl,
    if_neg (by simp)]
  show (match mapFind st.flameMemory (unquote name) with
    | none => _
    | some mem => _) = _
  rw [hm]
  show (match mapFind mem.data (unquote key) with
    | none => _
    | some v => _) = _
  rw [hv]

theorem fmem_read_missing (st : St) (name key : Str) (hd : st.isDynamicMode = true)
    (hm : mapFind st.flameMemory (unquote name) = none) :
    processFlameMemory "fmem.read".toList [name, key] st = some (false, reportError st
      ("FlameMemory '".toList ++ unquote name ++ "' not found".toList)) := by
  unfold processFlameMemory
  rw [if_neg (by simp [hd]), if_neg (by decide), if_neg (by decide), if_pos rfl,
    if_neg (by simp)]
  show (match mapFind st.flameMemory (unquote name) with
    | none => _
    | some mem => _) = _
  rw [hm]
  rfl

theorem fmem_destroy_found (st : St) (name : Str) (mem : FlameMemory)
    (hd : st.isDynamicMode = true)
    (hm : mapFind st.flameMemory (unquote name) = some mem) :
    processFlameMemory "fmem.destroy".toList [name] st
      = some (true, { st with flameMemory := mapErase st.flameMemory (unquote name) }) := by
  unfold processFlameMemory
  rw [if_neg (by simp [hd]), if_neg (by decide), if_neg (by decide), if_neg (by decide),
    if_pos rfl, if_neg (by simp)]
  show (match mapFind st.flameMemory (unquote name) with
    | none => _
    | some mem => _) = _
  rw [hm]
  rfl

theorem digitChar_spec : ∀ k, k < 10 →
    isdigit (Nat.digitChar k) = true ∧ (Nat.digitChar k).toNat - 48 = k := by
  decide

theorem digitsToNat_append (a b : Str) :
    digitsToNat (a ++ b) = b.foldl (fun acc c => acc * 10 + (c.toNat - 48)) (digitsToNat a) := by
  unfold digitsToNat
  rw [List.foldl_append]

theorem toDigitsCore_spec : ∀ (fuel n : Nat) (ds : Str), n < fuel →
    ∃ pre : Str, Nat.toDigitsCore 10 fuel n ds = pre ++ ds ∧ pre ≠ [] ∧
      (∀ c ∈ pre, isdigit c = true) ∧ digitsToNat pre = n := by
  intro fuel
  induction fuel with
  | zero => intro n ds h; exact absurd h (Nat.not_lt_zero _)
  | succ f ih =>
    intro n ds h
    have hd := digitChar_spec (n % 10) (Nat.mod_lt _ (by decide))
    unfold Nat.toDigitsCore
    by_cases h0 : n / 10 = 0
    · simp only [h0, if_true]
      refine ⟨[Nat.digitChar (n % 10)], rfl, by simp, ?_, ?_⟩
      · intro c hc
        simp only [List.mem_singleton] at hc
        rw [hc]; exact hd.1
      · show 0 * 10 + ((Nat.digitChar (n % 10)).toNat - 48) = n
        rw [hd.2]
        omega
    · simp only [h0, if_false]
      have hlt : n / 10 < f := by omega
      obtain ⟨pre, he, hne, hall, hv⟩ := ih (n / 10) (Nat.digitChar (n % 10) :: ds) hlt
      refine ⟨pre ++ [Nat.digitChar (n % 10)], ?_, by simp, ?_, ?_⟩
      · rw [he]; simp
      · intro c hc
        rcases List.mem_append.mp hc with hc | hc
        · exact hall c hc
        · simp only [List.mem_singleton] at hc
          rw [hc]; exact hd.1
      · rw [digitsToNat_append, hv]
        show n / 10 * 10 + ((Nat.digitChar (n % 10)).toNat - 48) = n
        rw [hd.2]
        omega

theorem natToString_spec (n : Nat) :
    natToString n ≠ [] ∧ (∀ c ∈ natToString n, isdigit c = true) ∧
      digitsToNat (natToString n) = n := by
  obtain ⟨pre, he, hne, hall, hv⟩ := toDigitsCore_spec (n + 1) n [] (Nat.lt_succ_self n)
  have : natToString n = pre := by
    unfold natToString Nat.toDigits
    rw [he]; simp
  rw [this]
  exact ⟨hne, hall, hv⟩

theorem isdigit_not_space (c : Char) (h : isdigit c = true) : isspace c = false := by
  unfold isdigit at h
  unfold isspace
  simp only [Bool.and_eq_true, decide_eq_true_eq] at h
  have h1 : c.toNat ≠ ' '.toNat := by
    have : ' '.toNat = 32 := by decide
    have : '0'.toNat = 48 := by decide
    omega
  have hne : ∀ d : Char, d.toNat < 48 → c ≠ d := by
    intro d hd e
    rw [e] at h
    have : '0'.toNat = 48 := by decide
    omega
  simp [hne ' ' (by decide), hne '\t' (by decide), hne '\n' (by decide), hne '\r' (by decide),
    hne '\x0b' (by decide), hne '\x0c' (by decide)]

theorem isdigit_ne {c d : Char} (h : isdigit c = true) (hd : isdigit d = false) : c ≠ d := by
  intro e
  rw [e, hd] at h
  cases h

theorem takeWhile_eq_self {p : Char → Bool} : ∀ (s : Str), (∀ c ∈ s, p c = true) →
    s.takeWhile p = s := by
  intro s
  induction s with
  | nil => intro _; rfl
  | cons x xs ih =>
    intro h
    rw [List.takeWhile_cons, h x (List.mem_cons_self _ _)]
    simp only [if_true]
    rw [ih (fun c hc => h c (List.mem_cons_of_mem _ hc))]

theorem stoi_digits (ds : Str) (hne : ds ≠ []) (hall : ∀ c ∈ ds, isdigit c = true)
    (hrange : digitsToNat ds ≤ 2147483647) : stoi ds = some (digitsToNat ds : Int) := by
  cases ds with
  | nil => exact absurd rfl hne
  | cons x xs =>
    have hx := hall x (List.mem_cons_self _ _)
    have hsp : isspace x = false := isdigit_not_space x hx
    have h1 : x ≠ '-' := isdigit_ne hx (by decide)
    have h2 : x ≠ '+' := isdigit_ne hx (by decide)
    have hdrop : (x :: xs).dropWhile isspace = x :: xs := by
      rw [List.dropWhile_cons, hsp]; rfl
    have hsplit : splitSign (x :: xs) = (false, x :: xs) := by
      unfold splitSign
      split
      · rename_i heq; cases heq; exact absurd rfl h1
      · rename_i heq; cases heq; exact absurd rfl h2
      · rfl
    unfold stoi
    simp only [hdrop, hsplit, takeWhile_eq_self _ hall]
    have hr : ¬ ((digitsToNat (x :: xs) : Int) < -2147483648
        ∨ 2147483647 < (digitsToNat (x :: xs) : Int)) := by omega
    simp only [List.isEmpty_cons, Bool.false_eq_true, if_false, hr]

theorem stoi_neg_digits (ds : Str) (hne : ds ≠ []) (hall : ∀ c ∈ ds, isdigit c = true)
    (hrange : digitsToNat ds ≤ 2147483648) :
    stoi ('-' :: ds) = some (-(digitsToNat ds : Int)) := by
  have hdrop : ('-' :: ds).dropWhile isspace = '-' :: ds := by
    rw [List.dropWhile_cons]; rfl
  have hsplit : splitSign ('-' :: ds) = (true, ds) := rfl
  unfold stoi
  simp only [hdrop, hsplit, takeWhile_eq_self _ hall]
  have hr : ¬ (-(digitsToNat ds : Int) < -2147483648
      ∨ 2147483647 < -(digitsToNat ds : Int)) := by omega
  have he : ds.isEmpty = false := by
    cases ds with
    | nil => exact absurd rfl hne
    | cons _ _ => rfl
  simp only [he, Bool.false_eq_true, if_false, if_true, hr]

theorem stoi_intToString (i : Int) (h1 : -2147483648 ≤ i) (h2 : i ≤ 2147483647) :
    stoi (intToString i) = some i := by
  obtain ⟨hne, hall, hv⟩ := natToString_spec i.natAbs
  unfold intToString
  by_cases hneg : i < 0
  · simp only [hneg, if_true]
    rw [stoi_neg_digits _ hne hall (by rw [hv]; omega), hv]
    congr 1
    omega
  · simp only [hneg, if_false]
    rw [stoi_digits _ hne hall (by rw [hv]; omega), hv]
    congr 1
    omega

theorem wrap32_of_range (i : Int) (h1 : -2147483648 ≤ i) (h2 : i ≤ 2147483647) :
    wrap32 i = i := by
  unfold wrap32
  omega

theorem intVariable_value (name text : Str) :
    (Variable.new ("int.".toList ++ name) text).type = VType.INTEGER ∧
    (Variable.new ("int.".toList ++ name) text).getIntValue = (stoi text).getD 0 := by
  have hd : findChar '.' ("int.".toList ++ name) = some 3 := by
    have := findChar_append '.' ['i', 'n', 't'] name (by decide)
    simpa using this
  have hs : substr ("int.".toList ++ name) 0 3 = "int".toList := by
    simp [substr]
  unfold Variable.new
  simp only [hd, hs]
  have ht : typeFromString "int".toList = VType.INTEGER := by decide
  rw [ht]
  exact ⟨rfl, rfl⟩

theorem intVariable_of_int (name : Str) (i : Int) (h1 : -2147483648 ≤ i) (h2 : i ≤ 2147483647) :
    (Variable.new ("int.".toList ++ name) (intToString i)).isInteger = true ∧
    (Variable.new ("int.".toList ++ name) (intToString i)).getIntValue = i := by
  obtain ⟨ht, hv⟩ := intVariable_value name (intToString i)
  refine ⟨by unfold Variable.isInteger; rw [ht]; rfl, ?_⟩
  rw [hv, stoi_intToString i h1 h2]
  rfl

theorem quiet_refl (s : St) : Quiet s s := ⟨rfl, rfl, fun _ => rfl⟩

theorem quiet_trans {a b c : St} (h1 : Quiet a b) (h2 : Quiet b c) : Quiet a c :=
  ⟨h2.dynamic.trans h1.dynamic, h2.script.trans h1.script,
    fun hf => (h2.store (h1.dynamic.trans hf)).trans (h1.store hf)⟩

/-- `Quiet` survives any change of the fields it does not mention. -/
theorem quiet_of_eq {a b c : St} (h : Quiet a b) (hd : c.isDynamicMode = b.isDynamicMode)
    (hs : c.scriptLines = b.scriptLines) (hm : c.flameMemory = b.flameMemory) : Quiet a c :=
  ⟨hd.trans h.dynamic, hs.trans h.script, fun hf => hm.trans (h.store hf)⟩

theorem quiet_withCout {a b : St} (h : Quiet a b) (t : Str) : Quiet a (cout b t) :=
  quiet_of_eq h rfl rfl rfl

theorem quiet_advanceLine (st : St) : Quiet st (advanceLine st) :=
  quiet_of_eq (quiet_refl _) rfl rfl rfl

theorem quiet_setVariable (s : St) (name : Str) (v : Variable) :
    Quiet s (setVariable s name v) := by
  unfold Flare.setVariable
  split <;> exact quiet_of_eq (quiet_refl _) rfl rfl rfl

theorem quiet_execBlock (pl : Str → St → Res Bool)
    (hpl : ∀ line st, Respects Quiet st (pl line st)) :
    ∀ ls st, Respects Quiet st (execBlock pl ls st) := by
  intro ls
  induction ls with
  | nil => intro st a st' h; simp [execBlock] at h; rw [← h.2]; exact quiet_refl _
  | cons l ls ih =>
    intro st a st' h
    unfold execBlock at h
    split at h
    · cases h
    · rename_i b st1 heq
      have h1 := hpl l st b st1 heq
      split at h
      · exact quiet_trans h1 (ih st1 a st' h)
      · cases h; exact h1

theorem quiet_processIfStatement (r : Rec) (hr : RecQuiet r) (line : Str) (st : St) :
    Respects Quiet st (processIfStatement r line st) := by
  intro a st' h
  unfold processIfStatement at h
  simp only [] at h
  repeat' split at h
  all_goals first
    | (cases h; done)
    | (cases h; exact quiet_refl _)
    | (cases h; exact quiet_of_eq (quiet_refl _) rfl rfl rfl)
    | (have h1 := quiet_execBlock _ hr.pl _ _ _ _ (by assumption); cases h;
       first | exact h1 | exact quiet_of_eq h1 rfl rfl rfl)

theorem quiet_processFunction (line : Str) (st : St) :
    Respects Quiet st (processFunction line st) := by
  intro a st' h
  unfold processFunction at h
  simp only [] at h
  repeat' split at h
  all_goals first
    | (cases h; done)
    | (cases h; exact quiet_refl _)
    | (cases h; exact quiet_of_eq (quiet_refl _) rfl rfl rfl)

theorem quiet_processFlameMemory (command : Str) (args : List Str) (st : St) :
    Respects Quiet st (processFlameMemory command args st) := by
  intro a st' h
  by_cases hd : st.isDynamicMode = true
  · have hne : st.isDynamicMode = false → False := fun hf => by rw [hd] at hf; cases hf
    unfold processFlameMemory at h
    simp only [] at h
    repeat' split at h
    all_goals first
      | (cases h; done)
      | (cases h; exact ⟨rfl, rfl, fun hf => (hne hf).elim⟩)
  · unfold processFlameMemory at h
    rw [if_pos (by simpa using hd)] at h
    cases h
    exact quiet_of_eq (quiet_refl _) rfl rfl rfl

theorem quiet_executeVideo (args : List Str) (st : St) :
    Respects Quiet st (executeVideo args st) := by
  intro a st' h
  unfold executeVideo at h
  repeat' split at h
  all_goals first
    | (cases h; done)
    | (cases h; exact quiet_refl _)
    | (cases h; exact quiet_of_eq (quiet_refl _) rfl rfl rfl)

theorem quiet_allocateMemoryInternal (st : St) (d : Str) (size : Nat) (id : Int) (v : Bool) :
    Quiet st (allocateMemoryInternal st d size id v).2 := by
  unfold allocateMemoryInternal
  split
  · exact quiet_refl _
  · exact quiet_of_eq (quiet_refl _) rfl rfl rfl

theorem quiet_freeMemory (st : St) (id mode : Int) : Quiet st (freeMemory st id mode).2 := by
  unfold freeMemory
  split
  · exact quiet_refl _
  · exact quiet_of_eq (quiet_refl _) rfl rfl rfl

theorem quiet_executeAllocate (v : Bool) (args : List Str) (st : St) :
    Respects Quiet st (executeAllocate v args st) := by
  intro a st' h
  unfold executeAllocate at h
  simp only [] at h
  repeat' split at h
  all_goals first
    | (cases h; done)
    | (cases h; exact quiet_of_eq (quiet_refl _) rfl rfl rfl)
    | exact respects_pair _ (quiet_allocateMemoryInternal _ _ _ _ _) _ _ h

theorem quiet_loadLibrary {st st1 : St} {name path : Str} {b : Bool}
    (h : loadLibrary st name path = (b, st1)) : Quiet st st1 := by
  unfold loadLibrary at h
  simp only [] at h
  repeat' split at h
  all_goals (cases h; exact quiet_of_eq (quiet_refl _) rfl rfl rfl)

theorem quiet_getLibraryFunction {st st1 : St} {l f : Str} {o : Option Nat}
    (h : getLibraryFunction st l f = (o, st1)) : Quiet st st1 := by
  unfold getLibraryFunction at h
  simp only [] at h
  repeat' split at h
  all_goals first
    | (cases h; exact quiet_refl _)
    | (cases h; exact quiet_of_eq (quiet_refl _) rfl rfl rfl)

theorem quiet_callLibraryFunction {st st1 : St} {l f : Str} {args : List Variable} {b : Bool}
    {o : Option Variable} (h : callLibraryFunction st l f args = (b, o, st1)) : Quiet st st1 := by
  unfold callLibraryFunction at h
  split at h
  · rename_i heq
    cases h
    exact quiet_getLibraryFunction heq
  · rename_i heq
    have hg := quiet_getLibraryFunction heq
    split at h
    · cases h; exact hg
    · cases h; exact quiet_of_eq hg rfl rfl rfl

theorem quiet_executeAdd (args : List Str) (st : St) :
    Respects Quiet st (executeAdd args st) := by
  intro a st' h
  unfold executeAdd at h
  simp only [] at h
  repeat' split at h
  all_goals first
    | (cases h; done)
    | (cases h; exact quiet_refl _)
    | (have hl := quiet_loadLibrary (by assumption); cases h;
       first | exact hl | exact quiet_of_eq hl rfl rfl rfl)

theorem quiet_executeLibcall (args : List Str) (st : St) :
    Respects Quiet st (executeLibcall args st) := by
  intro a st' h
  unfold executeLibcall at h
  simp only [] at h
  split at h
  · split at h
    · rename_i result st1 heq
      have hc := quiet_callLibraryFunction heq
      cases h
      refine quiet_trans hc (quiet_withCout ?_ _)
      split
      · split
        · exact quiet_of_eq (quiet_refl _) rfl rfl rfl
        · exact quiet_refl _
      · exact quiet_refl _
    · rename_i b o st1 _ heq
      have hc := quiet_callLibraryFunction heq
      cases h
      exact hc
  · cases h; exact quiet_refl _

theorem quiet_evalMethod (expr : Str) (st : St) : Respects Quiet st (evalMethod expr st) := by
  intro a st' h
  unfold evalMethod evalFallback at h
  simp only [] at h
  repeat' split at h
  all_goals first
    | (cases h; done)
    | (cases h; exact quiet_refl _)

theorem quiet_callDebug (f : Str) (args : List Str) (b : Bool) (st : St) :
    Quiet st (callDebug f args b st) := by
  unfold callDebug
  simp only []
  split
  · exact quiet_of_eq (quiet_refl _) rfl rfl rfl
  · exact quiet_of_eq (quiet_refl _) rfl rfl rfl

theorem quiet_callResult (f : Str) (args : List Str) (st : St) :
    Quiet st (callResult f args st).2 := by
  unfold callResult
  repeat' split
  all_goals first
    | exact quiet_refl _
    | exact quiet_of_eq (quiet_refl _) rfl rfl rfl

theorem quiet_evalCall (r : Rec) (hr : RecQuiet r) (expr : Str) (st : St) :
    Respects Quiet st (evalCall r expr st) := by
  intro a st' h
  unfold evalCall at h
  split at h
  · split at h
    · simp only [] at h
      split at h
      · cases h
      · rename_i b st1 heq
        have h1 := hr.pfc _ _ _ _ _ heq
        exact respects_pair _ (quiet_trans (quiet_trans h1 (quiet_callDebug _ _ _ _))
          (quiet_callResult _ _ _)) _ _ h
    · exact quiet_evalMethod _ _ _ _ h
  · exact quiet_evalMethod _ _ _ _ h

theorem quiet_evalDiv (r : Rec) (hr : RecQuiet r) (expr : Str) (st : St) :
    Respects Quiet st (evalDiv r expr st) := by
  intro a st' h
  unfold evalDiv at h
  split at h
  · exact quiet_evalCall r hr _ _ _ _ h
  · split at h
    · cases h
    · rename_i leftVal st1 heq1
      have h1 := hr.ev _ _ _ _ heq1
      split at h
      · cases h
      · rename_i rightVal st2 heq2
        have h2 := quiet_trans h1 (hr.ev _ _ _ _ heq2)
        repeat' split at h
        all_goals first
          | (cases h; exact h2)
          | (cases h; exact quiet_of_eq h2 rfl rfl rfl)
          | exact quiet_trans h2 (quiet_evalCall r hr _ _ _ _ h)

theorem quiet_evalMul (r : Rec) (hr : RecQuiet r) (expr : Str) (st : St) :
    Respects Quiet st (evalMul r expr st) := by
  intro a st' h
  unfold evalMul at h
  split at h
  · exact quiet_evalDiv r hr _ _ _ _ h
  · split at h
    · cases h
    · rename_i leftVal st1 heq1
      have h1 := hr.ev _ _ _ _ heq1
      split at h
      · cases h
      · rename_i rightVal st2 heq2
        have h2 := quiet_trans h1 (hr.ev _ _ _ _ heq2)
        repeat' split at h
        all_goals first
          | (cases h; exact h2)
          | exact quiet_trans h2 (quiet_evalDiv r hr _ _ _ _ h)

theorem quiet_evalMinus (r : Rec) (hr : RecQuiet r) (expr : Str) (st : St) :
    Respects Quiet st (evalMinus r expr st) := by
  intro a st' h
  unfold evalMinus at h
  split at h
  · exact quiet_evalMul r hr _ _ _ _ h
  · split at h
    · split at h
      · cases h
      · rename_i leftVal st1 heq1
        have h1 := hr.ev _ _ _ _ heq1
        split at h
        · cases h
        · rename_i rightVal st2 heq2
          have h2 := quiet_trans h1 (hr.ev _ _ _ _ heq2)
          repeat' split at h
          all_goals first
            | (cases h; exact h2)
            | exact quiet_trans h2 (quiet_evalMul r hr _ _ _ _ h)
    · exact quiet_evalMul r hr _ _ _ _ h

theorem quiet_evalPlus (r : Rec) (hr : RecQuiet r) (expr : Str) (st : St) :
    Respects Quiet st (evalPlus r expr st) := by
  intro a st' h
  unfold evalPlus at h
  split at h
  · exact quiet_evalMinus r hr _ _ _ _ h
  · split at h
    · cases h
    · rename_i leftVal st1 heq1
      have h1 := hr.ev _ _ _ _ heq1
      split at h
      · cases h
      · rename_i rightVal st2 heq2
        have h2 := quiet_trans h1 (hr.ev _ _ _ _ heq2)
        repeat' split at h
        all_goals first
          | (cases h; exact h2)
          | exact quiet_trans h2 (quiet_evalMinus r hr _ _ _ _ h)

theorem quiet_evaluateExpressionB (r : Rec) (hr : RecQuiet r) (expr : Str) (st : St) :
    Respects Quiet st (evaluateExpressionB r expr st) := by
  intro a st' h
  unfold evaluateExpressionB at h
  simp only [] at h
  split at h
  · cases h; exact quiet_refl _
  · exact quiet_evalPlus r hr _ _ _ _ h

theorem quiet_pop (s : St) (v : Variable) : Quiet s (setReturnValue (popFrame s) v) :=
  quiet_of_eq (quiet_refl _) rfl rfl rfl

theorem quiet_processReturn (r : Rec) (hr : RecQuiet r) (e : Str) (st : St) :
    Respects Quiet st (processReturn r e st) := by
  intro a st' h
  unfold processReturn at h
  simp only [] at h
  repeat' split at h
  all_goals first
    | (cases h; done)
    | (cases h; exact quiet_of_eq (quiet_refl _) rfl rfl rfl)
    | (have h1 := quiet_evaluateExpressionB r hr _ _ _ _ (by assumption); cases h;
       exact quiet_of_eq h1 rfl rfl rfl)

theorem quiet_callBody (r : Rec) (hr : RecQuiet r) (name : Str) :
    ∀ (count index : Nat) (st : St), Respects Quiet st (callBody r name count index st) := by
  intro count
  induction count with
  | zero =>
    intro index st a st' h
    unfold callBody at h
    cases h
    exact quiet_pop _ _
  | succ n ih =>
    intro index st a st' h
    unfold callBody at h
    split at h
    · cases h
      exact quiet_pop _ _
    · simp only [] at h
      split at h
      · exact quiet_processReturn r hr _ _ _ _ h
      · split at h
        · exact ih _ st _ _ h
        · split at h
          · cases h
          · rename_i b st1 heq
            have h1 := hr.pl _ _ _ _ heq
            split at h
            · cases h; exact quiet_of_eq h1 rfl rfl rfl
            · exact quiet_trans h1 (ih _ st1 _ _ h)

theorem quiet_processFunctionCallB (r : Rec) (hr : RecQuiet r) (name : Str) (args : List Str)
    (st : St) : Respects Quiet st (processFunctionCallB r name args st) := by
  intro a st' h
  unfold processFunctionCallB at h
  split at h
  · cases h; exact quiet_of_eq (quiet_refl _) rfl rfl rfl
  · split at h
    · cases h; exact quiet_of_eq (quiet_refl _) rfl rfl rfl
    · have hp := quiet_callBody r hr _ _ _ _ _ _ h
      exact ⟨hp.dynamic, hp.script, hp.store⟩

theorem quiet_of_map_snd {r : Res Bool} {st st2 : St} (hr : Respects Quiet st r)
    (h : r.map Prod.snd = some st2) : Quiet st st2 := by
  cases hres : r with
  | none => rw [hres] at h; cases h
  | some p =>
    rw [hres] at h
    cases h
    exact hr p.1 p.2 hres

theorem quiet_applyIncrement (r : Rec) (hr : RecQuiet r) (increment : Str) (st st2 : St)
    (h : applyIncrement r increment st = some st2) : Quiet st st2 := by
  unfold applyIncrement at h
  simp only [] at h
  repeat' split at h
  all_goals first
    | (cases h; done)
    | (cases h; exact quiet_refl _)
    | (cases h; exact quiet_setVariable _ _ _)
    | exact quiet_of_map_snd (hr.pl _ _) h

theorem quiet_forIterate (r : Rec) (hr : RecQuiet r) (condition increment : Str)
    (body : List Str) : ∀ (k : Nat) (st : St),
      Respects Quiet st (forIterate r condition increment body k st) := by
  intro k
  induction k with
  | zero => intro st a st' h; unfold forIterate at h; cases h
  | succ k ih =>
    intro st a st' h
    unfold forIterate at h
    split at h
    · split at h
      · cases h
      · rename_i st1 heq
        cases h
        exact quiet_execBlock _ hr.pl _ _ _ _ heq
      · rename_i st1 heq
        have h1 := quiet_execBlock _ hr.pl _ _ _ _ heq
        split at h
        · cases h
        · rename_i st2 heq2
          exact quiet_trans (quiet_trans h1 (quiet_applyIncrement r hr _ _ _ heq2))
            (ih st2 _ _ h)
    · cases h; exact quiet_refl _

theorem quiet_whileIterate (r : Rec) (hr : RecQuiet r) (condition : Str)
    (body : List Str) : ∀ (k : Nat) (st : St),
      Respects Quiet st (whileIterate r condition body k st) := by
  intro k
  induction k with
  | zero => intro st a st' h; unfold whileIterate at h; cases h
  | succ k ih =>
    intro st a st' h
    unfold whileIterate at h
    split at h
    · split at h
      · cases h
      · rename_i st1 heq
        cases h
        exact quiet_execBlock _ hr.pl _ _ _ _ heq
      · rename_i st1 heq
        exact quiet_trans (quiet_execBlock _ hr.pl _ _ _ _ heq) (ih st1 _ _ h)
    · cases h; exact quiet_refl _

theorem quiet_processWhileLoop (r : Rec) (hr : RecQuiet r) (line : Str) (st : St) :
    Respects Quiet st (processWhileLoop r line st) := by
  intro a st' h
  unfold processWhileLoop at h
  simp only [] at h
  repeat' split at h
  all_goals first
    | (cases h; done)
    | (cases h; exact quiet_refl _)
    | (cases h; exact quiet_of_eq (quiet_refl _) rfl rfl rfl)
    | (have h1 := quiet_whileIterate r hr _ _ _ _ _ _ (by assumption); cases h;
       first | exact h1 | exact quiet_of_eq h1 rfl rfl rfl)

theorem quiet_processForLoop (r : Rec) (hr : RecQuiet r) (line : Str) (st : St) :
    Respects Quiet st (processForLoop r line st) := by
  intro a st' h
  unfold processForLoop at h
  simp only [] at h
  split at h
  · cases h; exact quiet_refl _
  · split at h
    · split at h
      · cases h; exact quiet_of_eq (quiet_refl _) rfl rfl rfl
      · split at h
        · split at h
          · cases h
          · rename_i st1 heq
            have h1 : Quiet st st1 := by
              split at heq
              · cases heq; exact quiet_refl _
              · split at heq
                · exact quiet_of_map_snd (hr.pl _ _) heq
                · exact quiet_of_map_snd (hr.pl _ _) heq
            split at h
            · cases h
            · rename_i st2 heq2
              cases h
              exact quiet_trans h1 (quiet_forIterate r hr _ _ _ _ _ _ _ heq2)
            · rename_i st2 heq2
              cases h
              exact quiet_of_eq (quiet_trans h1 (quiet_forIterate r hr _ _ _ _ _ _ _ heq2))
                rfl rfl rfl
        · cases h; exact quiet_of_eq (quiet_refl _) rfl rfl rfl
    · cases h; exact quiet_of_eq (quiet_refl _) rfl rfl rfl

theorem quiet_executeDeclaration (r : Rec) (hr : RecQuiet r) (command name : Str)
    (args : List Str) (st : St) : Respects Quiet st (executeDeclaration r command name args st) := by
  intro a st' h
  unfold executeDeclaration at h
  simp only [] at h
  repeat' split at h
  all_goals first
    | (cases h; done)
    | (cases h; exact quiet_refl _)
    | (cases h; exact quiet_setVariable _ _ _)
    | (cases h; exact quiet_of_eq (quiet_setVariable _ _ _) rfl rfl rfl)
    | (have h1 := quiet_evaluateExpressionB r hr _ _ _ _ (by assumption); cases h;
       exact quiet_trans (quiet_withCout h1 _) (quiet_setVariable _ _ _))

theorem quiet_processInput (st : St) : Quiet st (processInput st).2 := by
  unfold processInput
  split
  · exact quiet_refl _
  · exact quiet_of_eq (quiet_refl _) rfl rfl rfl

theorem quiet_executeKeyword (command : Str) (args : List Str) (st : St) :
    Respects Quiet st (executeKeyword command args st) := by
  intro a st' h
  unfold executeKeyword executeFrmem executeErr executeWarn executeBuiltIn at h
  simp only [] at h
  repeat' split at h
  all_goals first
    | (cases h; done)
    | (cases h; exact quiet_refl _)
    | (cases h; exact quiet_of_eq (quiet_refl _) rfl rfl rfl)
    | exact quiet_executeAllocate _ _ _ _ _ h
    | exact quiet_executeAdd _ _ _ _ h
    | exact quiet_executeLibcall _ _ _ _ h
    | exact respects_pair _ (quiet_freeMemory _ _ _) _ _ h

theorem quiet_executeCommand (r : Rec) (hr : RecQuiet r) (command : Str) (args : List Str)
    (st : St) : Respects Quiet st (executeCommand r command args st) := by
  intro a st' h
  unfold executeCommand at h
  repeat' split at h
  all_goals first
    | (cases h; exact quiet_trans (quiet_processInput _) (quiet_of_eq (quiet_refl _) rfl rfl rfl))
    | exact quiet_processFlameMemory _ _ _ _ _ h
    | exact quiet_executeVideo _ _ _ _ h
    | exact quiet_executeDeclaration r hr _ _ _ _ _ _ h
    | exact quiet_executeKeyword _ _ _ _ _ h

theorem quiet_dispatchLine (r : Rec) (hr : RecQuiet r) (line : Str) (st : St) :
    Respects Quiet st (dispatchLine r line st) := by
  intro a st' h
  unfold dispatchLine at h
  repeat' split at h
  all_goals first
    | (cases h; exact quiet_refl _)
    | (cases h; exact quiet_of_eq (quiet_refl _) rfl rfl rfl)
    | exact quiet_processIfStatement r hr _ _ _ _ h
    | exact quiet_processForLoop r hr _ _ _ _ h
    | exact quiet_processWhileLoop r hr _ _ _ _ h
    | exact quiet_processFunction _ _ _ _ h
    | exact quiet_processFunctionCallB r hr _ _ _ _ _ h
    | exact quiet_executeCommand r hr _ _ _ _ _ h

theorem quiet_processLineB (r : Rec) (hr : RecQuiet r) (line : Str) (st : St) :
    Respects Quiet st (processLineB r line st) := by
  intro a st' h
  have h0 : Quiet st (recordLine st line) := quiet_of_eq (quiet_refl _) rfl rfl rfl
  exact quiet_trans h0 (quiet_dispatchLine r hr _ _ _ _ h)

theorem recQuiet_interp : ∀ fuel : Nat, RecQuiet (interp fuel) := by
  intro fuel
  induction fuel with
  | zero =>
    refine ⟨?_, ?_, ?_⟩
    · intro _ _ _ _ h; cases h
    · intro _ _ _ _ _ h; cases h
    · intro _ _ _ _ h; cases h
  | succ n ih =>
    exact ⟨fun line st => quiet_processLineB _ ih line st,
      fun name args st => quiet_processFunctionCallB _ ih name args st,
      fun expr st => quiet_evaluateExpressionB _ ih expr st⟩

theorem quiet_runLoop (fuel : Nat) : ∀ (k : Nat) (st : St),
    Respects Quiet st (runLoop fuel k st) := by
  intro k
  induction k with
  | zero => intro st a st' h; unfold runLoop at h; cases h
  | succ k ih =>
    intro st a st' h
    unfold runLoop at h
    repeat' split at h
    all_goals first
      | (cases h; done)
      | (cases h; exact quiet_refl _)
      | (have h1 := (recQuiet_interp fuel).pl _ _ _ _ (by assumption); cases h;
         exact quiet_of_eq h1 rfl rfl rfl)
      | (have h1 := (recQuiet_interp fuel).pl _ _ _ _ (by assumption);
         exact quiet_trans (quiet_trans h1 (quiet_advanceLine _)) (ih _ _ _ h))

theorem isPrefixOf_of_startsWith (pat s : Str) (hp : pat ≠ []) (h : startsWith pat s = true) :
    pat.isPrefixOf s = true := by
  cases s with
  | nil =>
    unfold startsWith findStr at h
    cases pat with
    | nil => exact absurd rfl hp
    | cons _ _ => simp at h
  | cons x xs => rw [startsWith_cons] at h; exact h

theorem dynamicFlag_true : ∀ (lines : List Str), dynamicFlag lines = some true →
    ∃ l ∈ lines, trim l = "dynamic = true".toList := by
  intro lines
  induction lines with
  | nil => intro h; cases h
  | cons l ls ih =>
    intro h
    unfold dynamicFlag at h
    simp only [] at h
    split at h
    · rename_i hs
      refine ⟨l, List.mem_cons_self _ _, ?_⟩
      have hpre := isPrefixOf_of_startsWith _ _ (by decide) hs
      rw [ List.isPrefixOf_iff_prefix] at hpre
      obtain ⟨t, ht⟩ := hpre
      have hlen : "dynamic = ".toList.length = 10 := by decide
      have hdrop : substrFrom (trim l) 10 = t := by
        rw [← ht, substrFrom, ← hlen, List.drop_left]
      rw [hdrop] at h
      have htrue : t = "true".toList := by simpa using h
      rw [← ht, htrue]
      decide
    · obtain ⟨l', hl', he⟩ := ih h
      exact ⟨l', List.mem_cons_of_mem _ hl', he⟩

theorem runStart_flag_off (st : St) (hflag : st.isDynamicMode = false)
    (hscript : ∀ l ∈ st.scriptLines, trim l ≠ "dynamic = true".toList) :
    (runStart st).isDynamicMode = false ∧ (runStart st).flameMemory = st.flameMemory := by
  unfold runStart registerCoreVariables processDynamicMode
  simp only []
  cases hf : dynamicFlag st.scriptLines with
  | none => exact ⟨hflag, rfl⟩
  | some b =>
    cases b with
    | false => exact ⟨rfl, rfl⟩
    | true =>
      obtain ⟨l, hl, he⟩ := dynamicFlag_true _ hf
      exact absurd he (hscript l hl)

theorem digits_not_mem (D : Str) (hall : ∀ c ∈ D, isdigit c = true) (d : Char)
    (hd : isdigit d = false) : d ∉ D :=
  fun h => by rw [hall d h] at hd; cases hd

theorem trim_forHeader (D : Str) : trim (forHeader D) = forHeader D := by
  have := trim_of_ends 'f' '\x7b'
    ("or (i = 0; i < ".toList ++ (D ++ "; i++) ".toList)) (by decide) (by decide)
  simpa [forHeader] using this

theorem dispatchLine_forHeader (r : Rec) (D : Str) (st : St) :
    dispatchLine r (forHeader D) st = processForLoop r (forHeader D) st := by
  have h1 : "if ".toList = ['i', 'f', ' '] := by decide
  have h2 : "else".toList = ['e', 'l', 's', 'e'] := by decide
  have h3 : "for ".toList = ['f', 'o', 'r', ' '] := by decide
  unfold dispatchLine forHeader
  simp [startsWith_cons, h1, h2, h3, List.isPrefixOf]

theorem trim_cons_space (x : Str) : trim (' ' :: x) = trim x :=
  trim_append_left_space [' '] x (by decide)

theorem trim_digits_tail (a : Char) (m D : Str) (ha : isspace a = false) (hne : D ≠ [])
    (hall : ∀ c ∈ D, isdigit c = true) : trim (a :: (m ++ D)) = a :: (m ++ D) := by
  have hD : D = D.dropLast ++ [D.getLast hne] := (List.dropLast_append_getLast hne).symm
  have hz : isspace (D.getLast hne) = false :=
    isdigit_not_space _ (hall _ (List.getLast_mem hne))
  have := trim_of_ends a (D.getLast hne) (m ++ D.dropLast) ha hz
  rw [List.append_assoc, ← hD] at this
  exact this

theorem forHeader_parse (D : Str) (hne : D ≠ []) (hall : ∀ c ∈ D, isdigit c = true) :
    findChar '(' (forHeader D) = some 4 ∧
    findChar ')' (forHeader D) = some (D.length + 21) ∧
    findChar '\x7b' (forHeader D) = some (D.length + 23) ∧
    splitTrim ';' (substr (forHeader D) 5 (D.length + 16)) []
      = ["i = 0".toList, 'i' :: ' ' :: '<' :: ' ' :: D, "i++".toList] := by
  have n1 := digits_not_mem D hall ')' (by decide)
  have n2 := digits_not_mem D hall '\x7b' (by decide)
  have n3 := digits_not_mem D hall ';' (by decide)
  refine ⟨?_, ?_, ?_, ?_⟩
  · have := findChar_append '(' ['f', 'o', 'r', ' '] ("i = 0; i < ".toList ++ (D ++ "; i++) \x7b".toList))
      (by decide)
    simpa [forHeader] using this
  · have e : forHeader D = ("for (i = 0; i < ".toList ++ D ++ "; i++".toList) ++ ')' :: [' ', '\x7b'] := by
      simp [forHeader]
    have := findChar_append ')' ("for (i = 0; i < ".toList ++ D ++ "; i++".toList) [' ', '\x7b']
      (by simp [n1])
    rw [e, this]
    simp
  · have e : forHeader D = ("for (i = 0; i < ".toList ++ D ++ "; i++) ".toList) ++ '\x7b' :: [] := by
      simp [forHeader]
    have := findChar_append '\x7b' ("for (i = 0; i < ".toList ++ D ++ "; i++) ".toList) []
      (by simp [n2])
    rw [e, this]
    simp
  · have e : substr (forHeader D) 5 (D.length + 16)
        = "i = 0".toList ++ ';' :: ((' ' :: 'i' :: ' ' :: '<' :: ' ' :: D) ++ ';' :: " i++".toList) := by
      have hd : (forHeader D).drop 5
          = ("i = 0; i < ".toList ++ D ++ "; i++".toList) ++ [')', ' ', '\x7b'] := by
        simp [forHeader]
      unfold substr
      rw [hd, List.take_left' (by simp)]
      simp
    rw [e, splitTrim_append ';' _ _ _ (by decide)]
    rw [splitTrim, if_pos rfl]
    rw [splitTrim_append ';' _ _ _ (by simp [n3])]
    rw [splitTrim, if_pos rfl]
    have t3 : splitTrim ';' " i++".toList [] = ["i++".toList] := by decide
    rw [t3]
    simp only [List.append_nil, List.reverse_reverse]
    have t1 : trim "i = 0".toList = "i = 0".toList := by decide
    have t2 : trim ('i' :: ' ' :: '<' :: ' ' :: D) = 'i' :: ' ' :: '<' :: ' ' :: D :=
      trim_digits_tail 'i' [' ', '<', ' '] D (by decide) hne hall
    rw [t1, trim_cons_space, t2]

theorem findBlockEndNaive_of_shape (pre block post : List Str) (closing : Str)
    (hblock : ∀ l ∈ block, ∀ c ∈ l, isBrace c = false)
    (hclose : closing.find? isBrace = some '\x7d') :
    findBlockEndNaive (pre ++ (block ++ closing :: post)) pre.length
      = pre.length + block.length + 1 := by
  unfold findBlockEndNaive
  rw [List.drop_left, blockLoop_quiet]
  · exact blockLoop_closing _ _ _ _ (scanBracesNaive_closing _ hclose)
  · intro l hl
    exact scanBracesNaive_no_brace _ _ (hblock l hl)

theorem initLine_effect (fuel : Nat) (s : St)
    (hfun : mapFind s.userFunctions "int.i".toList = none) :
    processLine (fuel + 1) "int.i = 0".toList s
      = some (true, setVariable (recordLine s "int.i = 0".toList) "i".toList
          (Variable.new "int.i".toList "0".toList)) := by
  show dispatchLine (interp fuel) (trim "int.i = 0".toList) (recordLine s "int.i = 0".toList) = _
  have ht : trim "int.i = 0".toList = ['i', 'n', 't', '.', 'i', ' ', '=', ' ', '0'] := by decide
  have h1 : "if ".toList = ['i', 'f', ' '] := by decide
  have h2 : "else".toList = ['e', 'l', 's', 'e'] := by decide
  have h3 : "for ".toList = ['f', 'o', 'r', ' '] := by decide
  have h4 : "while ".toList = ['w', 'h', 'i', 'l', 'e', ' '] := by decide
  have h5 : "function ".toList = ['f', 'u', 'n', 'c', 't', 'i', 'o', 'n', ' '] := by decide
  have h6 : "return ".toList = ['r', 'e', 't', 'u', 'r', 'n', ' '] := by decide
  have hp : parseLine ['i', 'n', 't', '.', 'i', ' ', '=', ' ', '0']
      = ("int.i".toList, ["0".toList]) := by decide
  have hm : mapHas (recordLine s "int.i = 0".toList).userFunctions "int.i".toList = false := by
    unfold mapHas
    show (mapFind s.userFunctions "int.i".toList).isSome = false
    rw [hfun]; rfl
  rw [ht]
  unfold dispatchLine
  simp only [startsWith_cons, h1, h2, h3, h4, h5, h6, List.isPrefixOf, hp, hm]
  simp only [List.isEmpty_cons, List.head?_cons, Bool.false_eq_true, false_or, Option.some.injEq,
    Char.reduceEq, if_false, Bool.and_false, Bool.false_and, beq_iff_eq, Char.reduceBEq]
  rfl

theorem findStr_none_of_head (c : Char) (pat : Str) : ∀ (s : Str), c ∉ s →
    findStr (c :: pat) s = none := by
  intro s
  induction s with
  | nil => intro _; rfl
  | cons x xs ih =>
    intro h
    have hx : c ≠ x := fun e => h (e ▸ List.mem_cons_self _ _)
    unfold findStr
    rw [ih (fun hm => h (List.mem_cons_of_mem _ hm))]
    have hb : (c == x) = false := by simpa using hx
    simp [List.isPrefixOf, hb]

theorem numericLoop_digits : ∀ (s : Str) (first fl : Bool), (∀ c ∈ s, isdigit c = true) →
    numericLoop s first fl = (true, fl) := by
  intro s
  induction s with
  | nil => intro _ _ _; rfl
  | cons c cs ih =>
    intro first fl h
    have hc := h c (List.mem_cons_self _ _)
    have h1 : c ≠ '-' := isdigit_ne hc (by decide)
    have h2 : c ≠ '.' := isdigit_ne hc (by decide)
    unfold numericLoop
    simp only [h1, h2, and_false, if_false, hc, Bool.not_true, Bool.false_eq_true]
    exact ih false fl (fun d hd => h d (List.mem_cons_of_mem _ hd))

theorem getVariable_digits (st : St) (D : Str) (hne : D ≠ [])
    (hall : ∀ c ∈ D, isdigit c = true) :
    getVariable st D = Variable.new "int.literal".toList D := by
  unfold getVariable literalOf
  have he : D.isEmpty = false := by
    cases D with
    | nil => exact absurd rfl hne
    | cons _ _ => rfl
  simp only [he, Bool.false_eq_true, if_false, numericLoop_digits D true false hall, if_true]

theorem getVariable_i (st : St) (htop : st.localVariables = []) (k : Int)
    (hi : globalInt st "i".toList = some k) :
    (getVariable st "i".toList).isInteger = true ∧ (getVariable st "i".toList).getIntValue = k := by
  have hlit : literalOf "i".toList = none := rfl
  unfold globalInt at hi
  unfold getVariable lookupScopes
  simp only [hlit, htop]
  cases hm : mapFind st.globalVariables "i".toList with
  | none => rw [hm] at hi; cases hi
  | some v =>
    rw [hm] at hi
    simp only [] at hi
    by_cases hv : v.isInteger = true
    · simp only [hv, if_true, Option.some.injEq] at hi
      exact ⟨hv, hi⟩
    · simp only [hv, Bool.false_eq_true, if_false] at hi
      cases hi

theorem condition_lt (st : St) (D : Str) (k : Int) (N : Nat)
    (hne : D ≠ []) (hall : ∀ c ∈ D, isdigit c = true) (hval : digitsToNat D = N)
    (hN : N ≤ 2147483647) (htop : st.localVariables = [])
    (hi : globalInt st "i".toList = some k) :
    evaluateCondition st ('i' :: ' ' :: '<' :: ' ' :: D) = decide (k < (N : Int)) := by
  have n1 := digits_not_mem D hall '!' (by decide)
  have n2 := digits_not_mem D hall '>' (by decide)
  have hneq : findStr "!=".toList ('i' :: ' ' :: '<' :: ' ' :: D) = none :=
    findStr_none_of_head '!' ['='] _ (by simp [n1])
  have hgt : findChar '>' ('i' :: ' ' :: '<' :: ' ' :: D) = none :=
    findChar_of_not_mem '>' _ (by simp [n2])
  have hlt : findChar '<' ('i' :: ' ' :: '<' :: ' ' :: D) = some 2 := by
    have := findChar_append '<' ['i', ' '] (' ' :: D) (by decide)
    simpa using this
  have hleft : trim (substr ('i' :: ' ' :: '<' :: ' ' :: D) 0 2) = "i".toList := by
    show trim ['i', ' '] = _
    decide
  have hright : trim (substrFrom ('i' :: ' ' :: '<' :: ' ' :: D) (2 + 1)) = D := by
    show trim (' ' :: D) = D
    rw [trim_cons_space]
    cases D with
    | nil => exact absurd rfl hne
    | cons x xs =>
      have := trim_digits_tail x [] xs
      by_cases hx : xs = []
      · subst hx
        have hsp := isdigit_not_space x (hall x (List.mem_cons_self _ _))
        unfold trim
        simp [List.dropWhile_cons, hsp]
      · exact trim_digits_tail x [] xs
          (isdigit_not_space x (hall x (List.mem_cons_self _ _))) hx
          (fun c hc => hall c (List.mem_cons_of_mem _ hc))
  obtain ⟨hli, hlv⟩ := getVariable_i st htop k hi
  have hrlit := getVariable_digits st D hne hall
  have hrv : (Variable.new "int.literal".toList D).isInteger = true ∧
      (Variable.new "int.literal".toList D).getIntValue = (N : Int) := by
    obtain ⟨ht, hv⟩ := intVariable_value "literal".toList D
    refine ⟨by unfold Variable.isInteger; rw [show "int.literal".toList = "int.".toList ++ "literal".toList by decide, ht]; rfl, ?_⟩
    rw [show "int.literal".toList = "int.".toList ++ "literal".toList by decide, hv,
      stoi_digits D hne hall (by rw [hval]; exact hN), hval]
    rfl
  unfold evaluateCondition
  rw [hneq]
  simp only []
  unfold evaluateConditionGt
  rw [hgt]
  simp only []
  unfold evaluateConditionLt
  rw [hlt]
  simp only [hleft, hright, hrlit, hli, hrv.1, hlv, hrv.2, Bool.and_self, if_true]

theorem increment_i (r : Rec) (st : St)
    (hi : (getVariable st "i".toList).isInteger = true) :
    applyIncrement r "i++".toList st = some (setVariable st "i".toList
      (Variable.new "int.i".toList
        (intToString (wrap32 ((getVariable st "i".toList).getIntValue + 1))))) := by
  have hf : findStr "++".toList "i++".toList = some 1 := by decide
  have hv : trim (substr "i++".toList 0 1) = "i".toList := by decide
  have he : "i++".toList.isEmpty = false := by decide
  unfold applyIncrement
  simp only [he, Bool.false_eq_true, if_false, hf, hv, hi, if_true]
  rfl

theorem setVariable_top (st : St) (htop : st.localVariables = []) (n : Str) (v : Variable) :
    (setVariable st n v).globalVariables = mapSet st.globalVariables n v ∧
    (setVariable st n v).localVariables = [] := by
  unfold Flare.setVariable
  split
  · rename_i hl; rw [htop] at hl; cases hl
  · exact ⟨rfl, htop⟩

theorem globalInt_setVariable (st : St) (htop : st.localVariables = []) (i : Int)
    (h1 : -2147483648 ≤ i) (h2 : i ≤ 2147483647) :
    globalInt (setVariable st "i".toList (Variable.new "int.i".toList (intToString i)))
      "i".toList = some i ∧
    (setVariable st "i".toList (Variable.new "int.i".toList (intToString i))).localVariables
      = [] := by
  have hv := intVariable_of_int "i".toList i h1 h2
  obtain ⟨hg, hl⟩ := setVariable_top st htop "i".toList
    (Variable.new "int.i".toList (intToString i))
  refine ⟨?_, hl⟩
  unfold globalInt
  rw [hg]
  simp only [mapFind_mapSet_eq]
  have e : "int.i".toList = "int.".toList ++ "i".toList := by decide
  rw [e, hv.1, hv.2]
  rfl

theorem processForLoop_counting (r : Rec) (D : Str) (pre body post : List Str)
    (line closing : Str)
    (st : St) (hne : D ≠ []) (hall : ∀ c ∈ D, isdigit c = true)
    (hscript : st.scriptLines = pre ++ line :: (body ++ closing :: post))
    (hcur : st.currentLine = pre.length)
    (hbrace : ∀ l ∈ body, ∀ c ∈ l, isBrace c = false)
    (hclose : closing.find? isBrace = some '\x7d') :
    processForLoop r (forHeader D) st =
      match (r.processLine "int.i = 0".toList st).map Prod.snd with
      | none => none
      | some st1 =>
        match forIterate r ('i' :: ' ' :: '<' :: ' ' :: D) "i++".toList body r.loopFuel st1 with
        | none => none
        | some (false, st2) => some (false, st2)
        | some (true, st2) =>
          some (true, { st2 with currentLine := pre.length + body.length + 1 }) := by
  obtain ⟨f1, f2, f3, f4⟩ := forHeader_parse D hne hall
  have hstart : startsWith "for ".toList (forHeader D) = true := by
    have h3 : "for ".toList = ['f', 'o', 'r', ' '] := by decide
    unfold forHeader
    rw [startsWith_cons, h3]
    simp [List.isPrefixOf]
  have s1 : st.scriptLines = (pre ++ [line]) ++ (body ++ closing :: post) := by
    rw [hscript]; simp
  have hl : (pre ++ [line]).length = pre.length + 1 := by simp
  have e1 : findBlockEndNaive st.scriptLines (pre.length + 1) = pre.length + body.length + 2 := by
    have := findBlockEndNaive_of_shape (pre ++ [line]) body post closing hbrace hclose
    rw [← s1, hl] at this
    rw [this]
    omega
  have e2 : blockLines st.scriptLines (pre.length + 1) (pre.length + body.length + 2) = body := by
    unfold blockLines
    rw [s1]
    exact take_drop_append _ _ _ _ _ (by simp) (by omega)
  have hcmp : ¬ (4 ≥ D.length + 21 ∨ D.length + 21 ≥ D.length + 23) := by omega
  have hsub : D.length + 21 - 4 - 1 = D.length + 16 := by omega
  have hinit : "i = 0".toList.isEmpty = false := by decide
  have heq : findChar '=' "i = 0".toList = some 2 := by decide
  have hline : "int.".toList ++ trim (substr "i = 0".toList 0 2) ++ " = ".toList
      ++ trim (substrFrom "i = 0".toList (2 + 1)) = "int.i = 0".toList := by decide
  unfold processForLoop
  simp only [trim_forHeader, hstart, Bool.not_true, Bool.false_eq_true, if_false, f1, f2, f3,
    hcmp, hsub, f4, hcur, e1, e2, hinit, heq, hline, Nat.add_sub_cancel]
  rfl

theorem intToString_ofNat (n : Nat) : intToString (n : Int) = natToString n := by
  unfold intToString
  rw [if_neg (by omega)]
  rfl

theorem passStart_succ (pl : Str → St → Res Bool) (body : List Str) (k : Nat) (s0 b a : St)
    (hb : passStart pl body k s0 = some b) (ha : execBlock pl body b = some (true, a)) :
    passStart pl body (k + 1) s0 = some (setVariable a "i".toList
      (Variable.new "int.i".toList (natToString (k + 1)))) := by
  rw [passStart]
  simp only [hb, ha]

theorem passStart_inv (fuel N : Nat) (body : List Str) (s0 : St)
    (htop : s0.localVariables = []) (hi : globalInt s0 "i".toList = some 0)
    (hN : N ≤ 2147483647)
    (hbody : ∀ k, k < N → ∀ b, passStart (processLine fuel) body k s0 = some b →
      ∃ a, execBlock (processLine fuel) body b = some (true, a) ∧
        globalInt a "i".toList = globalInt b "i".toList) :
    ∀ k, k ≤ N → ∃ b, passStart (processLine fuel) body k s0 = some b ∧
      b.localVariables = [] ∧ globalInt b "i".toList = some (k : Int) := by
  intro k
  induction k with
  | zero => intro _; exact ⟨s0, rfl, htop, hi⟩
  | succ k ih =>
    intro hk
    obtain ⟨b, hb, hbt, hbi⟩ := ih (by omega)
    obtain ⟨a, ha, hai⟩ := hbody k (by omega) b hb
    have hframe := respects_execBlock (processLine fuel) (recOK_interp fuel).pl body b _ _ ha
    have hat : a.localVariables = [] := by
      have := hframe.localsLen
      rw [hbt] at this
      exact List.length_eq_zero.mp this
    refine ⟨_, passStart_succ _ _ _ _ _ _ hb ha, ?_⟩
    have := globalInt_setVariable a hat ((k + 1 : Nat) : Int) (by omega) (by omega)
    rw [intToString_ofNat] at this
    exact ⟨this.2, this.1⟩

theorem forIterate_counting (fuel N : Nat) (D : Str) (body : List Str) (s0 : St)
    (hne : D ≠ []) (hall : ∀ c ∈ D, isdigit c = true) (hval : digitsToNat D = N)
    (htop : s0.localVariables = []) (hi : globalInt s0 "i".toList = some 0)
    (hN : N ≤ 2147483647)
    (hbody : ∀ k, k < N → ∀ b, passStart (processLine fuel) body k s0 = some b →
      ∃ a, execBlock (processLine fuel) body b = some (true, a) ∧
        globalInt a "i".toList = globalInt b "i".toList) :
    ∀ (m k : Nat) (b : St), k + m = N → passStart (processLine fuel) body k s0 = some b →
      ∀ K, m < K → ∃ sN, passStart (processLine fuel) body N s0 = some sN ∧
        forIterate (interp fuel) ('i' :: ' ' :: '<' :: ' ' :: D) "i++".toList body K b
          = some (true, sN) := by
  have hinv := passStart_inv fuel N body s0 htop hi hN hbody
  intro m
  induction m with
  | zero =>
    intro k b hk hb K hK
    have hkN : k = N := by omega
    subst hkN
    obtain ⟨b', hb', hbt, hbi⟩ := hinv k (Nat.le_refl _)
    rw [hb] at hb'
    cases hb'
    refine ⟨b, hb, ?_⟩
    obtain ⟨K', rfl⟩ : ∃ K', K = K' + 1 := ⟨K - 1, by omega⟩
    rw [forIterate, condition_lt b D k k hne hall hval hN hbt hbi]
    simp
  | succ m ih =>
    intro k b hk hb K hK
    obtain ⟨b', hb', hbt, hbi⟩ := hinv k (by omega)
    rw [hb] at hb'
    cases hb'
    obtain ⟨a, ha, hai⟩ := hbody k (by omega) b hb
    have hframe := respects_execBlock (processLine fuel) (recOK_interp fuel).pl body b _ _ ha
    have hat : a.localVariables = [] := by
      have := hframe.localsLen
      rw [hbt] at this
      exact List.length_eq_zero.mp this
    obtain ⟨hgi, hgv⟩ := getVariable_i a hat k (hai.trans hbi)
    have hinc := increment_i (interp fuel) a hgi
    rw [hgv, wrap32_of_range _ (by omega) (by omega)] at hinc
    have hcast : ((k : Int) + 1) = ((k + 1 : Nat) : Int) := by omega
    rw [hcast, intToString_ofNat] at hinc
    have hnext := passStart_succ _ _ _ _ _ _ hb ha
    obtain ⟨K', rfl⟩ : ∃ K', K = K' + 1 := ⟨K - 1, by omega⟩
    obtain ⟨sN, hsN, hit⟩ := ih (k + 1) _ (by omega) hnext K' (by omega)
    refine ⟨sN, hsN, ?_⟩
    rw [forIterate, condition_lt b D k N hne hall hval hN hbt hbi]
    have hlt : decide ((k : Int) < (N : Int)) = true := by
      simp only [decide_eq_true_eq]; omega
    have ha' : execBlock (interp fuel).processLine body b = some (true, a) := ha
    simp only [hlt, if_true, ha', hinc]
    exact hit

theorem passesKeep_spec (pl : Str → St → Res Bool) (body : List Str) (s0 : St) :
    ∀ N, passesKeep pl body s0 N = true → ∀ k, k < N → ∀ b, passStart pl body k s0 = some b →
      ∃ a, execBlock pl body b = some (true, a) ∧
        globalInt a "i".toList = globalInt b "i".toList := by
  intro N
  induction N with
  | zero => intro _ k hk; exact absurd hk (Nat.not_lt_zero _)
  | succ n ih =>
    intro h k hk b hb
    rw [passesKeep, Bool.and_eq_true] at h
    by_cases hkn : k < n
    · exact ih h.1 k hkn b hb
    · have hk' : k = n := by omega
      subst hk'
      have h2 := h.2
      rw [hb] at h2
      simp only [] at h2
      split at h2
      · rename_i a ha
        exact ⟨a, ha, by simpa using h2⟩
      · cases h2

theorem processReturn_product (r : Rec) (e : Str) (st : St) (l m : Int)
    (hmul : '*' ∈ e)
    (hl : (getVariable st (trim (beforeFirst '*' e))).isInteger = true)
    (hlv : (getVariable st (trim (beforeFirst '*' e))).getIntValue = l)
    (hr : (getVariable st (trim (afterFirst '*' e))).isInteger = true)
    (hrv : (getVariable st (trim (afterFirst '*' e))).getIntValue = m) :
    processReturn r e st = some (true, setReturnValue (popFrame st)
      (Variable.new "int.result".toList (intToString (wrap32 (l * m))))) := by
  unfold processReturn
  simp only [findChar_of_mem '*' e hmul, substr, substrFrom, List.drop_zero, take_beforeFirst,
    drop_beforeFirst, hl, hr, hlv, hrv, and_self, if_true]

theorem fmemWithoutFlagRun_isSome : fmemWithoutFlagRun.isSome = true := by decide!

theorem countingBody_keeps : passesKeep (processLine 5) ["str.video++ i".toList]
    (afterInit countingState "for (i = 0; i < 3; i++) \x7b".toList) 3 = true := by decide!

/-! ## The claims on stops, stores, variables, expressions and loops -/

/-- C21 (the code departs from the claim): a stop issued in the initialisation
clause of a `for` loop is not noticed before the first body line has been
processed. In `stopInForInit` and `errInForInit` the line `str.video++ "a"` is
executed after the stop; only then does the loop unwind. A stop issued inside
an `if` block, a `while` body or a `for` body is followed by no other line. -/
theorem stop_in_for_init_runs_body_line :
    traceAfter (runScript 10 stopInForInit)
      = some ["for (allstop; 1 == 1; i++) \x7b", "allstop", "str.video++ \"a\""] ∧
    outAfter (runScript 10 stopInForInit) = some ["a"] ∧
    traceAfter (runScript 10 errInForInit)
      = some ["for (err \"boom\"; 1 == 1; i++) \x7b", "err \"boom\"", "str.video++ \"a\""] ∧
    outAfter (runScript 10 errInForInit) = some ["a"] ∧
    traceAfter (runScript 10 (stopInBlock "if (1 == 1) \x7b"))
      = some ["if (1 == 1) \x7b", "allstop"] ∧
    traceAfter (runScript 10 (stopInBlock "while (1 == 1) \x7b"))
      = some ["while (1 == 1) \x7b", "allstop"] ∧
    traceAfter (runScript 10 (stopInBlock "for (i = 0; i < 2; i++) \x7b"))
      = some ["for (i = 0; i < 2; i++) \x7b", "int.i = 0", "allstop"] := by
  decide!

/-- Counterexample for C22 as stated: the script `fmem.create("m", 10)` has
no `dynamic = true` line, but when it is run on an interpreter that ran the
script `dynamic = true` before, the command succeeds and creates the store
`m`; on a fresh interpreter it fails and creates nothing. -/
theorem fmem_active_after_earlier_script :
    resultOf (runTwice 10 ["dynamic = true"] "fmem.create(\"m\", 10)") = some true ∧
    errorsAfter (runTwice 10 ["dynamic = true"] "fmem.create(\"m\", 10)") = some [] ∧
    storesAfter (runScript 10 ["dynamic = true"]) = some [] ∧
    storesAfter (runTwice 10 ["dynamic = true"] "fmem.create(\"m\", 10)") = some ["m"] ∧
    resultOf (runScript 10 ["fmem.create(\"m\", 10)"]) = some false ∧
    storesAfter (runScript 10 ["fmem.create(\"m\", 10)"]) = some [] := by
  decide!

/-- C22 (amended): the fmem commands are active only while the dynamic-mode
flag of the interpreter is set. `run` sets the flag from the first
`dynamic = ` line of the script and otherwise keeps the flag it finds, which
is off on a new interpreter. When the flag is off before `run` and the script
has no `dynamic = true` line, the flag is off when the first line is
processed, every line processed (at any depth) while the flag is off leaves
the flag off and the store unchanged, every fmem command executed while the
flag is off fails with an error as its only effect, and the store after the
run is the store before it. -/
theorem fmem_inactive_without_flag (fuel : Nat) (st : St) (p : Bool × St)
    (hflag : st.isDynamicMode = false)
    (hscript : ∀ l ∈ st.scriptLines, trim l ≠ "dynamic = true".toList)
    (hrun : run fuel st = some p) :
    (runStart st).isDynamicMode = false ∧
    (∀ (depth : Nat) (line : Str) (s : St) (q : Bool × St), s.isDynamicMode = false →
      processLine depth line s = some q →
      q.2.isDynamicMode = false ∧ q.2.flameMemory = s.flameMemory) ∧
    (∀ (command : Str) (args : List Str) (s : St), s.isDynamicMode = false →
      processFlameMemory command args s = some (false, reportError s
        "FlameMemory operations are only available in dynamic mode".toList)) ∧
    p.2.isDynamicMode = false ∧ p.2.flameMemory = st.flameMemory := by
  have hstart := runStart_flag_off st hflag hscript
  refine ⟨hstart.1, ?_, ?_, ?_⟩
  · intro depth line s q hs hq
    have hQ := (recQuiet_interp depth).pl line s q.1 q.2 hq
    exact ⟨hQ.dynamic.trans hs, hQ.store hs⟩
  · intro command args s hs
    unfold processFlameMemory
    rw [if_pos (by simp [hs])]
  · unfold run at hrun
    split at hrun
    · cases hrun
      exact ⟨hflag, rfl⟩
    · have hQ := quiet_runLoop fuel fuel (runStart st) p.1 p.2 hrun
      exact ⟨hQ.dynamic.trans hstart.1, (hQ.store hstart.1).trans hstart.2⟩

/-- Witness for C22: `fmemWithoutFlag` on a fresh interpreter. The
`fmem.create` inside the `if` block fails without stopping the run, the one
at top level fails the run; no store exists afterwards. -/
theorem fmem_inactive_without_flag_witness :
    ((fmemWithoutFlagRun.get fmemWithoutFlagRun_isSome).2.isDynamicMode = false ∧
      (fmemWithoutFlagRun.get fmemWithoutFlagRun_isSome).2.flameMemory
        = ({ fresh with scriptLines := fmemWithoutFlag.map String.toList } : St).flameMemory) ∧
    outAfter fmemWithoutFlagRun = some ["x"] ∧
    storesAfter fmemWithoutFlagRun = some [] ∧
    errorsAfter fmemWithoutFlagRun
      = some ["FlameMemory operations are only available in dynamic mode",
          "FlameMemory operations are only available in dynamic mode",
          "Error executing line 5"] :=
  ⟨(fmem_inactive_without_flag 10 { fresh with scriptLines := fmemWithoutFlag.map String.toList }
      (fmemWithoutFlagRun.get fmemWithoutFlagRun_isSome) rfl (by decide)
      (Option.some_get fmemWithoutFlagRun_isSome).symm).2.2.2,
   by decide!, by decide!, by decide!⟩

/-- Counterexample for C23 as stated: the value text `""x""` has one pair of
enclosing double quotes around `"x"`; after create and write, the read puts
the String `x` in the return slot, not the String `"x"`. -/
theorem fmem_read_strips_two_pairs :
    resultOf (runScript 10 nestedQuoteScript) = some true ∧
    String.mk (unquote "\"\"x\"\"".toList) = "\"x\"" ∧
    globalAfter (runScript 10 nestedQuoteScript) "__return_value"
      = some (some (VType.STRING, "x")) ∧
    ¬ (globalAfter (runScript 10 nestedQuoteScript) "__return_value"
      = some (some (VType.STRING, String.mk (unquote "\"\"x\"\"".toList)))) := by
  decide!

/-- C23 (amended): FlameMemory round trip. After `fmem.create(name, size)`
and `fmem.write(name, key, value)` succeed (which they only do in dynamic
mode) on a store table with unique keys, `fmem.read(name, key)` succeeds and
puts in the return slot a String Variable whose value is the value text with
its enclosing double quotes removed and, when what remains is again enclosed
in double quotes, with that pair removed too. `fmem.destroy(name)` then
succeeds, and after it `fmem.read(name, key)` fails with an error and leaves
every global variable, the return slot included, as it was. -/
theorem fmem_round_trip (st st1 st2 : St) (name size key value : Str)
    (hkeys : (st.flameMemory.map Prod.fst).Nodup)
    (hcreate : processFlameMemory "fmem.create".toList [name, size] st = some (true, st1))
    (hwrite : processFlameMemory "fmem.write".toList [name, key, value] st1 = some (true, st2)) :
    (∃ v, processFlameMemory "fmem.read".toList [name, key] st2
        = some (true, setReturnValue st2 v) ∧
      mapFind (setReturnValue st2 v).globalVariables returnSlot = some v ∧
      v.type = VType.STRING ∧ v.getStringValue = unquote (unquote value)) ∧
    (∃ st3, processFlameMemory "fmem.destroy".toList [name] st2 = some (true, st3) ∧
      st3.globalVariables = st2.globalVariables ∧
      ∃ message, processFlameMemory "fmem.read".toList [name, key] st3
        = some (false, reportError st3 message) ∧
      (reportError st3 message).globalVariables = st2.globalVariables) := by
  obtain ⟨sz, h1⟩ := fmem_create_shape st st1 name size hcreate
  obtain ⟨mem, hm, h2⟩ := fmem_write_shape st1 st2 name key value hwrite
  have hd1 : st1.isDynamicMode = true := fmem_dynamic_of_success _ _ _ _ hwrite
  have hd2 : st2.isDynamicMode = true := by
    rw [h2]; exact hd1
  have hk1 : (st1.flameMemory.map Prod.fst).Nodup := by
    rw [h1]; exact nodup_keys_mapSet _ _ _ hkeys
  have hk2 : (st2.flameMemory.map Prod.fst).Nodup := by
    rw [h2]; exact nodup_keys_mapSet _ _ _ hk1
  have hm2 : mapFind st2.flameMemory (unquote name) = some
      ⟨mem.name, mem.size, mapSet mem.data (unquote key)
        (Variable.new ("str.".toList ++ unquote key) (unquote value))⟩ := by
    rw [h2]; exact mapFind_mapSet_eq _ _ _
  refine ⟨⟨Variable.new ("str.".toList ++ unquote key) (unquote value), ?_, ?_, ?_, ?_⟩,
    ⟨{ st2 with flameMemory := mapErase st2.flameMemory (unquote name) }, ?_, rfl,
      "FlameMemory '".toList ++ unquote name ++ "' not found".toList, ?_, rfl⟩⟩
  · exact fmem_read_found st2 name key _ _ hd2 hm2 (mapFind_mapSet_eq _ _ _)
  · exact mapFind_mapSet_eq _ _ _
  · exact (stringVariable_value _ _).1
  · exact (stringVariable_value _ _).2
  · exact fmem_destroy_found st2 name _ hd2 hm2
  · exact fmem_read_missing _ name key hd2 (mapFind_mapErase_eq _ _ hk2)

/-- Witness for C23: in `dynamicState`, whose return slot holds `old`, create
`m`, write the text `"hello"` under `k`: the read returns the String `hello`;
`roundTripScript` does the same in a run, and its last read, after the
destroy, fails and leaves `hello` in the slot. -/
theorem fmem_round_trip_witness :
    ((∃ v, processFlameMemory "fmem.read".toList ["\"m\"".toList, "\"k\"".toList]
          { dynamicState with flameMemory := [("m".toList, ⟨"m".toList, 10,
            [("k".toList, Variable.new "str.k".toList "hello".toList)]⟩)] }
        = some (true, setReturnValue
          { dynamicState with flameMemory := [("m".toList, ⟨"m".toList, 10,
            [("k".toList, Variable.new "str.k".toList "hello".toList)]⟩)] } v) ∧
      mapFind (setReturnValue
          { dynamicState with flameMemory := [("m".toList, ⟨"m".toList, 10,
            [("k".toList, Variable.new "str.k".toList "hello".toList)]⟩)] } v).globalVariables
        returnSlot = some v ∧
      v.type = VType.STRING ∧
      v.getStringValue = unquote (unquote "\"hello\"".toList))) ∧
    String.mk (unquote (unquote "\"hello\"".toList)) = "hello" ∧
    resultOf (runScript 10 roundTripScript) = some false ∧
    errorsAfter (runScript 10 roundTripScript)
      = some ["FlameMemory 'm' not found", "Error executing line 6"] ∧
    globalAfter (runScript 10 roundTripScript) "__return_value"
      = some (some (VType.STRING, "hello")) :=
  ⟨(fmem_round_trip dynamicState
      { dynamicState with flameMemory := [("m".toList, ⟨"m".toList, 10, []⟩)] }
      { dynamicState with flameMemory := [("m".toList, ⟨"m".toList, 10,
        [("k".toList, Variable.new "str.k".toList "hello".toList)]⟩)] }
      "\"m\"".toList "10".toList "\"k\"".toList "\"hello\"".toList
      (by decide) rfl rfl).1,
   by decide, by decide!, by decide!, by decide!⟩

/-- C24: loading is idempotent. When a library is registered under `name`
with its loaded flag set, `loadLibrary name path` returns success for every
path; the state after it is the state before it with one warning added, so
the library table (handle, loaded flag, cached symbols) and the error list
are unchanged; and the result does not depend on the platform loader, which
is not consulted. -/
theorem loadLibrary_idempotent (st : St) (name path : Str) (lib : Library)
    (hreg : mapFind st.libraries name = some lib) (hloaded : lib.isLoaded = true) :
    loadLibrary st name path
      = (true, reportWarning st ("Library '".toList ++ name ++ "' already loaded".toList)) ∧
    (loadLibrary st name path).2.libraries = st.libraries ∧
    (loadLibrary st name path).2.warnings
      = st.warnings ++ ["Library '".toList ++ name ++ "' already loaded".toList] ∧
    (loadLibrary st name path).2.errors = st.errors ∧
    (∀ platform : Platform, loadLibrary { st with platform := platform } name path
      = (true, reportWarning { st with platform := platform }
          ("Library '".toList ++ name ++ "' already loaded".toList))) := by
  have h : ∀ s : St, s.libraries = st.libraries → loadLibrary s name path
      = (true, reportWarning s ("Library '".toList ++ name ++ "' already loaded".toList)) := by
    intro s hs
    unfold loadLibrary
    simp only [hs, hreg, hloaded, if_true]
  have h0 := h st rfl
  refine ⟨h0, ?_, ?_, ?_, fun platform => h _ rfl⟩
  · rw [h0]; rfl
  · rw [h0]; rfl
  · rw [h0]; rfl

/-- Witness for C24: in `libraryState` the library `m` is loaded; loading `m`
again from any path succeeds with a warning and leaves the table as it is,
although the loader of that platform opens no file. -/
theorem loadLibrary_idempotent_witness :
    (loadLibrary libraryState "m".toList "libother.so".toList).1 = true ∧
    (loadLibrary libraryState "m".toList "libother.so".toList).2.libraries
      = libraryState.libraries ∧
    (loadLibrary libraryState "m".toList "libother.so".toList).2.warnings.map String.mk
      = ["Library 'm' already loaded"] ∧
    libraryState.platform.dlopen "libother.so".toList = none :=
  ⟨congrArg Prod.fst (loadLibrary_idempotent libraryState "m".toList "libother.so".toList
      ⟨"m".toList, some 1, [("f".toList, 2)], true⟩ rfl rfl).1,
   (loadLibrary_idempotent libraryState "m".toList "libother.so".toList
      ⟨"m".toList, some 1, [("f".toList, 2)], true⟩ rfl rfl).2.1,
   by decide, by decide⟩

/-- C25: the Variable invariant. For every type-and-name text and every value
text the constructed Variable stores the alternative that belongs to its type
(and its type is never `UNKNOWN`); `setValueFromString` establishes the
invariant on every Variable; `addToList` preserves it. -/
theorem variable_invariant :
    (∀ typeAndName value : Str,
      (Variable.new typeAndName value).consistent = true ∧
      (Variable.new typeAndName value).type ≠ VType.UNKNOWN) ∧
    (∀ (v : Variable) (value : Str), (v.setValueFromString value).consistent = true) ∧
    (∀ v x : Variable, v.consistent = true → (v.addToList x).consistent = true) := by
  refine ⟨fun t value => ⟨?_, ?_⟩, fun v value => ?_, fun v x h => ?_⟩
  · unfold Variable.new
    exact consistent_setValue _ _ _ _
  · unfold Variable.new
    exact typeFromString_ne_unknown _
  · unfold Variable.setValueFromString
    exact consistent_setValue _ _ _ _
  · obtain ⟨a, n, t, val⟩ := v
    unfold Variable.addToList
    split
    · rename_i hl
      have ht : t = VType.LIST := hl
      subst ht
      split <;> rfl
    · exact h

/-- Witness for C25: a List Variable is consistent, and stays so when an
Integer is added to it; an Integer built from the text `abc` holds the int 0. -/
theorem variable_invariant_witness :
    (Variable.new "ls.xs".toList []).consistent = true ∧
    ((Variable.new "ls.xs".toList []).addToList
      (Variable.new "int.n".toList "7".toList)).consistent = true ∧
    (Variable.new "int.n".toList "abc".toList).getIntValue = 0 :=
  ⟨by decide,
   variable_invariant.2.2 (Variable.new "ls.xs".toList [])
     (Variable.new "int.n".toList "7".toList) (by decide),
   by decide⟩

/-- C26 (the code departs from the claim): `evaluateExpression` returns the
undefined sentinel, a String with empty value, for `2 + 3`, `5 - 3` and
`2 * 3`, and for `a + b`, `b - a` and `a * b` where `a` and `b` are the
Integers 2 and 3; with or without spaces around the operator. -/
theorem arithmetic_expression_is_undefined :
    valueOf (evaluateExpression 5 "2 + 3".toList fresh) = some (VType.STRING, "") ∧
    valueOf (evaluateExpression 5 "5 - 3".toList fresh) = some (VType.STRING, "") ∧
    valueOf (evaluateExpression 5 "2 * 3".toList fresh) = some (VType.STRING, "") ∧
    valueOf (evaluateExpression 5 "2+3".toList fresh) = some (VType.STRING, "") ∧
    valueOf (evaluateExpression 5 "a + b".toList arithState) = some (VType.STRING, "") ∧
    valueOf (evaluateExpression 5 "b - a".toList arithState) = some (VType.STRING, "") ∧
    valueOf (evaluateExpression 5 "a * b".toList arithState) = some (VType.STRING, "") ∧
    valueOf (evaluateExpression 5 "a".toList arithState) = some (VType.INTEGER, "2") := by
  decide!

/-- C27 (the code departs from the claim): at top level the block of an `if`
whose condition is false is skipped, but when the `if` is a line of an
enclosing `if`, `for` or `while` block, the enclosing block goes on with the
next line, which is the first line of the inner block: `inner` is printed. -/
theorem nested_false_if_block_is_executed :
    outAfter (runScript 10 falseIfTop) = some ["after"] ∧
    outAfter (runScript 10 (falseIfNested "if (1 == 1) \x7b"))
      = some ["inner", "outer", "after"] ∧
    traceAfter (runScript 10 (falseIfNested "if (1 == 1) \x7b"))
      = some ["if (1 == 1) \x7b", "if (1 == 2) \x7b", "str.video++ \"inner\"", "\x7d",
          "str.video++ \"outer\"", "str.video++ \"after\""] ∧
    outAfter (runScript 10 (falseIfNested "for (i = 0; i < 1; i++) \x7b"))
      = some ["inner", "outer", "after"] ∧
    outAfter (runScript 10 falseIfInWhile) = some ["inner", "after"] := by
  decide!

/-- C28 (the code departs from the claim): `processLine` reports "Return
statement outside of function" for a `return` line whatever the call stack
holds: in every state the line `return 1` fails with that error. In
`returnInCallState` the body of `f` holds an `if` whose block, looked up after
the call line, is the line `return 5`: the call of `f` succeeds and records
the error while the invocation is active. In the run of `returnInCallScript`
the line `return 5` is processed and reported twice, once during the call of
`f` and once at top level. -/
theorem return_line_reported_in_call :
    (∀ (fuel : Nat) (st : St), processLine (fuel + 1) "return 1".toList st
      = some (false, reportError (recordLine st "return 1".toList)
          "Return statement outside of function".toList)) ∧
    resultOf (processFunctionCall 5 "f".toList [] returnInCallState) = some true ∧
    traceAfter (processFunctionCall 5 "f".toList [] returnInCallState)
      = some ["if (1 == 1) \x7b", "return 5"] ∧
    errorsAfter (processFunctionCall 5 "f".toList [] returnInCallState)
      = some ["Return statement outside of function"] ∧
    traceAfter (runScript 10 returnInCallScript)
      = some ["function f() \x7b", "f()", "if (1 == 1) \x7b", "return 5", "return 5"] ∧
    errorsAfter (runScript 10 returnInCallScript)
      = some ["Return statement outside of function", "Return statement outside of function",
          "Error executing line 7"] := by
  refine ⟨fun fuel st => ?_, by decide!, by decide!, by decide!, by decide!, by decide!⟩
  show dispatchLine (interp fuel) (trim "return 1".toList) _ = _
  have ht : trim "return 1".toList = ['r', 'e', 't', 'u', 'r', 'n', ' ', '1'] := by decide
  have h1 : "if ".toList = ['i', 'f', ' '] := by decide
  have h2 : "else".toList = ['e', 'l', 's', 'e'] := by decide
  have h3 : "for ".toList = ['f', 'o', 'r', ' '] := by decide
  have h4 : "while ".toList = ['w', 'h', 'i', 'l', 'e', ' '] := by decide
  have h5 : "function ".toList = ['f', 'u', 'n', 'c', 't', 'i', 'o', 'n', ' '] := by decide
  have h6 : "return ".toList = ['r', 'e', 't', 'u', 'r', 'n', ' '] := by decide
  rw [ht]
  unfold dispatchLine
  simp [startsWith_cons, h1, h2, h3, h4, h5, h6, List.isPrefixOf]

/-- Counting loops whose body lines hold no brace character: a top-level loop
`for (i = 0; i < N; i++) \x7b` with `N < 2^31`, at
index `pre.length` of the script, whose body lines hold no brace and are
followed by a line whose first brace closes the block. Provided that each of
the first `N` passes of the body returns without a stop and leaves the
Integer `i` as it found it (and that no function is named `int.i`), the
statement succeeds after exactly `N` passes: pass `k` starts in the state the
passes before it left, with `i` the Integer `k`; afterwards `i` is the Integer
`N`, the script is unchanged and the line index is on the closing line, so
that the next line `run` processes is the first line after it. -/
theorem for_loop_counts (fuel N : Nat) (pre body post : List Str) (line closing : Str) (st : St)
    (hN : N < 2147483648) (hfuel : N < fuel)
    (hline : trim line = forHeader (natToString N))
    (hscript : st.scriptLines = pre ++ line :: (body ++ closing :: post))
    (hcur : st.currentLine = pre.length)
    (htop : st.localVariables = [])
    (hfun : mapFind st.userFunctions "int.i".toList = none)
    (hbrace : ∀ l ∈ body, ∀ c ∈ l, isBrace c = false)
    (hclose : closing.find? isBrace = some '\x7d')
    (hbody : ∀ k, k < N → ∀ b, passStart (processLine fuel) body k (afterInit st line) = some b →
      ∃ a, execBlock (processLine fuel) body b = some (true, a) ∧
        globalInt a "i".toList = globalInt b "i".toList) :
    ∃ sN, passStart (processLine fuel) body N (afterInit st line) = some sN ∧
      processLine (fuel + 1) line st
        = some (true, { sN with currentLine := pre.length + body.length + 1 }) ∧
      (∀ k, k ≤ N → ∃ b, passStart (processLine fuel) body k (afterInit st line) = some b ∧
        globalInt b "i".toList = some (k : Int)) ∧
      globalInt sN "i".toList = some (N : Int) ∧
      sN.scriptLines = st.scriptLines ∧
      st.scriptLines.get? (pre.length + body.length + 1 + 1) = post.head? ∧
      (st.isRunning = true → TopStep (fuel + 1) st
        (advanceLine { sN with currentLine := pre.length + body.length + 1 })) := by
  obtain ⟨hne, hall, hval⟩ := natToString_spec N
  obtain ⟨f, rfl⟩ : ∃ f, fuel = f + 1 := ⟨fuel - 1, by omega⟩
  have h0 : (afterInit st line).localVariables = [] ∧
      globalInt (afterInit st line) "i".toList = some 0 := by
    have := globalInt_setVariable (recordLine (recordLine st line) "int.i = 0".toList) htop 0
      (by decide) (by decide)
    exact ⟨this.2, this.1⟩
  have hinv := passStart_inv (f + 1) N body (afterInit st line) h0.1 h0.2 (by omega) hbody
  obtain ⟨sN, hsN, hit⟩ := forIterate_counting (f + 1) N (natToString N) body (afterInit st line)
    hne hall hval h0.1 h0.2 (by omega) hbody N 0 (afterInit st line) (by omega) rfl (f + 1) hfuel
  have hinit : ((interp (f + 1)).processLine "int.i = 0".toList (recordLine st line)).map Prod.snd
      = some (afterInit st line) := by
    show (processLine (f + 1) "int.i = 0".toList (recordLine st line)).map Prod.snd = _
    rw [initLine_effect f (recordLine st line) hfun]
    rfl
  have hproc : processLine (f + 1 + 1) line st
      = some (true, { sN with currentLine := pre.length + body.length + 1 }) := by
    show dispatchLine (interp (f + 1)) (trim line) (recordLine st line) = _
    rw [hline, dispatchLine_forHeader,
      processForLoop_counting (interp (f + 1)) (natToString N) pre body post line closing
        (recordLine st line) hne hall hscript hcur hbrace hclose, hinit]
    show (match forIterate (interp (f + 1)) _ _ body (f + 1) (afterInit st line) with
      | none => none
      | some (false, st2) => some (false, st2)
      | some (true, st2) => _) = _
    rw [hit]
  have hquiet := (recQuiet_interp (f + 1 + 1)).pl line st _ _ hproc
  have hget : st.scriptLines.get? pre.length = some line := by
    rw [hscript]
    exact get?_append_cons _ _ _ _ rfl
  refine ⟨sN, hsN, hproc, ?_, ?_, hquiet.script, ?_, ?_⟩
  · intro k hk
    obtain ⟨b, hb, _, hbi⟩ := hinv k hk
    exact ⟨b, hb, hbi⟩
  · obtain ⟨b, hb, _, hbi⟩ := hinv N (Nat.le_refl _)
    rw [hsN] at hb
    cases hb
    exact hbi
  · have s4 : st.scriptLines = (pre ++ line :: (body ++ [closing])) ++ post := by
      rw [hscript]; simp
    rw [s4]
    cases post with
    | nil =>
      rw [List.get?_eq_getElem?, List.getElem?_eq_none]
      · rfl
      · simp; omega
    | cons p ps => exact get?_append_cons _ _ _ _ (by simp; omega)
  · intro hrun
    exact TopStep.step st _ line hrun (by rw [hcur]; exact hget) hproc

/-- An instance: the loop `for (i = 0; i < 3; i++) \x7b` over the body
`str.video++ i` in `countingState` prints 0, 1, 2, leaves `i = 3` and the line
index on the closing line (index 2), and the run goes on with the line after
the loop. -/
theorem for_loop_counts_witness :
    (∃ sN, passStart (processLine 5) ["str.video++ i".toList] 3
        (afterInit countingState "for (i = 0; i < 3; i++) \x7b".toList) = some sN ∧
      processLine (5 + 1) "for (i = 0; i < 3; i++) \x7b".toList countingState
        = some (true, { sN with currentLine := ([] : List Str).length
            + ["str.video++ i".toList].length + 1 }) ∧
      (∀ k, k ≤ 3 → ∃ b, passStart (processLine 5) ["str.video++ i".toList] k
          (afterInit countingState "for (i = 0; i < 3; i++) \x7b".toList) = some b ∧
        globalInt b "i".toList = some (k : Int)) ∧
      globalInt sN "i".toList = some ((3 : Nat) : Int) ∧
      sN.scriptLines = countingState.scriptLines ∧
      countingState.scriptLines.get? (([] : List Str).length
          + ["str.video++ i".toList].length + 1 + 1)
        = ["str.video++ \"after\"".toList].head? ∧
      (countingState.isRunning = true → TopStep (5 + 1) countingState
        (advanceLine { sN with currentLine := ([] : List Str).length
          + ["str.video++ i".toList].length + 1 }))) ∧
    observe (processLine 6 "for (i = 0; i < 3; i++) \x7b".toList countingState)
      = some (true, 2, ["0", "1", "2"],
          ["for (i = 0; i < 3; i++) \x7b", "int.i = 0", "str.video++ i", "str.video++ i",
           "str.video++ i"]) ∧
    outAfter (run 10 countingState) = some ["0", "1", "2", "after"] :=
  ⟨for_loop_counts 5 3 [] ["str.video++ i".toList] ["str.video++ \"after\"".toList]
      "for (i = 0; i < 3; i++) \x7b".toList "\x7d".toList countingState
      (by decide) (by decide) (by decide) rfl rfl rfl rfl (by decide) (by decide)
      (passesKeep_spec _ _ _ 3 countingBody_keeps),
   by decide!, by decide!⟩

/-- C29 (the code departs from the claim): a loop body that prints a closing
brace. In `loopPrintsBrace` the loop is `for (i = 0; i < 2; i++) \x7b` and its
body is the simple statement `str.video++ "\x7d"`, which does not assign `i`.
The scan for the end of the block counts the brace inside the quoted text, so
the block is empty: the body line is executed 0 times, not 2 (the output is
`after` only, and the body line is never processed), while `i` still counts
to 2. With a letter in place of the brace the body runs twice. -/
theorem loop_body_with_quoted_brace_never_runs :
    outAfter (runScript 20 loopPrintsBrace) = some ["after"] ∧
    traceAfter (runScript 20 loopPrintsBrace)
      = some ["for (i = 0; i < 2; i++) \x7b", "int.i = 0", "\x7d", "str.video++ \"after\""] ∧
    globalAfter (runScript 20 loopPrintsBrace) "i" = some (some (VType.INTEGER, "2")) ∧
    outAfter (runScript 20 loopPrintsLetter) = some ["x", "x", "after"] := by
  decide!

/-- C30: the return fast path for multiplication. When the body loop of an
invocation reaches (reads at its index, with at least one element to go) a
line `return L * R` (the first `*` of the expression
splits it), and `L` and `R`, trimmed, resolve in the state of the callee to
Integers `l` and `m` whose product fits in 32 bits, the invocation returns
success; the state after it is the callee state with its scope popped and the
return slot set, and the slot holds an Integer whose value is `l * m`. -/
theorem return_product_fast_path (r : Rec) (name : Str) (count index : Nat) (line expr : Str)
    (st : St) (l m : Int)
    (hat : bodyLineAt st name index = some line)
    (hline : trim line = "return ".toList ++ expr)
    (hmul : '*' ∈ expr)
    (hl : (getVariable st (trim (beforeFirst '*' expr))).isInteger = true)
    (hlv : (getVariable st (trim (beforeFirst '*' expr))).getIntValue = l)
    (hr : (getVariable st (trim (afterFirst '*' expr))).isInteger = true)
    (hrv : (getVariable st (trim (afterFirst '*' expr))).getIntValue = m)
    (hlo : -2147483648 ≤ l * m) (hhi : l * m ≤ 2147483647) :
    ∃ v, callBody r name (count + 1) index st = some (true, setReturnValue (popFrame st) v) ∧
      mapFind (setReturnValue (popFrame st) v).globalVariables returnSlot = some v ∧
      v.isInteger = true ∧ v.getIntValue = l * m ∧
      (setReturnValue (popFrame st) v).localVariables = st.localVariables.tail ∧
      (setReturnValue (popFrame st) v).callStack = st.callStack.tail := by
  have hsp : isspace '*' = false := by decide
  have hpat : "return ".toList = ['r', 'e', 't', 'u', 'r', 'n', ' '] := by decide
  have hstart : startsWith "return ".toList (trim line) = true := by
    rw [hline, hpat]
    show startsWith _ ('r' :: _) = true
    rw [startsWith_cons]
    simp [List.isPrefixOf]
  have hexpr : substrFrom (trim line) 7 = expr := by
    rw [hline, hpat]; rfl
  have hv := intVariable_of_int "result".toList (l * m) hlo hhi
  refine ⟨Variable.new "int.result".toList (intToString (l * m)), ?_,
    mapFind_mapSet_eq _ _ _, hv.1, hv.2, rfl, rfl⟩
  rw [callBody]
  simp only [hat, hstart, if_true, hexpr]
  rw [processReturn_product r (trim expr) st l m (mem_trim_of_mem _ _ hmul hsp)
    (by rw [trim_beforeFirst_trim '*' expr hmul hsp]; exact hl)
    (by rw [trim_beforeFirst_trim '*' expr hmul hsp]; exact hlv)
    (by rw [trim_afterFirst_trim '*' expr hmul hsp]; exact hr)
    (by rw [trim_afterFirst_trim '*' expr hmul hsp]; exact hrv),
    wrap32_of_range _ hlo hhi]

/-- Witness for C30: in `productState` the local table binds `a = 6` and
`b = 7` and the globals bind `a = 100`; the line `return a * b` puts the
Integer 42 in the return slot. The same in a run: `productScript` leaves 42
in the slot. -/
theorem return_product_fast_path_witness :
    (∃ v, callBody (interp 3) "mul".toList (1 + 1) 0 productState
        = some (true, setReturnValue (popFrame productState) v) ∧
      mapFind (setReturnValue (popFrame productState) v).globalVariables returnSlot = some v ∧
      v.isInteger = true ∧ v.getIntValue = 6 * 7 ∧
      (setReturnValue (popFrame productState) v).localVariables
        = productState.localVariables.tail ∧
      (setReturnValue (popFrame productState) v).callStack = productState.callStack.tail) ∧
    globalAfter (runScript 10 productScript) "__return_value"
      = some (some (VType.INTEGER, "42")) :=
  ⟨return_product_fast_path (interp 3) "mul".toList 1 0 "  return a * b".toList
    "a * b".toList productState 6 7 rfl (by decide) (by decide) (by decide) (by decide)
    (by decide) (by decide) (by decide) (by decide), by decide!⟩

/-! ## Lemmas: literals, conditions, the body loop and argument lists -/

/-- The float flag of the numeric-literal loop on a text of digits and dots. -/
theorem numericLoop_flag : ∀ (s : Str) (fl : Bool),
    s.all (fun c => c == '.' || isdigit c) = true →
    numericLoop s false fl = (true, fl || decide ('.' ∈ s)) := by
  intro s
  induction s with
  | nil => intro fl _; simp [numericLoop]
  | cons c cs ih =>
    intro fl h
    simp only [List.all_cons, Bool.and_eq_true, Bool.or_eq_true, beq_iff_eq] at h
    obtain ⟨hc, hcs⟩ := h
    unfold numericLoop
    by_cases hdot : c = '.'
    · subst hdot
      simp [ih true hcs]
    · have hd : isdigit c = true := by
        rcases hc with h1 | h1
        · exact absurd h1 hdot
        · exact h1
      have hne : ('.' : Char) ≠ c := fun e => hdot e.symm
      simp [hdot, hd, ih fl hcs, hne]

/-- The numeric-literal loop on a text of the numeric shape. -/
theorem numericLoop_shape_flag (name : Str) (h : numericShape name = true) :
    numericLoop name true false = (true, decide ('.' ∈ name)) := by
  cases name with
  | nil => simp [numericLoop]
  | cons c cs =>
    by_cases hc : c = '-'
    · subst hc
      have h1 : cs.all (fun c => c == '.' || isdigit c) = true := h
      unfold numericLoop
      simp [numericLoop_flag cs false h1]
    · have h1 : (c :: cs).all (fun c => c == '.' || isdigit c) = true := by
        unfold numericShape at h
        split at h
        · rename_i r heq
          cases heq
          exact absurd rfl hc
        · exact h
      have h2 := numericLoop_flag (c :: cs) false h1
      unfold numericLoop at h2 ⊢
      simpa [hc] using h2

/-- A token of the numeric shape is a literal: Float when it has a dot,
Integer otherwise. -/
theorem getVariable_numeric (st : St) (name : Str) (hne : name ≠ [])
    (h : numericShape name = true) :
    getVariable st name =
      if '.' ∈ name then Variable.new "fl.literal".toList name
      else Variable.new "int.literal".toList name := by
  have hl := numericLoop_shape_flag name h
  unfold getVariable literalOf
  cases name with
  | nil => exact absurd rfl hne
  | cons c cs =>
    simp only [List.isEmpty_cons, Bool.false_eq_true, if_false, hl, if_true]
    by_cases hd : '.' ∈ c :: cs
    · simp [hd]
    · simp [hd]

/-- A run of digits has the numeric shape. -/
theorem numericShape_digits (D : Str) (hall : ∀ c ∈ D, isdigit c = true) :
    numericShape D = true ∧ numericShape ('-' :: D) = true := by
  have h : D.all (fun c => c == '.' || isdigit c) = true := by
    rw [List.all_eq_true]
    intro c hc
    simp [hall c hc]
  refine ⟨?_, h⟩
  unfold numericShape
  split
  · rename_i r
    rw [List.all_eq_true]
    intro c hc
    simp [hall c (List.mem_cons_of_mem _ hc)]
  · exact h

/-- `std::stoi` throws on a text that does not start with an integer. -/
theorem stoi_none_of_no_integer (value : Str) (h : startsWithInteger value = false) :
    stoi value = none := by
  unfold startsWithInteger at h
  unfold stoi
  generalize value.dropWhile isspace = w at h
  match w, h with
  | [], _ => rfl
  | ['-'], _ => rfl
  | ['+'], _ => rfl
  | '-' :: c :: r, h =>
    have hc : isdigit c = false := h
    simp [splitSign, List.takeWhile, hc]
  | '+' :: c :: r, h =>
    have hc : isdigit c = false := h
    simp [splitSign, List.takeWhile, hc]
  | c :: r, h =>
    by_cases h1 : c = '-'
    · subst h1
      cases r with
      | nil => rfl
      | cons d r =>
        have hc : isdigit d = false := h
        simp [splitSign, List.takeWhile, hc]
    · by_cases h2 : c = '+'
      · subst h2
        cases r with
        | nil => rfl
        | cons d r =>
          have hc : isdigit d = false := h
          simp [splitSign, List.takeWhile, hc]
      · have hc : isdigit c = false := by
          split at h
          · rename_i heq; cases heq; exact absurd rfl h1
          · rename_i heq; cases heq; exact absurd rfl h2
          · rename_i heq; cases heq; exact h
          · rename_i heq; cases heq
        have hs : splitSign (c :: r) = (false, c :: r) := by
          unfold splitSign
          split
          · rename_i heq; cases heq; exact absurd rfl h1
          · rename_i heq; cases heq; exact absurd rfl h2
          · rfl
        simp [hs, List.takeWhile, hc]

/-- The type string of a Variable has no dot: it is never `str.undefined`. -/
theorem getTypeString_ne_undefined (v : Variable) :
    v.getTypeString ≠ "str.undefined".toList := by
  unfold Variable.getTypeString
  cases hf : findChar '.' v.typeAndName with
  | none =>
    show (match v.type with
      | .STRING => "str".toList | .INTEGER => "int".toList | .FLOAT => "fl".toList
      | .BINARY => "bin".toList | .LIST => "ls".toList | .BOOLEAN => "act".toList
      | .UNKNOWN => "unknown".toList) ≠ _
    cases v.type <;> decide
  | some d =>
    show substr v.typeAndName 0 d ≠ _
    intro he
    have hmem : '.' ∈ v.typeAndName := by
      by_contra hn
      rw [findChar_of_not_mem '.' _ hn] at hf
      cases hf
    have hd := findChar_of_mem '.' v.typeAndName hmem
    rw [hf] at hd
    cases hd
    have hb : substr v.typeAndName 0 (beforeFirst '.' v.typeAndName).length
        = beforeFirst '.' v.typeAndName := by
      unfold substr
      simp only [List.drop_zero]
      exact take_beforeFirst '.' v.typeAndName
    rw [hb] at he
    have hin : '.' ∈ beforeFirst '.' v.typeAndName := by rw [he]; decide
    unfold beforeFirst at hin
    have := List.mem_takeWhile_imp hin
    simp at this

/-- What a plain token is made of. -/
theorem plainToken_spec (t : Str) (h : plainToken t = true) :
    t ≠ [] ∧ trim t = t ∧ ∀ c ∈ t, c ≠ ',' ∧ c ≠ '"' ∧ c ≠ '(' ∧ c ≠ ')' := by
  unfold plainToken at h
  cases t with
  | nil => simp at h
  | cons a r =>
    have hl : ∃ z, (a :: r).getLast? = some z := by
      cases hz : (a :: r).getLast? with
      | none => simp at hz
      | some z => exact ⟨z, rfl⟩
    obtain ⟨z, hz⟩ := hl
    simp only [List.head?_cons, hz, Bool.and_eq_true, Bool.not_eq_true', List.all_eq_true,
      bne_iff_ne, ne_eq] at h
    obtain ⟨⟨ha, hzs⟩, hall⟩ := h
    refine ⟨by simp, ?_, fun c hc => ?_⟩
    · rcases List.eq_nil_or_concat r with hr | ⟨m, y, hr⟩
      · subst hr
        simp [trim, List.dropWhile, ha]
      · rw [List.concat_eq_append] at hr
        subst hr
        have e : a :: (m ++ [y]) = (a :: m) ++ [y] := rfl
        rw [e, List.getLast?_concat] at hz
        cases hz
        exact trim_of_ends a _ m ha hzs
    · have := hall c hc
      tauto

/-- The argument loop reads a stretch without comma, quote or parenthesis
into the current argument. -/
theorem parseArgsLoop_plain (rest : Str) : ∀ (t cur : Str),
    (∀ c ∈ t, c ≠ ',' ∧ c ≠ '"' ∧ c ≠ '(' ∧ c ≠ ')') →
    parseArgsLoop (t ++ rest) cur false 0 = parseArgsLoop rest (t.reverse ++ cur) false 0 := by
  intro t
  induction t with
  | nil => intro cur _; rfl
  | cons c cs ih =>
    intro cur h
    obtain ⟨h1, h2, h3, h4⟩ := h c (List.mem_cons_self _ _)
    have hcs := ih (c :: cur) (fun d hd => h d (List.mem_cons_of_mem _ hd))
    have step : parseArgsLoop (c :: (cs ++ rest)) cur false 0
        = parseArgsLoop (cs ++ rest) (c :: cur) false 0 := by
      simp [parseArgsLoop, h1, h2, h3, h4]
    show parseArgsLoop (c :: (cs ++ rest)) cur false 0 = _
    rw [step, hcs]
    simp

/-- Splitting the joined tokens, with white space already read into the
current argument. -/
theorem parseArgsLoop_join : ∀ (tokens : List Str) (ws : Str), tokens ≠ [] →
    (∀ t ∈ tokens, plainToken t = true) → (∀ c ∈ ws, isspace c = true) →
    parseArgsLoop (joinCommaSpace tokens) ws false 0 = tokens := by
  intro tokens
  induction tokens with
  | nil => intro ws h; exact absurd rfl h
  | cons t ts ih =>
    intro ws _ htok hws
    obtain ⟨hne, htrim, hplain⟩ := plainToken_spec t (htok t (List.mem_cons_self _ _))
    have hcur : trim (t.reverse ++ ws).reverse = t := by
      rw [List.reverse_append, List.reverse_reverse,
        trim_append_left_space ws.reverse t (fun c hc => hws c (List.mem_reverse.mp hc)), htrim]
    cases ts with
    | nil =>
      show parseArgsLoop t ws false 0 = [t]
      have := parseArgsLoop_plain [] t ws hplain
      rw [List.append_nil] at this
      have hemp : (t.reverse ++ ws).isEmpty = false := by
        cases t with
        | nil => exact absurd rfl hne
        | cons a r => simp
      have fin : parseArgsLoop [] (t.reverse ++ ws) false 0
          = [trim (t.reverse ++ ws).reverse] := by
        simp only [parseArgsLoop, hemp, Bool.false_eq_true, if_false]
      rw [this, fin, hcur]
    | cons q ps =>
      show parseArgsLoop (t ++ ',' :: ' ' :: joinCommaSpace (q :: ps)) ws false 0 = _
      have step : ∀ rest cur, parseArgsLoop (',' :: ' ' :: rest) cur false 0
          = trim cur.reverse :: parseArgsLoop rest [' '] false 0 := by
        intro rest cur
        simp [parseArgsLoop]
      rw [parseArgsLoop_plain _ t ws hplain, step, hcur,
        ih [' '] (by simp) (fun u hu => htok u (List.mem_cons_of_mem _ hu))
          (fun c hc => by simp at hc; subst hc; rfl)]

/-- The first occurrence of a pattern whose first character does not occur
before it. -/
theorem findStr_append (c : Char) (pat : Str) (b : Str) : ∀ (a : Str), c ∉ a →
    findStr (c :: pat) (a ++ (c :: pat) ++ b) = some a.length := by
  intro a
  induction a with
  | nil =>
    intro _
    show findStr (c :: pat) (c :: (pat ++ b)) = some 0
    unfold findStr
    have hp : (c :: pat).isPrefixOf (c :: (pat ++ b)) = true := by
      rw [ List.isPrefixOf_iff_prefix]
      exact ⟨b, rfl⟩
    rw [if_pos hp]
  | cons x xs ih =>
    intro h
    have hx : c ≠ x := fun e => h (by rw [e]; exact List.mem_cons_self _ _)
    have hxs : c ∉ xs := fun hm => h (List.mem_cons_of_mem _ hm)
    show findStr (c :: pat) (x :: (xs ++ (c :: pat) ++ b)) = _
    unfold findStr
    have hb : (c == x) = false := by simpa using hx
    have hp : (c :: pat).isPrefixOf (x :: (xs ++ (c :: pat) ++ b)) = false := by
      simp [List.isPrefixOf, hb]
    rw [hp, ih hxs]
    rfl

/-- The operands of a condition `L op R` whose operator has two characters. -/
theorem condition_operands (c d : Char) (L R : Str) (h : c ∉ L) (hc : c ≠ ' ') :
    findStr [c, d] (L ++ ' ' :: c :: d :: ' ' :: R) = some (L.length + 1) ∧
    trim (substr (L ++ ' ' :: c :: d :: ' ' :: R) 0 (L.length + 1)) = trim L ∧
    trim (substrFrom (L ++ ' ' :: c :: d :: ' ' :: R) (L.length + 1 + 2)) = trim R := by
  have e : L ++ ' ' :: c :: d :: ' ' :: R = (L ++ [' ']) ++ [c, d] ++ (' ' :: R) := by simp
  have hmem : c ∉ L ++ [' '] := by
    intro hm
    rcases List.mem_append.mp hm with h1 | h1
    · exact h h1
    · simp at h1; exact hc h1
  refine ⟨?_, ?_, ?_⟩
  · rw [e, findStr_append c [d] (' ' :: R) (L ++ [' ']) hmem]
    simp
  · have : substr (L ++ ' ' :: c :: d :: ' ' :: R) 0 (L.length + 1) = L ++ [' '] := by
      unfold substr
      rw [e, List.drop_zero, List.append_assoc]
      have hl : (L ++ [' ']).length = L.length + 1 := by simp
      rw [← hl, List.take_left]
    rw [this]
    exact trim_append_right_space L [' '] (fun x hx => by simp at hx; subst hx; rfl)
  · have : substrFrom (L ++ ' ' :: c :: d :: ' ' :: R) (L.length + 1 + 2) = ' ' :: R := by
      unfold substrFrom
      have e2 : L ++ ' ' :: c :: d :: ' ' :: R = (L ++ [' ', c, d]) ++ (' ' :: R) := by simp
      have hl : (L ++ [' ', c, d]).length = L.length + 1 + 2 := by simp
      rw [e2, ← hl, List.drop_left]
    rw [this]
    exact trim_cons_space R

/-- A String Variable whose stored alternative agrees with its type prints
its stored text. -/
theorem string_value_printed (v : Variable) (hc : v.consistent = true)
    (hs : v.isString = true) : v.getValueAsString = v.getStringValue := by
  obtain ⟨a, n, t, val⟩ := v
  have ht : t = VType.STRING := by simpa [Variable.isString, Variable.type] using hs
  subst ht
  cases val <;> first | rfl | (simp [Variable.consistent, Variable.type, Variable.value] at hc)

/-- An expression that resolves to a Variable with a type string is returned
as resolved, in the same state. -/
theorem evaluateExpressionB_resolved (r : Rec) (expr : Str) (st : St)
    (h : (getVariable st expr).getTypeString ≠ []) :
    evaluateExpressionB r expr st = some (getVariable st expr, st) := by
  unfold evaluateExpressionB
  have h1 : (getVariable st expr).getTypeString.isEmpty = false := by
    cases hg : (getVariable st expr).getTypeString with
    | nil => exact absurd hg h
    | cons c cs => rfl
  simp only [h1, Bool.not_false, ne_eq, getTypeString_ne_undefined, not_false_eq_true, and_self,
    if_true]

/-- A `return` line whose expression resolves to a Variable with a type string
ends the invocation with success. -/
theorem processReturn_returns (r : Rec) (e : Str) (st : St)
    (h : (getVariable st e).getTypeString ≠ []) :
    ∃ s, processReturn r e st = some (true, s) := by
  unfold processReturn
  simp only [evaluateExpressionB_resolved r e st h]
  split
  · split
    · exact ⟨_, rfl⟩
    · split <;> exact ⟨_, rfl⟩
  · split <;> exact ⟨_, rfl⟩

/-- The body loop ends at the first `return` line of the stored body when the
lines before it are gone through and leave the body registered. -/
theorem processFunctionCallB_first_return (r : Rec) (name : Str) (args : List Str) (st : St)
    (func : FunctionDefinition) (pre post : List Str) (ret : Str) (s1 : St)
    (hfunc : mapFind st.userFunctions name = some func)
    (hargs : args.length = func.parameters.length)
    (hbody : func.body = pre ++ ret :: post)
    (hpre : ∀ l ∈ pre, startsWith "return ".toList (trim l) = false)
    (hret : startsWith "return ".toList (trim ret) = true)
    (hrun : bodyReaches r name func.body pre (callStart st func args) = some s1) :
    processFunctionCallB r name args st
      = processReturn r (trim (substrFrom (trim ret) 7)) s1 := by
  unfold processFunctionCallB
  rw [hfunc]
  simp only [hargs, ne_eq, not_true_eq_false, if_false]
  have hr0 : registeredBody (callStart st func args) name = some func.body := by
    show (mapFind st.userFunctions name).map _ = _
    rw [hfunc]; rfl
  have hlen : func.body.length = pre.length + (post.length + 1) := by
    rw [hbody]; simp
  obtain ⟨h, hr1⟩ := callBody_reaches r name func.body (ret :: post) pre (post.length + 1) 0
    (callStart st func args) s1 hr0 (by simpa using hbody) hpre hrun
  have hat : bodyLineAt s1 name (0 + pre.length) = some ret := by
    rw [bodyLineAt_of_registered s1 name func.body _ hr1, hbody, Nat.zero_add,
      List.get?_eq_getElem?, List.getElem?_append_right (Nat.le_refl _)]
    simp
  show callBody r name func.body.length 0 (callStart st func args) = _
  rw [hlen, h, callBody]
  simp only [hat, hret, if_true]

/-- When nothing overwrites the body while the lines before its first
`return` line run, the invocation is the `return` of that line in the state
reached. Let the body be `pre ++ ret :: post`, where the trimmed text of `ret`
begins with `return ` and that of no line of `pre` does, and let the body loop
go through `pre` (`bodyReaches`: whatever the lines of `pre` are, also an `if`
line with a false condition, each is processed or skipped in body order).
Then the result does not depend on `post`, no line of which is processed; and
when the returned expression resolves to a Variable with a type string, the
invocation returns true. -/
theorem first_return_ends_unchanged_body (fuel : Nat) (name : Str) (args : List Str) (st : St)
    (func : FunctionDefinition) (pre post : List Str) (ret : Str) (s1 : St)
    (hfunc : mapFind st.userFunctions name = some func)
    (hargs : args.length = func.parameters.length)
    (hbody : func.body = pre ++ ret :: post)
    (hpre : ∀ l ∈ pre, startsWith "return ".toList (trim l) = false)
    (hret : startsWith "return ".toList (trim ret) = true)
    (hrun : bodyReaches (interp fuel) name func.body pre (callStart st func args) = some s1) :
    processFunctionCall (fuel + 1) name args st
      = processReturn (interp fuel) (trim (substrFrom (trim ret) 7)) s1 ∧
    ((getVariable s1 (trim (substrFrom (trim ret) 7))).getTypeString ≠ [] →
      ∃ s2, processFunctionCall (fuel + 1) name args st = some (true, s2)) := by
  have main : processFunctionCall (fuel + 1) name args st
      = processReturn (interp fuel) (trim (substrFrom (trim ret) 7)) s1 :=
    processFunctionCallB_first_return (interp fuel) name args st func pre post ret s1
      hfunc hargs hbody hpre hret hrun
  refine ⟨main, fun h => ?_⟩
  rw [main]
  exact processReturn_returns (interp fuel) _ s1 h

/-- The body loop of `firstReturnReach` reaches the first `return` line. -/
theorem firstReturnReach_isSome : firstReturnReach.isSome = true := by decide!

/-- An instance: the body of `f` in `firstReturnState` is an `if` line with a
false condition, `return 1`, the closing brace and `return 2`; the invocation
ends at `return 1`, and the return slot holds the Integer 1. -/
theorem first_return_in_false_if_block :
    globalAfter (processFunctionCall 6 "f".toList [] firstReturnState) "__return_value"
      = some (some (VType.INTEGER, "1")) :=
  (congrArg (fun res => globalAfter res "__return_value")
    (first_return_ends_unchanged_body 5 "f".toList [] firstReturnState
      ⟨"f".toList, [], ((firstReturnScript.map String.toList).drop 1).take 4⟩
      ["if (1 == 2) \x7b".toList] ["\x7d".toList, "return 2".toList] "return 1".toList
      (firstReturnReach.get firstReturnReach_isSome)
      rfl rfl rfl (by decide) (by decide)
      (Option.some_get firstReturnReach_isSome).symm).1).trans (by decide!)

/-! ## The claims on invocations, conditions, literals and argument lists -/

/-- C31: an invocation restores the outer line index. Whenever
`processFunctionCall` returns, whether the body ended at a `return` line, by
running off its end or because a stop was requested, and also when the
function is unknown or the argument count is wrong, the current line index of
the resulting state is the one the call started with, whatever lines the body
holds. -/
theorem invocation_restores_line_index (fuel : Nat) (name : Str) (args : List Str) (st : St)
    (p : Bool × St) (h : processFunctionCall fuel name args st = some p) :
    p.2.currentLine = st.currentLine :=
  ((recOK_interp fuel).pfc name args st p.1 p.2 h).currentLine

/-- The invocation of `pointerCall` returns. -/
theorem pointerCall_isSome : pointerCall.isSome = true := by decide!

/-- Witness for C31: the body of `f` in `pointerState` runs an `if` line and a
`for` line, and the invocation ends with the line index 9 of the call. -/
theorem invocation_restores_line_index_witness :
    (pointerCall.get pointerCall_isSome).2.currentLine = 9 :=
  invocation_restores_line_index 40 "f".toList ["1".toList] pointerState
    (pointerCall.get pointerCall_isSome) (Option.some_get pointerCall_isSome).symm

/-- C32: ordering of operands that are not both Integers and not both Floats.
In every state the conditions `"a" > "b"`, `"b" > "a"` and `"a" < "b"`, whose
operands resolve to Strings, are all true: no ordering branch applies, and the
whole condition text, which starts and ends with a double quote, is read as
a non-empty String literal. The script `orderingScript` therefore runs its
`if` block and prints `yes`. -/
theorem ordering_of_strings_is_true (st : St) :
    (getVariable st "\"a\"".toList).type = VType.STRING ∧
    (getVariable st "\"b\"".toList).type = VType.STRING ∧
    evaluateCondition st "\"a\" > \"b\"".toList = true ∧
    evaluateCondition st "\"b\" > \"a\"".toList = true ∧
    evaluateCondition st "\"a\" < \"b\"".toList = true ∧
    outAfter (runScript 10 orderingScript) = some ["yes"] :=
  ⟨rfl, rfl, rfl, rfl, rfl, by decide!⟩

/-- Counterexample for C33 as stated: after `act.true = false` the name `true`
is bound to a Boolean whose stored value is false, and the condition text
`true`, which holds no operator and names that variable, is true: the words
`true`, `1`, `false`, `0` and the literal tokens are decided before any
variable is looked up. The `if (true)` block of `shadowedNameScript` runs. -/
theorem literal_word_shadows_bound_name :
    boundAndTested (runScript 10 shadowedNameScript) "true" = some (false, true) ∧
    outAfter (runScript 10 shadowedNameScript) = some ["yes"] := by
  decide!

/-- C33 (as amended): variable truthiness. For a condition text that holds
none of `!=`, `>`, `<`, `==` and is a name (not empty, not a numeric or quoted literal, not
the word `true` or `false`), `evaluateCondition` returns, when the name is
bound in the top local table or the global table, the stored value of a
Boolean, "value is not 0" for an Integer, "value is not empty" for a String
and false for a Float, Binary or List; and false when the name is unbound. -/
theorem variable_truthiness (st : St) (cond : Str)
    (hne : containsStr "!=".toList cond = false) (hgt : containsChar '>' cond = false)
    (hlt : containsChar '<' cond = false) (heq : containsStr "==".toList cond = false)
    (hname : plainName cond = true) :
    evaluateCondition st cond =
      match lookupScopes st cond with
      | some v => truthOf v
      | none => false := by
  have h1 : findStr "!=".toList cond = none := by
    unfold containsStr at hne; simpa using hne
  have h2 : findChar '>' cond = none := by
    unfold containsChar at hgt; simpa using hgt
  have h3 : findChar '<' cond = none := by
    unfold containsChar at hlt; simpa using hlt
  have h4 : findStr "==".toList cond = none := by
    unfold containsStr at heq; simpa using heq
  unfold plainName at hname
  simp only [Bool.and_eq_true, Bool.not_eq_true', decide_eq_true_eq, List.isEmpty_eq_false] at hname
  obtain ⟨⟨⟨⟨hn, hshape⟩, hq⟩, ht⟩, hf⟩ := hname
  have hlit : literalOf cond = none := literalOf_none cond hn hshape hq
  have h10 : cond ≠ "1".toList := by
    intro e; rw [e] at hshape; exact absurd hshape (by decide)
  have h00 : cond ≠ "0".toList := by
    intro e; rw [e] at hshape; exact absurd hshape (by decide)
  unfold evaluateCondition
  rw [h1]
  unfold evaluateConditionGt
  rw [h2]
  unfold evaluateConditionLt
  rw [h3]
  unfold evaluateConditionEq
  rw [h4]
  unfold evaluateConditionDefault getVariable
  rw [hlit]
  simp only [ht, hf, h10, h00, or_self, if_false]
  cases hl : lookupScopes st cond with
  | none => rfl
  | some v =>
    simp only [Variable.isBoolean, Variable.isInteger, Variable.isString, truthOf]
    cases v.type <;> simp

/-- Witness for C33: in `typedState` the names bound to the Boolean true, the
Integer 7 and the String `hi` are true, and the names bound to the Integer 0,
the empty String, a Float, a Binary and a List, and an unbound name, are
false. -/
theorem variable_truthiness_witness :
    evaluateCondition typedState "on".toList = true ∧
    evaluateCondition typedState "n".toList = true ∧
    evaluateCondition typedState "z".toList = false ∧
    evaluateCondition typedState "s".toList = true ∧
    evaluateCondition typedState "e".toList = false ∧
    evaluateCondition typedState "x".toList = false ∧
    evaluateCondition typedState "b".toList = false ∧
    evaluateCondition typedState "l".toList = false ∧
    evaluateCondition typedState "u".toList = false :=
  ⟨(variable_truthiness typedState "on".toList rfl rfl rfl rfl rfl).trans (by decide!),
   (variable_truthiness typedState "n".toList rfl rfl rfl rfl rfl).trans (by decide!),
   (variable_truthiness typedState "z".toList rfl rfl rfl rfl rfl).trans (by decide!),
   (variable_truthiness typedState "s".toList rfl rfl rfl rfl rfl).trans (by decide!),
   (variable_truthiness typedState "e".toList rfl rfl rfl rfl rfl).trans (by decide!),
   (variable_truthiness typedState "x".toList rfl rfl rfl rfl rfl).trans (by decide!),
   (variable_truthiness typedState "b".toList rfl rfl rfl rfl rfl).trans (by decide!),
   (variable_truthiness typedState "l".toList rfl rfl rfl rfl rfl).trans (by decide!),
   (variable_truthiness typedState "u".toList rfl rfl rfl rfl rfl).trans (by decide!)⟩

/-- C34: a token with several dots. Every non-empty token that consists,
after an optional leading `-`, of digits and dots only, and has at least one
dot, is resolved by `getVariable` to a Float literal built from the token, in
every state and whatever is bound: the number of dots is not counted. -/
theorem dotted_token_is_float (st : St) (name : Str) (hne : name ≠ [])
    (hshape : numericShape name = true) (hdot : '.' ∈ name) :
    getVariable st name = Variable.new "fl.literal".toList name := by
  rw [getVariable_numeric st name hne hshape, if_pos hdot]

/-- Witness for C34: `1.2.3` resolves to the Float literal 1.2, not to the
undefined sentinel. -/
theorem dotted_token_is_float_witness :
    (getVariable fresh "1.2.3".toList).type = VType.FLOAT ∧
    (getVariable fresh "1.2.3".toList).getValueAsString = "1.200000".toList ∧
    (getVariable fresh "1.2.3".toList).typeAndName = "fl.literal".toList ∧
    outAfter (runScript 10 twoDotsScript) = some ["1.200000"] := by
  rw [dotted_token_is_float fresh "1.2.3".toList (by decide) (by decide) (by decide)]
  exact ⟨rfl, by decide!, rfl, by decide!⟩

/-- C35 (as amended): literal inference of Integer. For every token made of
an optional leading `-` followed by one or more decimal digits whose number
fits the 32-bit `int` (at most 2147483647, or 2147483648 under a `-`),
`getVariable` returns, in every state and whatever is bound, an Integer
Variable whose value is the number the token denotes. -/
theorem integer_literal_value (st : St) (neg : Bool) (D : Str) (hne : D ≠ [])
    (hall : ∀ c ∈ D, isdigit c = true)
    (hrange : digitsToNat D ≤ (if neg then 2147483648 else 2147483647)) :
    (getVariable st (if neg then '-' :: D else D)).type = VType.INTEGER ∧
    (getVariable st (if neg then '-' :: D else D)).getIntValue
      = (if neg then -(digitsToNat D : Int) else (digitsToNat D : Int)) := by
  have hdot : '.' ∉ D := digits_not_mem D hall '.' (by decide)
  cases neg with
  | false =>
    simp only [Bool.false_eq_true, if_false] at hrange ⊢
    rw [getVariable_numeric st D hne (numericShape_digits D hall).1, if_neg hdot]
    have h := intVariable_value "literal".toList D
    rw [stoi_digits D hne hall hrange] at h
    exact h
  | true =>
    simp only [if_true] at hrange ⊢
    have hdot2 : '.' ∉ '-' :: D := by
      intro hm
      rcases List.mem_cons.mp hm with h1 | h1
      · exact absurd h1 (by decide)
      · exact hdot h1
    rw [getVariable_numeric st ('-' :: D) (by simp) (numericShape_digits D hall).2, if_neg hdot2]
    have h := intVariable_value "literal".toList ('-' :: D)
    rw [stoi_neg_digits D hne hall hrange] at h
    exact h

/-- Witness for C35: the token `-2147483648` is the Integer -2147483648. -/
theorem integer_literal_value_witness :
    (getVariable fresh "-2147483648".toList).type = VType.INTEGER ∧
    (getVariable fresh "-2147483648".toList).getIntValue = -2147483648 :=
  integer_literal_value fresh true "2147483648".toList (by decide) (by decide) (by decide)

/-- Counterexample for C35: the token `2147483648`, ten decimal digits that
denote 2147483648, resolves to the Integer 0; and a script that compares a
token of eleven digits with `0` finds them equal. -/
theorem integer_literal_out_of_range :
    (getVariable fresh "2147483648".toList).type = VType.INTEGER ∧
    (getVariable fresh "2147483648".toList).getIntValue = 0 ∧
    digitsToNat "2147483648".toList = 2147483648 ∧
    outAfter (runScript 10 elevenDigitsScript) = some ["yes"] :=
  ⟨rfl, by decide!, by decide!, by decide!⟩

/-- C36 (as amended): integer coercion defaults texts without a number. For
every value text that does not start, after leading white space and one
optional sign, with a decimal digit, the Variable constructed under a
type-and-name `int.<name>` is an Integer that stores 0. -/
theorem integer_coercion_defaults (name value : Str) (h : startsWithInteger value = false) :
    (Variable.new ("int.".toList ++ name) value).type = VType.INTEGER ∧
    (Variable.new ("int.".toList ++ name) value).getIntValue = 0 := by
  have hv := intVariable_value name value
  rw [stoi_none_of_no_integer value h] at hv
  exact hv

/-- Witness for C36: the text `abc` stored under `int.n` gives 0. -/
theorem integer_coercion_defaults_witness :
    (Variable.new "int.n".toList "abc".toList).type = VType.INTEGER ∧
    (Variable.new "int.n".toList "abc".toList).getIntValue = 0 :=
  integer_coercion_defaults "n".toList "abc".toList (by decide)

/-- Counterexample for C36: the texts `12abc`, ` 42`, `+5` and `3.7` are not
integer literals, and an Integer Variable constructed from them stores 12,
42, 5 and 3; the declaration `int.n = "12abc"` binds `n` to 12. -/
theorem integer_coercion_keeps_leading_digits :
    (Variable.new "int.n".toList "12abc".toList).getIntValue = 12 ∧
    (Variable.new "int.n".toList " 42".toList).getIntValue = 42 ∧
    (Variable.new "int.n".toList "+5".toList).getIntValue = 5 ∧
    (Variable.new "int.n".toList "3.7".toList).getIntValue = 3 ∧
    globalAfter (runScript 10 leadingDigitsScript) "n" = some (some (VType.INTEGER, "12")) :=
  ⟨by decide!, by decide!, by decide!, by decide!, by decide!⟩

/-- C37 (as amended): `evaluateExpression` and `getVariable`. For every
expression text and every state in which `getVariable` resolves the text to a
Variable whose type string is not empty (its type-and-name does not start
with a dot), `evaluateExpression` returns exactly that Variable and leaves
the state as it was: the type string, the text before the dot, never equals
`str.undefined`. -/
theorem evaluateExpression_is_getVariable (fuel : Nat) (expr : Str) (st : St)
    (h : (getVariable st expr).getTypeString ≠ []) :
    evaluateExpression (fuel + 1) expr st = some (getVariable st expr, st) :=
  evaluateExpressionB_resolved (interp fuel) expr st h

/-- Witness for C37: the text `a + b` in `arithState` evaluates to what
`getVariable` gives for it. -/
theorem evaluateExpression_is_getVariable_witness :
    evaluateExpression 1 "a + b".toList arithState
      = some (getVariable arithState "a + b".toList, arithState) :=
  evaluateExpression_is_getVariable 0 "a + b".toList arithState (by decide)

/-- Counterexample for C37: after the line `.f(1) = 5` the name `f(1)` is
bound to a Variable that prints `5` and whose type string is empty;
`evaluateExpression` on `f(1)` does not return it: it tries an invocation of
`f`, records the error `Function 'f' not defined` and returns 0. -/
theorem evaluateExpression_differs_on_empty_type :
    compareAfter (runScript 10 untypedScript) "f(1)"
      = some ("0", "5", ["Function 'f' not defined"]) := by
  decide!

/-- C38 (the code departs from the claim): a body that registers its own
function again. In `overwriteState` the stored body of `f` is
`function f() \x7b`, `return 1`, `\x7d`, `\x7d`, whose first `return` line
is `return 1`. The first body line registers `f` again with the block after
the call line, `return 5`, `str.video++ "new"`, `return 2`, `\x7d`; the body
loop, which iterates the entry of the registry, goes on at index 1 of that
new body: it processes `str.video++ "new"` and ends at `return 2`. The
invocation returns 2, which is neither the first `return` of the body that
was stored when the call started nor that of the body stored afterwards.
The run of `overwriteScript` registers that first body, makes this call on
line 6 and leaves 2 in the return slot (it fails afterwards, on the line
`return 5` at top level). -/
theorem overwritten_body_misses_first_return :
    (runScript 10 (overwriteScript.take 6)).bind (fun p => registeredBody p.2 "f".toList)
      = some ["function f() \x7b".toList, "return 1".toList, "\x7d".toList, "\x7d".toList] ∧
    registeredBody overwriteState "f".toList
      = some ["function f() \x7b".toList, "return 1".toList, "\x7d".toList, "\x7d".toList] ∧
    callOutcome (runScript 10 overwriteScript)
      = some (false, ["new", "DEBUG: In function, setting __return_value to '2', type: int\n"],
          ["function f() \x7b", "f()", "function f() \x7b", "str.video++ \"new\"", "return 5"],
          some "2") ∧
    callOutcome (processFunctionCall 6 "f".toList [] overwriteState)
      = some (true, ["new", "DEBUG: In function, setting __return_value to '2', type: int\n"],
          ["function f() \x7b", "str.video++ \"new\""], some "2") ∧
    (processFunctionCall 6 "f".toList [] overwriteState).bind
        (fun p => registeredBody p.2 "f".toList)
      = some ["return 5".toList, "str.video++ \"new\"".toList, "return 2".toList,
          "\x7d".toList] := by
  decide!

/-- C39: equality and inequality conditions are complementary. For all
operand texts `L` and `R` that hold none of the characters `=`, `!`, `<`,
`>`, and every state in which the two operands resolve to Variables whose
stored alternative agrees with their type (the invariant of `Variable`),
`evaluateCondition` on `L != R` is the negation of `evaluateCondition` on
`L == R`. -/
theorem equality_inequality_complementary (st : St) (L R : Str)
    (hL : ∀ c ∈ L, c ≠ '=' ∧ c ≠ '!' ∧ c ≠ '<' ∧ c ≠ '>')
    (hR : ∀ c ∈ R, c ≠ '=' ∧ c ≠ '!' ∧ c ≠ '<' ∧ c ≠ '>')
    (hcL : (getVariable st (trim L)).consistent = true)
    (hcR : (getVariable st (trim R)).consistent = true) :
    evaluateCondition st (L ++ " != ".toList ++ R)
      = !evaluateCondition st (L ++ " == ".toList ++ R) := by
  have e1 : L ++ " != ".toList ++ R = L ++ ' ' :: '!' :: '=' :: ' ' :: R := by
    show L ++ [' ', '!', '=', ' '] ++ R = _
    simp
  have e2 : L ++ " == ".toList ++ R = L ++ ' ' :: '=' :: '=' :: ' ' :: R := by
    show L ++ [' ', '=', '=', ' '] ++ R = _
    simp
  have notin : ∀ (c : Char), c ∉ L → c ∉ R → c ≠ ' ' → c ≠ '=' →
      c ∉ L ++ ' ' :: '=' :: '=' :: ' ' :: R := by
    intro c h1 h2 h3 h4 hm
    rcases List.mem_append.mp hm with h | h
    · exact h1 h
    · simp only [List.mem_cons] at h
      rcases h with h | h | h | h | h
      · exact h3 h
      · exact h4 h
      · exact h4 h
      · exact h3 h
      · exact h2 h
  obtain ⟨n1, n2, n3⟩ := condition_operands '!' '=' L R (fun h => (hL _ h).2.1 rfl) (by decide)
  obtain ⟨q1, q2, q3⟩ := condition_operands '=' '=' L R (fun h => (hL _ h).1 rfl) (by decide)
  have g1 : findStr "!=".toList (L ++ ' ' :: '=' :: '=' :: ' ' :: R) = none :=
    findStr_none_of_head '!' ['='] _
      (notin '!' (fun h => (hL _ h).2.1 rfl) (fun h => (hR _ h).2.1 rfl) (by decide) (by decide))
  have g2 : findChar '>' (L ++ ' ' :: '=' :: '=' :: ' ' :: R) = none :=
    findChar_of_not_mem '>' _
      (notin '>' (fun h => (hL _ h).2.2.2 rfl) (fun h => (hR _ h).2.2.2 rfl) (by decide)
        (by decide))
  have g3 : findChar '<' (L ++ ' ' :: '=' :: '=' :: ' ' :: R) = none :=
    findChar_of_not_mem '<' _
      (notin '<' (fun h => (hL _ h).2.2.1 rfl) (fun h => (hR _ h).2.2.1 rfl) (by decide)
        (by decide))
  rw [e1, e2]
  have rhs : evaluateCondition st (L ++ ' ' :: '=' :: '=' :: ' ' :: R)
      = evaluateConditionEq st (L ++ ' ' :: '=' :: '=' :: ' ' :: R) := by
    unfold evaluateCondition
    rw [g1]
    unfold evaluateConditionGt
    rw [g2]
    unfold evaluateConditionLt
    rw [g3]
  rw [rhs]
  unfold evaluateCondition evaluateConditionEq
  have n1' : findStr "!=".toList (L ++ ' ' :: '!' :: '=' :: ' ' :: R) = some (L.length + 1) := n1
  have q1' : findStr "==".toList (L ++ ' ' :: '=' :: '=' :: ' ' :: R) = some (L.length + 1) := q1
  rw [n1', q1']
  simp only [n2, n3, q2, q3]
  generalize getVariable st (trim L) = l at hcL
  generalize getVariable st (trim R) = r at hcR
  by_cases hq : isQuoted (trim R) = true
  · simp only [hq, if_true]
    by_cases hs : l.isString = true
    · simp [hs]
    · simp [hs]
  · simp only [hq, if_false, Bool.false_eq_true]
    by_cases hi : (l.isInteger && r.isInteger) = true
    · simp only [hi, if_true]; simp
    · simp only [hi, if_false, Bool.false_eq_true]
      by_cases hf : (l.isFloat && r.isFloat) = true
      · simp only [hf, if_true]; simp
      · simp only [hf, if_false, Bool.false_eq_true]
        by_cases hs : (l.isString && r.isString) = true
        · simp only [hs, if_true]
          simp only [Bool.and_eq_true] at hs
          rw [string_value_printed l hcL hs.1, string_value_printed r hcR hs.2]
          simp
        · simp only [hs, if_false, Bool.false_eq_true]
          simp

/-- Witness for C39: in `arithState`, where `a` is 2 and `b` is 3, `a != b`
is true and is the negation of `a == b`. -/
theorem equality_inequality_complementary_witness :
    evaluateCondition arithState "a != b".toList = true ∧
    evaluateCondition arithState "a != b".toList
      = !evaluateCondition arithState "a == b".toList :=
  ⟨by decide!,
   equality_inequality_complementary arithState "a".toList "b".toList (by decide) (by decide)
    rfl rfl⟩

/-- C40: argument splitting undoes joining. For every non-empty list of
tokens, each of them non-empty, without white space at either end and without
a comma, double quote or parenthesis, `parseParenthesizedArgs` applied to the
tokens joined with `, ` returns exactly that list; and on the empty text it
returns the empty list. -/
theorem args_split_undoes_join (tokens : List Str) (hne : tokens ≠ [])
    (htok : ∀ t ∈ tokens, plainToken t = true) :
    parseParenthesizedArgs (joinCommaSpace tokens) = tokens ∧
    parseParenthesizedArgs [] = [] :=
  ⟨parseArgsLoop_join tokens [] hne htok (fun _ hc => absurd hc (List.not_mem_nil _)), rfl⟩

/-- Witness for C40: the tokens `a`, `b c` and `42` joined and split again. -/
theorem args_split_undoes_join_witness :
    parseParenthesizedArgs "a, b c, 42".toList = ["a".toList, "b c".toList, "42".toList] :=
  (args_split_undoes_join ["a".toList, "b c".toList, "42".toList] (by decide) (by decide)).1

end Flare
